import Mathlib

/-! # Deadlock detector (`deadlock.cpp`): lock bookkeeping and wait-for cycle search

A shallow embedding of `DeadLock` from
`app_watch_sdk/src/main/cpp/deadlock/deadlock.cpp`.

Modelling conventions.

* Thread ids, recursion depths and clock readings are unbounded integers
  (`Int`); mutex addresses are natural numbers.  The declarations of
  `LockInfo` and `BlockedMutex` live in `deadlock.h`; their fields are taken
  from the uses in `deadlock.cpp`.
* A `BlockedMutex *` pointing into the vector `sBlockedMutexes` is a pair
  (position in the vector, element stored there).  Pointer equality is
  equality of positions.
* The inner `while` of `find_dead_locks` has no bound in the source.  The
  embedding gives every walk a step budget (`fuel`); the answer `none`
  means that the budget was used up before the loop stopped.
* The platform is an input: the calling thread id, the clock readings and the
  outcomes of the underlying lock primitive are parameters.
-/

namespace DeadLock

/-! ## Data model -/

/-- Kind of primitive behind a descriptor (`MUTEX_TYPE`, declared in
`deadlock.h`); `deadlock.cpp` names the value `MUTEX` only, the second value
is the read/write lock of the data model. -/
inductive MUTEX_TYPE where
  | MUTEX
  | RWLOCK
  deriving DecidableEq, Repr

/-- One stalled acquisition: `blocked_thread` waits for `mutex`, which was held
by `owner_thread` when the entry was recorded. -/
structure BlockedMutex where
  mutex : Nat
  type : MUTEX_TYPE
  owner_thread : Int
  blocked_thread : Int
  dumped : Bool
  deriving DecidableEq, Repr

/-- Descriptor of one tracked mutex (`LockInfo`); `deep` is the recursion
depth and `owner = 0` means that nobody holds the mutex. -/
structure LockInfo where
  lock : Nat
  type : MUTEX_TYPE
  recursive : Bool
  owner : Int
  deep : Int
  enter_time : Int
  deriving DecidableEq, Repr

/-- A `BlockedMutex *` into `sBlockedMutexes`: position and pointee. -/
abbrev BlockedPtr := Nat × BlockedMutex

/-- Modelled from the spec: the value of `BlockedMutex::dumped` in a newly
constructed entry.  The member initialiser is in `deadlock.h`;
`collect_blocked_items` does not assign the field, and the description of
`record` says "`dumped=false`". -/
def dumped_default : Bool := false

/-- Modelled from the spec: the default argument of the parameter `force` in
the declaration of `find_dead_locks` in `deadlock.h`.  `try_lock` calls
`find_dead_locks(tid, deadlock_links)` without it; the driver relies on the
deduplication that only applies when `force` is unset. -/
def force_default : Bool := false

/-! ## Cycle detector -/

/-- The `for` loop of `find_next_jump`, started at vector position `k`: the
first entry that is not `from_mutex` itself and whose blocked thread is the
owner recorded in `from_mutex`. -/
def next_jump_scan (from_mutex : BlockedPtr) : List BlockedMutex → Nat → Option BlockedPtr
  | [], _ => none
  | item :: rest, k =>
    if from_mutex.1 = k then next_jump_scan from_mutex rest (k + 1)
    else if from_mutex.2.owner_thread = item.blocked_thread then some (k, item)
    else next_jump_scan from_mutex rest (k + 1)

/-- Source `DeadLock::find_next_jump`; `none` is the null pointer. -/
def find_next_jump (sBlockedMutexes : List BlockedMutex) :
    Option BlockedPtr → Option BlockedPtr
  | none => none
  | some from_mutex => next_jump_scan from_mutex sBlockedMutexes 0

/-- The loop of `find_dead_locks` that collects `blockPoints`, started at vector
position `k` with the points `acc` collected so far.  `none` is the early
`return` taken when `force` is unset and an entry of the thread is already
dumped. -/
def collect_block_points (blocked_thread : Int) (force : Bool) :
    List BlockedMutex → Nat → List BlockedPtr → Option (List BlockedPtr)
  | [], _, acc => some acc
  | item :: rest, k, acc =>
    if item.blocked_thread = blocked_thread then
      if !force && item.dumped then none
      else collect_block_points blocked_thread force rest (k + 1) (acc ++ [(k, item)])
    else collect_block_points blocked_thread force rest (k + 1) acc

/-- The inner `while ((pNext = find_next_jump(pCurrentItem)) != NULL)` of
`find_dead_locks`.  Outer `none`: the step budget ran out.  `some none`: the
loop ended because no successor exists.  `some (some items)`: the loop ended
at the `break`, and `items` is the chain that is copied into a link. -/
def follow_chain (sBlockedMutexes : List BlockedMutex) (blocked_thread : Int) :
    Nat → BlockedPtr → List BlockedPtr → Option (Option (List BlockedPtr))
  | 0, _, _ => none
  | fuel + 1, pCurrentItem, items =>
    match find_next_jump sBlockedMutexes (some pCurrentItem) with
    | none => some none
    | some pNext =>
      if pNext.2.owner_thread = blocked_thread then some (some (items ++ [pNext]))
      else follow_chain sBlockedMutexes blocked_thread fuel pNext (items ++ [pNext])

/-- The loop `for (auto &item : blockPoints)` of `find_dead_locks`: one walk
per block point, each closed chain appended to `deadlock_links`. -/
def search_links (sBlockedMutexes : List BlockedMutex) (blocked_thread : Int) (fuel : Nat) :
    List BlockedPtr → List (List BlockedMutex) → Option (List (List BlockedMutex))
  | [], deadlock_links => some deadlock_links
  | item :: rest, deadlock_links =>
    match follow_chain sBlockedMutexes blocked_thread fuel item [item] with
    | none => none
    | some none => search_links sBlockedMutexes blocked_thread fuel rest deadlock_links
    | some (some items) =>
      search_links sBlockedMutexes blocked_thread fuel rest
        (deadlock_links ++ [items.map Prod.snd])

/-- Body of the marking loop of `find_dead_locks`, applied to one entry. -/
def mark_entry (blocked_thread : Int) (item : BlockedMutex) : BlockedMutex :=
  if item.blocked_thread = blocked_thread then { item with dumped := true } else item

/-- The marking loop of `find_dead_locks`: every entry of the thread gets
`dumped = true`. -/
def mark_dumped (blocked_thread : Int) (sBlockedMutexes : List BlockedMutex) :
    List BlockedMutex :=
  sBlockedMutexes.map (mark_entry blocked_thread)

/-- Source `DeadLock::find_dead_locks`.  The state is the vector
`sBlockedMutexes` and the in/out argument `deadlock_links`; the result is the
pair of both after the call. -/
def find_dead_locks (fuel : Nat) (blocked_thread : Int) (force : Bool)
    (sBlockedMutexes : List BlockedMutex) (deadlock_links : List (List BlockedMutex)) :
    Option (List BlockedMutex × List (List BlockedMutex)) :=
  if sBlockedMutexes.length < 2 then some (sBlockedMutexes, deadlock_links)
  else
    match collect_block_points blocked_thread force sBlockedMutexes 0 [] with
    | none => some (sBlockedMutexes, deadlock_links)
    | some blockPoints =>
      match search_links sBlockedMutexes blocked_thread fuel blockPoints deadlock_links with
      | none => none
      | some links =>
        if links.length > 0 then
          if links.length ≥ blockPoints.length then
            some (mark_dumped blocked_thread sBlockedMutexes, links)
          else some (sBlockedMutexes, [])
        else some (sBlockedMutexes, links)

/-! ## Blocked-wait table -/

/-- Source `DeadLock::collect_blocked_items`: a new entry is pushed at the back
of `sBlockedMutexes`.  The source does not assign `dumped`, which keeps the
value it has in a newly constructed entry. -/
def collect_blocked_items (tid : Int) (lock : LockInfo)
    (sBlockedMutexes : List BlockedMutex) : List BlockedMutex :=
  sBlockedMutexes ++
    [{ mutex := lock.lock, type := lock.type, owner_thread := lock.owner,
       blocked_thread := tid, dumped := dumped_default }]

/-- Source `DeadLock::remove_blocked_item`: erase the first entry of the thread
and stop. -/
def remove_blocked_item (blocked_thread : Int) : List BlockedMutex → List BlockedMutex
  | [] => []
  | item :: rest =>
    if item.blocked_thread = blocked_thread then rest
    else item :: remove_blocked_item blocked_thread rest

/-! ## Lock bookkeeping -/

/-- What the code hands to the platform and to the logging sink, in program
order. -/
inductive Event where
  /-- Call of `GotHook::origin_pthread_mutex_lock` (untimed acquisition). -/
  | origin_lock (mutex : Nat)
  /-- Call of the timed acquisition with the given timeout in milliseconds. -/
  | timedlock (mutex : Nat) (timeout : Int)
  /-- The `MUTEX:Block` warning. -/
  | block (tid owner : Int) (mutex : Nat) (dt holds err : Int)
  /-- The `MUTEX:Deadlock` report of a thread locked by itself. -/
  | self_deadlock (tid : Int) (isMainThread : Bool)
  /-- The `MUTEX:Deadlock` report of one link. -/
  | deadlock (tid : Int) (isMainThread : Bool) (link : List BlockedMutex)
  /-- The `MUTEX:Unlock` warning. -/
  | unlock_by_none_owner (owner : Int)
  deriving DecidableEq, Repr

/-- Source `DeadLock::timed_lock`.  `outcome` is the value the platform
primitive returns for this call; the result is the return value together with
the primitive that was called. -/
def timed_lock (lock : LockInfo) (timeout : Int) (outcome : Int) : Int × List Event :=
  if lock.type = MUTEX_TYPE.MUTEX then
    if timeout < 0 then (outcome, [Event.origin_lock lock.lock])
    else (outcome, [Event.timedlock lock.lock timeout])
  else (0, [])

/-- What the platform and the other threads contribute to one pass through the
`while` of `try_lock`: the error code of the acquisition that just failed, the
two readings of the millisecond clock, and the values of `lock.owner` and
`lock.enter_time` read in this pass (other threads write these fields). -/
structure Tick where
  err : Int
  now : Int
  now_hold : Int
  owner : Int
  enter_time : Int
  deriving DecidableEq, Repr

/-- The local variables of `try_lock` that live across loop passes, with the
shared vector and the emitted events. -/
structure LoopState where
  gate : Int
  selfLockDetected : Bool
  isDeadLocked : Bool
  needRemoveFromDeadLock : Bool
  sBlockedMutexes : List BlockedMutex
  log : List Event
  deriving DecidableEq, Repr

/-- One pass through the body of the `while` of `try_lock` (lines 189-310),
entered after `timed_lock` returned `err`.  The descriptor fields `owner` and
`enter_time` are read as the tick gives them; the address, the kind and
`recursive` are those of `lock`. -/
def try_lock_body (fuel : Nat) (tid : Int) (isMainThread : Bool) (tm : Int)
    (lock : LockInfo) (t : Tick) (err : Int) (st : LoopState) : Option LoopState :=
  let lock : LockInfo := { lock with owner := t.owner, enter_time := t.enter_time }
  let enter_time := lock.enter_time
  let owner := lock.owner
  let dt := t.now - tm
  let warn : Bool := decide (dt > st.gate) && (!st.isDeadLocked && !st.selfLockDetected)
  let log1 :=
    if warn then
      st.log ++ [Event.block tid owner lock.lock dt
        (if enter_time = 0 then 0 else t.now_hold - enter_time) err]
    else st.log
  let gate1 : Int :=
    if warn && isMainThread then (if st.gate < 1000 then 300 else 1000) else st.gate
  let selfLock : Bool :=
    decide (lock.owner = tid) && !lock.recursive && !st.selfLockDetected
  let log2 := if selfLock then log1 ++ [Event.self_deadlock tid isMainThread] else log1
  let table1 :=
    if !st.needRemoveFromDeadLock then collect_blocked_items tid lock st.sBlockedMutexes
    else st.sBlockedMutexes
  match find_dead_locks fuel tid force_default table1 [] with
  | none => none
  | some (table2, deadlock_links) =>
    let found : Bool := !deadlock_links.isEmpty
    some
      { gate := if found then -1 else gate1
        selfLockDetected := st.selfLockDetected || selfLock
        isDeadLocked := st.isDeadLocked || found
        needRemoveFromDeadLock := true
        sBlockedMutexes := table2
        log := log2 ++ deadlock_links.map (Event.deadlock tid isMainThread) }

/-- The `while ((err = timed_lock(lock, gate)) != 0)` of `try_lock`.  The list
holds one tick per acquisition the platform lets fail; once it is used up the
platform grants the mutex (outcome 0). -/
def try_lock_loop (fuel : Nat) (tid : Int) (isMainThread : Bool) (tm : Int)
    (lock : LockInfo) : List Tick → LoopState → Option LoopState
  | [], st => some { st with log := st.log ++ (timed_lock lock st.gate 0).2 }
  | t :: rest, st =>
    let r := timed_lock lock st.gate t.err
    let st1 : LoopState := { st with log := st.log ++ r.2 }
    if r.1 ≠ 0 then
      match try_lock_body fuel tid isMainThread tm lock t r.1 st1 with
      | none => none
      | some st2 => try_lock_loop fuel tid isMainThread tm lock rest st2
    else some st1

/-- Lines 313-317 of `try_lock`: the bookkeeping done once the mutex is held. -/
def lock_acquired (tid : Int) (now : Int) (lock : LockInfo) : LockInfo :=
  let lock : LockInfo := { lock with deep := lock.deep + 1 }
  let lock : LockInfo := { lock with owner := tid }
  if lock.deep = 1 then { lock with enter_time := now } else lock

/-- The platform as seen by one call of `try_lock`: `get_tid()`,
`is_main_thread(tid)`, the clock reading at entry, the ticks of the loop and
the clock reading of line 316. -/
structure Platform where
  tid : Int
  isMainThread : Bool
  tm : Int
  ticks : List Tick
  enter_now : Int
  deriving DecidableEq, Repr

/-- Result of `try_lock`: return value, descriptor, vector and events. -/
structure TryLockResult where
  ret : Int
  lock : LockInfo
  sBlockedMutexes : List BlockedMutex
  log : List Event
  deriving DecidableEq, Repr

/-- Source `DeadLock::try_lock`.  `lock` is the descriptor as it stands when the
primitive grants the mutex; the bookkeeping of lines 313-317 is applied to
it. -/
def try_lock (fuel : Nat) (p : Platform) (lock : LockInfo)
    (sBlockedMutexes : List BlockedMutex) : Option TryLockResult :=
  let gate : Int := if p.isMainThread then 500 else 1000
  match try_lock_loop fuel p.tid p.isMainThread p.tm lock p.ticks
      { gate := gate, selfLockDetected := false, isDeadLocked := false,
        needRemoveFromDeadLock := false, sBlockedMutexes := sBlockedMutexes, log := [] } with
  | none => none
  | some st =>
    some
      { ret := 0
        lock := lock_acquired p.tid p.enter_now lock
        sBlockedMutexes :=
          if st.needRemoveFromDeadLock then remove_blocked_item p.tid st.sBlockedMutexes
          else st.sBlockedMutexes
        log := st.log }

/-- Source `DeadLock::unlock`, called by thread `tid`: return value, descriptor
and events. -/
def unlock (tid : Int) (lock : LockInfo) : Int × LockInfo × List Event :=
  if lock.owner = tid then
    let lock : LockInfo := { lock with deep := lock.deep - 1 }
    if lock.deep = 0 then (0, { lock with owner := 0, enter_time := 0 }, [])
    else (0, lock, [])
  else (0, lock, [Event.unlock_by_none_owner lock.owner])

/-! ## Registry and hooks -/

/-- Process-wide state: the map `sLockMap` (as its list of nodes) and the
vector `sBlockedMutexes`. -/
structure World where
  sLockMap : List (Nat × LockInfo)
  sBlockedMutexes : List BlockedMutex
  deriving DecidableEq, Repr

/-- Modelled from the spec: `getLock`, the registry lookup declared in
`deadlock.h` ("`lookup(address)` gives the descriptor or none"). -/
def getLock (sLockMap : List (Nat × LockInfo)) (mutex : Nat) : Option LockInfo :=
  (sLockMap.find? fun node => node.1 = mutex).map Prod.snd

/-- A write through the pointer returned by `getLock`: the node of `mutex`
gets the new descriptor, all other nodes stay. -/
def store_lock (mutex : Nat) (lock : LockInfo) (sLockMap : List (Nat × LockInfo)) :
    List (Nat × LockInfo) :=
  sLockMap.map fun node => if node.1 = mutex then (node.1, lock) else node

/-- The hook context of the lock hook: the mutex argument and the writable
`retVal`. -/
structure PthreadMutexLockContext where
  mutex : Nat
  retVal : Int
  deriving DecidableEq, Repr

/-- Result of a pre-hook: its return value, the context, the process state and
the events. -/
structure HookResult where
  ret : Int
  context : PthreadMutexLockContext
  world : World
  log : List Event
  deriving DecidableEq, Repr

/-- Source `DeadLock::my_pthread_mutex_lock`. -/
def my_pthread_mutex_lock (fuel : Nat) (p : Platform) (context : PthreadMutexLockContext)
    (w : World) : Option HookResult :=
  match getLock w.sLockMap context.mutex with
  | some pLock =>
    match try_lock fuel p pLock w.sBlockedMutexes with
    | none => none
    | some r =>
      some
        { ret := 1
          context := { context with retVal := r.ret }
          world :=
            { sLockMap := store_lock context.mutex r.lock w.sLockMap
              sBlockedMutexes := r.sBlockedMutexes }
          log := r.log }
  | none => some { ret := 0, context := context, world := w, log := [] }

/-- Lines 352-359 of `timed_lock`: the absolute deadline handed to
`pthread_mutex_timedlock`, computed from the reading `(tv_sec, tv_nsec)` of the
real-time clock and the timeout in milliseconds.  For non-negative operands the
truncating `/` and `%` of the source agree with the integer division used
here. -/
def timedlock_deadline (tv_sec tv_nsec : Int) (timeout : Int) : Int × Int :=
  let tv_nsec := tv_nsec + timeout * 1000000
  if tv_nsec > 1000000000 then (tv_sec + tv_nsec / 1000000000, tv_nsec % 1000000000)
  else (tv_sec, tv_nsec)

/-- Modelled from the spec: the value of a `LockInfo` right after its
declaration `LockInfo lock;`.  The member initialisers are in `deadlock.h`;
the description of `on_init` says "`depth=0`, `owner=none`", and `enter_time`
is 0 when the descriptor is free.  The address, the kind and `recursive` are
assigned by the init hook. -/
def LockInfo_default : LockInfo :=
  { lock := 0, type := MUTEX_TYPE.MUTEX, recursive := false, owner := 0, deep := 0,
    enter_time := 0 }

/-- The constant `PTHREAD_MUTEX_RECURSIVE` of the platform header `pthread.h`
(1 on bionic and on glibc). -/
def PTHREAD_MUTEX_RECURSIVE : Int := 1

/-- The statement `sLockMap[key] = lock` on the map kept as its list of nodes in
key order: the node of `key` is replaced, or a new node is put in its place in
the order. -/
def map_assign (key : Nat) (lock : LockInfo) :
    List (Nat × LockInfo) → List (Nat × LockInfo)
  | [] => [(key, lock)]
  | node :: rest =>
    if key < node.1 then (key, lock) :: node :: rest
    else if key = node.1 then (key, lock) :: rest
    else node :: map_assign key lock rest

/-- The statement `sLockMap.erase(key)`: no node of `key` is left. -/
def map_erase (key : Nat) (sLockMap : List (Nat × LockInfo)) : List (Nat × LockInfo) :=
  sLockMap.filter fun node => decide (node.1 ≠ key)

/-- What line 57, `pthread_mutexattr_gettype(context.attr, &type)`, finds behind
`context.attr`.  The source tests neither the pointer nor the value the call
returns. -/
inductive MutexAttr where
  /-- The caller passed no attributes: `context.attr` is the null pointer. -/
  | null
  /-- An attribute object the platform cannot read a mutex type from; `garbage`
  is the indeterminate value of the uninitialised local `type`. -/
  | invalid (garbage : Int)
  /-- An attribute object holding the given mutex type. -/
  | valid (type : Int)
  deriving DecidableEq, Repr

/-- The platform call of line 57 as the init hook uses it: the value of the
local `type` after the call.  With an attribute object the call stores its
type.  With an object it rejects it returns an error, which the source
ignores, and `type` keeps its indeterminate value.  With the null pointer the
platform function reads the attribute word through the pointer and the
process faults inside the call: there is no value (`none`). -/
def pthread_mutexattr_gettype : MutexAttr → Option Int
  | MutexAttr.null => none
  | MutexAttr.invalid garbage => some garbage
  | MutexAttr.valid type => some type

/-- The hook context of the init hook: the mutex argument and the attribute
argument. -/
structure PthreadMutexInitContext where
  mutex : Nat
  attr : MutexAttr
  deriving DecidableEq, Repr

/-- Source `DeadLock::my_pthread_mutex_init`: return value and process state;
`none` when the process faults at line 57, before the map is touched. -/
def my_pthread_mutex_init (context : PthreadMutexInitContext) (w : World) :
    Option (Int × World) :=
  let lock : LockInfo := LockInfo_default
  let lock : LockInfo := { lock with type := MUTEX_TYPE.MUTEX }
  let lock : LockInfo := { lock with lock := context.mutex }
  match pthread_mutexattr_gettype context.attr with
  | none => none
  | some type =>
    let lock : LockInfo := { lock with recursive := decide (type = PTHREAD_MUTEX_RECURSIVE) }
    some (0, { w with sLockMap := map_assign context.mutex lock w.sLockMap })

/-- The hook context of the destroy hook: the mutex argument. -/
structure PthreadMutexDestroyContext where
  mutex : Nat
  deriving DecidableEq, Repr

/-- Source `DeadLock::my_pthread_mutex_destroy`: return value and process
state. -/
def my_pthread_mutex_destroy (context : PthreadMutexDestroyContext) (w : World) :
    Int × World :=
  (0, { w with sLockMap := map_erase context.mutex w.sLockMap })

/-! ## Specification vocabulary -/

/-- Successor relation of the wait-for graph: the owner recorded in `a` is the
thread blocked in `b`. -/
def waits_for (a b : BlockedMutex) : Prop := a.owner_thread = b.blocked_thread

instance (a b : BlockedMutex) : Decidable (waits_for a b) := by
  unfold waits_for; infer_instance

/-- A link is a closed wait-for chain of thread `T` over the table `tbl`: it
starts at an entry of `T`, every entry waits for the next one, the last entry
waits for `T`, and all entries are entries of the table. -/
def ClosedChain (T : Int) (tbl : List BlockedMutex) (link : List BlockedMutex) : Prop :=
  link.head?.map (fun e => e.blocked_thread) = some T ∧
  List.Chain' waits_for link ∧
  link.getLast?.map (fun e => e.owner_thread) = some T ∧
  ∀ e ∈ link, e ∈ tbl

instance (T : Int) (tbl link : List BlockedMutex) : Decidable (ClosedChain T tbl link) := by
  unfold ClosedChain; infer_instance

/-- What a report shows of an entry: mutex, blocked thread and owner thread. -/
def wait_triple (e : BlockedMutex) : Nat × Int × Int :=
  (e.mutex, e.blocked_thread, e.owner_thread)

/-- The marking loop seen through a pointer: the position stays, the pointee is
marked. -/
def mark_ptr (blocked_thread : Int) (p : BlockedPtr) : BlockedPtr :=
  (p.1, mark_entry blocked_thread p.2)

/-- The start points of thread `T`: its entries in the table, each with its
position, in table order. -/
def start_points (T : Int) (tbl : List BlockedMutex) : List BlockedPtr :=
  (tbl.enumFrom 0).filter fun p => decide (p.2.blocked_thread = T)

/-- The walk from start point `p` stops within the step budget. -/
def walk_stops (tbl : List BlockedMutex) (T : Int) (fuel : Nat) (p : BlockedPtr) : Bool :=
  (follow_chain tbl T fuel p [p]).isSome

/-- The walk from start point `p` closes a cycle: it stops at an entry owned by
`T`. -/
def closes_cycle (tbl : List BlockedMutex) (T : Int) (fuel : Nat) (p : BlockedPtr) : Bool :=
  match follow_chain tbl T fuel p [p] with
  | some (some _) => true
  | _ => false

/-- Number of start points of `T` that close a cycle. -/
def closing_count (tbl : List BlockedMutex) (T : Int) (fuel : Nat) : Nat :=
  (start_points T tbl).countP (closes_cycle tbl T fuel)

/-- Some entry of thread `T` is already marked dumped. -/
def already_dumped (T : Int) (tbl : List BlockedMutex) : Bool :=
  tbl.any fun e => decide (e.blocked_thread = T) && e.dumped

/-- The bookkeeping invariant of a descriptor: the depth is not negative, and
it is positive exactly when the descriptor has an owner. -/
def lock_inv (d : LockInfo) : Prop := 0 ≤ d.deep ∧ (0 < d.deep ↔ d.owner ≠ 0)

instance (d : LockInfo) : Decidable (lock_inv d) := by
  unfold lock_inv; infer_instance

/-- One bookkeeping step on a descriptor: the update `try_lock` makes once
thread `tid` holds the mutex (clock reading `now`), or a call of `unlock` by
thread `tid`. -/
inductive LockOp where
  | acquire (tid : Int) (now : Int)
  | release (tid : Int)
  deriving DecidableEq, Repr

/-- Thread that performs the step. -/
def LockOp.tid : LockOp → Int
  | LockOp.acquire tid _ => tid
  | LockOp.release tid => tid

/-- The step is an acquisition. -/
def LockOp.is_acquire : LockOp → Bool
  | LockOp.acquire _ _ => true
  | LockOp.release _ => false

/-- The step is a release. -/
def LockOp.is_release : LockOp → Bool
  | LockOp.acquire _ _ => false
  | LockOp.release _ => true

/-- Effect of one step on the descriptor. -/
def apply_op (d : LockInfo) : LockOp → LockInfo
  | LockOp.acquire tid now => lock_acquired tid now d
  | LockOp.release tid => (unlock tid d).2.1

/-- Effect of a sequence of steps, first step first. -/
def run_ops (d : LockInfo) (ops : List LockOp) : LockInfo :=
  ops.foldl apply_op d

/-- Every acquisition of the sequence is applied to a free descriptor (depth
0), as a non-recursive mutex grants it when all releases come from the owner. -/
def granted_when_free : LockInfo → List LockOp → Bool
  | _, [] => true
  | d, op :: rest =>
    (!op.is_acquire || decide (d.deep = 0)) && granted_when_free (apply_op d op) rest

/-- The event is a warning or a report (not a call of the lock primitive). -/
def Event.is_diagnostic : Event → Bool
  | Event.origin_lock _ => false
  | Event.timedlock _ _ => false
  | _ => true

/-- A `MUTEX:Block` warning is emitted in the loop pass that starts in state
`st` and reads tick `t` (condition of lines 193 and 195). -/
def block_warned (tm : Int) (t : Tick) (st : LoopState) : Bool :=
  decide (t.now - tm > st.gate) && (!st.isDeadLocked && !st.selfLockDetected)

/-- The `MUTEX:Block` warning of a loop pass. -/
def block_event (tid tm : Int) (lock : LockInfo) (t : Tick) (err : Int) : Event :=
  Event.block tid t.owner lock.lock (t.now - tm)
    (if t.enter_time = 0 then 0 else t.now_hold - t.enter_time) err

/-- The report of a thread locked by itself is emitted in the loop pass that
starts in state `st` and reads tick `t` (conditions of lines 214 and 216). -/
def self_lock_reported (tid : Int) (lock : LockInfo) (t : Tick) (st : LoopState) : Bool :=
  decide (t.owner = tid) && !lock.recursive && !st.selfLockDetected

/-- The entry `collect_blocked_items` records for thread `tid` in a loop pass
that reads tick `t`, with the given value of `dumped`. -/
def recorded_edge (tid : Int) (lock : LockInfo) (t : Tick) (dumped : Bool) : BlockedMutex :=
  { mutex := lock.lock, type := lock.type, owner_thread := t.owner, blocked_thread := tid,
    dumped := dumped }

/-- The table on which the detector runs in the loop pass that starts in state
`st` and reads tick `t`: the entry of the thread is recorded first unless an
earlier pass has done so. -/
def pass_table (tid : Int) (lock : LockInfo) (t : Tick) (st : LoopState) :
    List BlockedMutex :=
  if !st.needRemoveFromDeadLock then
    st.sBlockedMutexes ++ [recorded_edge tid lock t dumped_default]
  else st.sBlockedMutexes

/-- The state in which `try_lock` enters its loop. -/
def loop_start (isMainThread : Bool) (sBlockedMutexes : List BlockedMutex) : LoopState :=
  { gate := if isMainThread then 500 else 1000, selfLockDetected := false,
    isDeadLocked := false, needRemoveFromDeadLock := false,
    sBlockedMutexes := sBlockedMutexes, log := [] }

/-- The event is a `MUTEX:Block` warning. -/
def Event.is_block : Event → Bool
  | Event.block _ _ _ _ _ _ => true
  | _ => false

/-- The event is the report of a thread locked by itself. -/
def Event.is_self_deadlock : Event → Bool
  | Event.self_deadlock _ _ => true
  | _ => false

/-- The event is the report of a link. -/
def Event.is_cycle_report : Event → Bool
  | Event.deadlock _ _ _ => true
  | _ => false

/-- The event is a call of the timed acquisition. -/
def Event.is_timedlock : Event → Bool
  | Event.timedlock _ _ => true
  | _ => false

/-- The values the gate can take during a call of `try_lock`: 500, 300 or the
sentinel -1 on the main thread, 1000 or -1 on any other thread. -/
def gate_ok (isMainThread : Bool) (gate : Int) : Prop :=
  if isMainThread then gate = 500 ∨ gate = 300 ∨ gate = -1 else gate = 1000 ∨ gate = -1

instance (isMainThread : Bool) (gate : Int) : Decidable (gate_ok isMainThread gate) := by
  unfold gate_ok; infer_instance

/-- The timeout of a timed acquisition is one of the gates of the thread: 500 or
300 on the main thread, 1000 on any other thread.  Other events pass. -/
def Event.timeout_ok (isMainThread : Bool) : Event → Prop
  | Event.timedlock _ timeout =>
    if isMainThread then timeout = 500 ∨ timeout = 300 else timeout = 1000
  | _ => True

/-- At the timeout of tick `t` the owner read from the descriptor is the
calling thread and the descriptor is not recursive (condition of line 214). -/
def self_locked_at (tid : Int) (lock : LockInfo) (t : Tick) : Bool :=
  decide (t.owner = tid) && !lock.recursive

/-- The loop state after a cycle has been reported: the flag is set, the gate
is the sentinel, the entry of the thread has been recorded, and the table holds
a dumped entry of the thread. -/
def reported_state (tid : Int) (st : LoopState) : Prop :=
  st.isDeadLocked = true ∧ st.gate = -1 ∧ st.needRemoveFromDeadLock = true ∧
    ∃ x ∈ st.sBlockedMutexes, x.blocked_thread = tid ∧ x.dumped = true

instance (tid : Int) (st : LoopState) : Decidable (reported_state tid st) := by
  unfold reported_state; infer_instance

instance (isMainThread : Bool) (ev : Event) : Decidable (Event.timeout_ok isMainThread ev) := by
  cases ev <;> unfold Event.timeout_ok <;> infer_instance

/-! ## Sample tables -/

/-- Table entry of a plain mutex. -/
def edge (mutex : Nat) (blocked_thread owner_thread : Int) (dumped : Bool) : BlockedMutex :=
  { mutex := mutex, type := MUTEX_TYPE.MUTEX, owner_thread := owner_thread,
    blocked_thread := blocked_thread, dumped := dumped }

/-- Three threads waiting in a ring (1 for 2, 2 for 3, 3 for 1), recorded in the
order 3, 1, 2. -/
def ring3 : List BlockedMutex :=
  [edge 13 3 1 false, edge 11 1 2 false, edge 12 2 3 false]

/-- The table `ring3` after the search from thread 1 has marked its entry. -/
def ring3_dumped : List BlockedMutex :=
  [edge 13 3 1 false, edge 11 1 2 true, edge 12 2 3 false]

/-- Threads 2 and 3 block each other (each holds the mutex the other one waits
for); thread 1 arrives later and waits for mutex 23, which thread 2 holds.  The
entries are in the order in which the three threads recorded them; the entries
of threads 2 and 3 carry the mark of their own reports. -/
def bystander_table : List BlockedMutex :=
  [edge 22 2 3 true, edge 23 3 2 true, edge 23 1 2 false]

/-- Threads of `ring3` in ring order: 1, 2, 3. -/
def ring3_thread (a : Nat) : Int := (a : Int) + 1

/-- Entries of `ring3` in ring order. -/
def ring3_edge : Nat → BlockedMutex
  | 0 => edge 11 1 2 false
  | 1 => edge 12 2 3 false
  | _ => edge 13 3 1 false

/-- Thread 1 has two entries, the first already dumped, the second not; both
lie on a cycle (through thread 2 and through thread 3). -/
def two_point_table : List BlockedMutex :=
  [edge 31 1 2 true, edge 32 1 3 false, edge 33 2 1 false, edge 34 3 1 false]

/-! ## Sample descriptors -/

/-- A free, non-recursive descriptor at address 9. -/
def free_lock : LockInfo :=
  { lock := 9, type := MUTEX_TYPE.MUTEX, recursive := false, owner := 0, deep := 0,
    enter_time := 0 }

/-- Thread 5 acquires, thread 6 calls unlock (it is not the owner, so the
bookkeeping stays while the hook lets the primitive release the mutex), then
thread 7 acquires. -/
def foreign_unlock_ops : List LockOp :=
  [LockOp.acquire 5 100, LockOp.release 6, LockOp.acquire 7 200]

/-- Thread 5 acquires twice and releases twice. -/
def nested_ops : List LockOp :=
  [LockOp.acquire 5 100, LockOp.acquire 5 150, LockOp.release 5, LockOp.release 5]

/-- A non-recursive descriptor held once by thread 5 since time 100. -/
def held_lock : LockInfo :=
  { lock := 9, type := MUTEX_TYPE.MUTEX, recursive := false, owner := 5, deep := 1,
    enter_time := 100 }

/-- A recursive descriptor held once by thread 5 since time 100. -/
def held_recursive_lock : LockInfo :=
  { lock := 9, type := MUTEX_TYPE.MUTEX, recursive := true, owner := 5, deep := 1,
    enter_time := 100 }

/-- A call by thread `tid` (not the main thread) entered at time 190 in which
the primitive grants the mutex at once; line 316 reads the clock as 200. -/
def granted_at_once (tid : Int) : Platform :=
  { tid := tid, isMainThread := false, tm := 190, ticks := [], enter_now := 200 }

/-- A process state with one tracked mutex (address 9, held by thread 5) and an
empty blocked-wait table. -/
def one_lock_world : World :=
  { sLockMap := [(9, held_recursive_lock)], sBlockedMutexes := [] }

/-- A process state in which thread 7 is recorded as waiting for the tracked
mutex 9, held by thread 5. -/
def waiting_world : World :=
  { sLockMap := [(9, held_lock)], sBlockedMutexes := [edge 9 7 5 false] }

/-- A failed timed acquisition (error 110, the timeout) observed 600 ms after
the call of `try_lock` at time 0, while thread 5 holds the mutex since time
100. -/
def late_tick (now : Int) : Tick :=
  { err := 110, now := now, now_hold := now, owner := 5, enter_time := 100 }

/-- A call by the main thread (thread 1) entered at time 0 that sees the given
failed acquisitions before the mutex is granted at time 5000. -/
def main_thread_call (ticks : List Tick) : Platform :=
  { tid := 1, isMainThread := true, tm := 0, ticks := ticks, enter_now := 5000 }

/-- The loop state of the main thread after its first pass, which emitted a
Block warning at gate 500 and recorded the entry of thread 1. -/
def after_first_block : LoopState :=
  { gate := 300, selfLockDetected := false, isDeadLocked := false,
    needRemoveFromDeadLock := true, sBlockedMutexes := [edge 9 1 5 false],
    log := [block_event 1 0 free_lock (late_tick 600) 110] }

/-- A call by thread 7 (not the main thread) entered at time 0 that sees two
timeouts, after 1100 ms and 2200 ms, before the mutex is granted at time
3000. -/
def two_timeouts_call : Platform :=
  { tid := 7, isMainThread := false, tm := 0, ticks := [late_tick 1100, late_tick 2200],
    enter_now := 3000 }

/-- A timeout at which the owner read from the descriptor is thread 7. -/
def own_tick (now : Int) : Tick :=
  { err := 110, now := now, now_hold := now, owner := 7, enter_time := 100 }

/-- A call by thread 7 that sees three timeouts; at the second and the third
the descriptor names thread 7 itself as owner. -/
def self_lock_call : Platform :=
  { tid := 7, isMainThread := false, tm := 0,
    ticks := [late_tick 1100, own_tick 2200, own_tick 3300], enter_now := 4000 }

/-- Thread 5, which holds mutex 9, waits for mutex 31 held by thread 7. -/
def abba_wait_table : List BlockedMutex := [edge 31 5 7 false]

/-- A process state with two tracked mutexes, 8 (free) and 9 (held by thread
5), in which thread 7 is recorded as waiting for mutex 9. -/
def two_lock_world : World :=
  { sLockMap := [(8, { free_lock with lock := 8 }), (9, held_lock)],
    sBlockedMutexes := [edge 9 7 5 false] }

/-- The descriptor of mutex 23 while thread 2 holds it. -/
def lock23 : LockInfo :=
  { lock := 23, type := MUTEX_TYPE.MUTEX, recursive := false, owner := 2, deep := 1,
    enter_time := 100 }

/-- The process state before thread 1 arrives in the situation of
`bystander_table`: mutex 22 is held by thread 3 and mutex 23 by thread 2, both
tracked; thread 2 waits for mutex 22 and thread 3 for mutex 23, and both have
had their cycle reported. -/
def bystander_world : World :=
  { sLockMap :=
      [(22, { lock := 22, type := MUTEX_TYPE.MUTEX, recursive := false, owner := 3,
              deep := 1, enter_time := 100 }),
       (23, lock23)],
    sBlockedMutexes := [edge 22 2 3 true, edge 23 3 2 true] }

/-- A timed acquisition that fails with the timeout error 110, observed at time
1001 while thread 2 is the owner since time 100. -/
def bystander_tick : Tick :=
  { err := 110, now := 1001, now_hold := 1001, owner := 2, enter_time := 100 }

/-- Thread 1 (not the main thread) calls the lock hook at time 0; the timed
acquisition fails once, after 1000 ms; the platform would grant the mutex at
the next try. -/
def bystander_call : Platform :=
  { tid := 1, isMainThread := false, tm := 0, ticks := [bystander_tick], enter_now := 2000 }

/-- The loop state of thread 1 in `bystander_world` when it enters the first
pass: the timed acquisition with gate 1000 has been called and has failed. -/
def bystander_first_pass : LoopState :=
  { gate := 1000, selfLockDetected := false, isDeadLocked := false,
    needRemoveFromDeadLock := false,
    sBlockedMutexes := [edge 22 2 3 true, edge 23 3 2 true],
    log := [Event.timedlock 23 1000] }

/-! ## The successor search -/

theorem next_jump_scan_sound (fm : BlockedPtr) :
    ∀ (l : List BlockedMutex) (k : Nat) (q : BlockedPtr),
      next_jump_scan fm l k = some q →
      k ≤ q.1 ∧ l[q.1 - k]? = some q.2 ∧ q.1 ≠ fm.1 ∧
        fm.2.owner_thread = q.2.blocked_thread := by
  intro l
  induction l with
  | nil => intro k q h; simp [next_jump_scan] at h
  | cons item rest ih =>
    intro k q h
    unfold next_jump_scan at h
    split at h
    · obtain ⟨h1, h2, h3, h4⟩ := ih (k + 1) q h
      refine ⟨by omega, ?_, h3, h4⟩
      have : q.1 - k = (q.1 - (k + 1)) + 1 := by omega
      rw [this, List.getElem?_cons_succ]; exact h2
    · split at h
      · cases h
        rename_i hne hown
        exact ⟨le_refl _, by simp, fun hh => hne hh.symm, hown⟩
      · obtain ⟨h1, h2, h3, h4⟩ := ih (k + 1) q h
        refine ⟨by omega, ?_, h3, h4⟩
        have : q.1 - k = (q.1 - (k + 1)) + 1 := by omega
        rw [this, List.getElem?_cons_succ]; exact h2

theorem find_next_jump_sound (tbl : List BlockedMutex) (cur q : BlockedPtr)
    (h : find_next_jump tbl (some cur) = some q) :
    tbl[q.1]? = some q.2 ∧ q.1 ≠ cur.1 ∧ waits_for cur.2 q.2 := by
  obtain ⟨_, h2, h3, h4⟩ := next_jump_scan_sound cur tbl 0 q h
  exact ⟨by simpa using h2, h3, h4⟩

/-! ## Shape of the links (C1) -/

theorem follow_chain_sound (tbl : List BlockedMutex) (T : Int) :
    ∀ (fuel : Nat) (cur : BlockedPtr) (items res : List BlockedPtr),
      follow_chain tbl T fuel cur items = some (some res) →
      items.getLast? = some cur →
      List.Chain' waits_for (items.map Prod.snd) →
      (∀ p ∈ items, tbl[p.1]? = some p.2) →
      res.head? = items.head? ∧
      List.Chain' waits_for (res.map Prod.snd) ∧
      (∃ q, res.getLast? = some q ∧ q.2.owner_thread = T) ∧
      ∀ p ∈ res, tbl[p.1]? = some p.2 := by
  intro fuel
  induction fuel with
  | zero => intro cur items res h; simp [follow_chain] at h
  | succ fuel ih =>
    intro cur items res h hlast hchain hmem
    unfold follow_chain at h
    split at h
    · simp at h
    · rename_i pNext hnext
      obtain ⟨hval, _, hwait⟩ := find_next_jump_sound tbl cur pNext hnext
      have hne : items ≠ [] := by
        intro hh; simp [hh] at hlast
      have hhead : (items ++ [pNext]).head? = items.head? := by
        cases items with
        | nil => exact absurd rfl hne
        | cons a l => simp
      have hchain2 : List.Chain' waits_for ((items ++ [pNext]).map Prod.snd) := by
        rw [List.map_append]
        refine List.Chain'.append hchain (List.chain'_singleton _) ?_
        intro x hx y hy
        simp only [List.map_cons, List.map_nil, List.head?_cons, Option.mem_def,
          Option.some.injEq] at hy
        rw [List.getLast?_map, hlast] at hx
        simp only [Option.map_some', Option.mem_def, Option.some.injEq] at hx
        subst hx; subst hy; exact hwait
      have hmem2 : ∀ p ∈ items ++ [pNext], tbl[p.1]? = some p.2 := by
        intro p hp
        rcases List.mem_append.mp hp with hp | hp
        · exact hmem p hp
        · simp only [List.mem_singleton] at hp; subst hp; exact hval
      split at h
      · rename_i hown
        simp only [Option.some.injEq] at h
        subst h
        exact ⟨hhead, hchain2, ⟨pNext, List.getLast?_concat _, hown⟩, hmem2⟩
      · obtain ⟨r1, r2, r3, r4⟩ :=
          ih pNext (items ++ [pNext]) res h (List.getLast?_concat _) hchain2 hmem2
        exact ⟨r1.trans hhead, r2, r3, r4⟩

theorem collect_block_points_sound (T : Int) (force : Bool) :
    ∀ (l : List BlockedMutex) (k : Nat) (acc bps : List BlockedPtr),
      collect_block_points T force l k acc = some bps →
      ∀ p ∈ bps, p ∈ acc ∨ (k ≤ p.1 ∧ l[p.1 - k]? = some p.2 ∧ p.2.blocked_thread = T) := by
  intro l
  induction l with
  | nil =>
    intro k acc bps h p hp
    simp only [collect_block_points, Option.some.injEq] at h
    subst h; exact Or.inl hp
  | cons item rest ih =>
    intro k acc bps h p hp
    unfold collect_block_points at h
    have shift : ∀ q : BlockedPtr, k + 1 ≤ q.1 → rest[q.1 - (k + 1)]? = some q.2 →
        (item :: rest)[q.1 - k]? = some q.2 := by
      intro q hq hv
      have : q.1 - k = (q.1 - (k + 1)) + 1 := by omega
      rw [this, List.getElem?_cons_succ]; exact hv
    split at h
    · rename_i hT
      split at h
      · simp at h
      · rcases ih (k + 1) _ bps h p hp with hacc | ⟨h1, h2, h3⟩
        · rcases List.mem_append.mp hacc with hacc | hnew
          · exact Or.inl hacc
          · simp only [List.mem_singleton] at hnew
            subst hnew
            exact Or.inr ⟨le_refl _, by simp, hT⟩
        · exact Or.inr ⟨by omega, shift p h1 h2, h3⟩
    · rcases ih (k + 1) _ bps h p hp with hacc | ⟨h1, h2, h3⟩
      · exact Or.inl hacc
      · exact Or.inr ⟨by omega, shift p h1 h2, h3⟩

theorem search_links_sound (tbl : List BlockedMutex) (T : Int) (fuel : Nat) :
    ∀ (bps : List BlockedPtr) (links0 links : List (List BlockedMutex)),
      (∀ p ∈ bps, tbl[p.1]? = some p.2 ∧ p.2.blocked_thread = T) →
      search_links tbl T fuel bps links0 = some links →
      ∀ link ∈ links, link ∈ links0 ∨ ClosedChain T tbl link := by
  intro bps
  induction bps with
  | nil =>
    intro links0 links _ h link hl
    simp only [search_links, Option.some.injEq] at h
    subst h; exact Or.inl hl
  | cons item rest ih =>
    intro links0 links hb h link hl
    have hrest : ∀ p ∈ rest, tbl[p.1]? = some p.2 ∧ p.2.blocked_thread = T :=
      fun p hp => hb p (List.mem_cons_of_mem _ hp)
    unfold search_links at h
    split at h
    · simp at h
    · exact ih links0 links hrest h link hl
    · rename_i items hfollow
      rcases ih _ links hrest h link hl with hin | hc
      · rcases List.mem_append.mp hin with hin | hnew
        · exact Or.inl hin
        · simp only [List.mem_singleton] at hnew
          subst hnew
          obtain ⟨hval, hT⟩ := hb item (List.mem_cons_self _ _)
          obtain ⟨r1, r2, ⟨q, r3, r3b⟩, r4⟩ :=
            follow_chain_sound tbl T fuel item [item] items hfollow rfl
              (List.chain'_singleton _)
              (by intro p hp; simp only [List.mem_singleton] at hp; subst hp; exact hval)
          refine Or.inr ⟨?_, r2, ?_, ?_⟩
          · rw [List.head?_map, r1]; simp [hT]
          · rw [List.getLast?_map, r3]; simp [r3b]
          · intro e he
            obtain ⟨p, hp, rfl⟩ := List.mem_map.mp he
            exact List.getElem?_mem (r4 p hp)
      · exact Or.inr hc

/-- C1. Every link that `find_dead_locks` returns, other than the links that
were already in the result vector passed in, is a closed wait-for chain of the
input thread: its first entry has `blocked_thread = T`, the `owner_thread` of
each entry is the `blocked_thread` of the next, the `owner_thread` of the last
entry is `T`, and every entry of the link is an entry of the table the call
started from. -/
theorem find_dead_locks_closed_chain (fuel : Nat) (T : Int) (force : Bool)
    (tbl : List BlockedMutex) (links0 : List (List BlockedMutex))
    (tbl1 : List BlockedMutex) (links : List (List BlockedMutex))
    (h : find_dead_locks fuel T force tbl links0 = some (tbl1, links)) :
    ∀ link ∈ links, link ∈ links0 ∨ ClosedChain T tbl link := by
  unfold find_dead_locks at h
  split at h
  · simp only [Option.some.injEq, Prod.mk.injEq] at h
    intro link hl; rw [← h.2] at hl; exact Or.inl hl
  · split at h
    · simp only [Option.some.injEq, Prod.mk.injEq] at h
      intro link hl; rw [← h.2] at hl; exact Or.inl hl
    · rename_i bps hbps
      have hb : ∀ p ∈ bps, tbl[p.1]? = some p.2 ∧ p.2.blocked_thread = T := by
        intro p hp
        rcases collect_block_points_sound T force tbl 0 [] bps hbps p hp with hacc | ⟨_, h2, h3⟩
        · simp at hacc
        · exact ⟨by simpa using h2, h3⟩
      split at h
      · simp at h
      · rename_i found hsearch
        have hs := search_links_sound tbl T fuel bps links0 found hb hsearch
        split at h
        · split at h
          · simp only [Option.some.injEq, Prod.mk.injEq] at h
            rw [← h.2]; exact hs
          · simp only [Option.some.injEq, Prod.mk.injEq] at h
            intro link hl; rw [← h.2] at hl; simp at hl
        · simp only [Option.some.injEq, Prod.mk.injEq] at h
          rw [← h.2]; exact hs

/-- Witness of C1: the three-thread ring stored out of order, searched from
thread 1. -/
theorem find_dead_locks_closed_chain_witness :
    find_dead_locks 5 1 false ring3 [] =
        some (ring3_dumped, [[edge 11 1 2 false, edge 12 2 3 false, edge 13 3 1 false]]) ∧
      ∀ link ∈ [[edge 11 1 2 false, edge 12 2 3 false, edge 13 3 1 false]],
        link ∈ ([] : List (List BlockedMutex)) ∨ ClosedChain 1 ring3 link :=
  ⟨by decide,
    find_dead_locks_closed_chain 5 1 false ring3 [] ring3_dumped
      [[edge 11 1 2 false, edge 12 2 3 false, edge 13 3 1 false]] (by decide)⟩

/-! ## A walk that never stops (C3) -/

theorem follow_chain_bystander_table :
    ∀ (fuel : Nat) (items : List BlockedPtr),
      follow_chain bystander_table 1 fuel (0, edge 22 2 3 true) items = none ∧
      follow_chain bystander_table 1 fuel (1, edge 23 3 2 true) items = none := by
  intro fuel
  induction fuel with
  | zero => intro items; exact ⟨rfl, rfl⟩
  | succ fuel ih =>
    intro items
    have h0 : find_next_jump bystander_table (some (0, edge 22 2 3 true)) =
        some (1, edge 23 3 2 true) := by decide
    have h1 : find_next_jump bystander_table (some (1, edge 23 3 2 true)) =
        some (0, edge 22 2 3 true) := by decide
    constructor
    · rw [follow_chain, h0]
      have hne : ¬ ((1, edge 23 3 2 true) : BlockedPtr).2.owner_thread = 1 := by decide
      simp only [hne, if_false]
      exact (ih _).2
    · rw [follow_chain, h1]
      have hne : ¬ ((0, edge 22 2 3 true) : BlockedPtr).2.owner_thread = 1 := by decide
      simp only [hne, if_false]
      exact (ih _).1

/-- C3 (evaluation of the code at the failing input). With threads 2 and 3
blocking each other and thread 1 waiting for a mutex held by thread 2, the walk
that `find_dead_locks` starts from the entry of thread 1 always finds a
successor and never reaches an entry owned by thread 1: whatever the step
budget, and with or without `force`, the call does not return. -/
theorem find_dead_locks_bystander_never_returns (fuel : Nat) (force : Bool) :
    find_dead_locks fuel 1 force bystander_table [] = none := by
  have hbps : collect_block_points 1 force bystander_table 0 [] =
      some [(2, edge 23 1 2 false)] := by
    cases force <;> decide
  have hlen : ¬ bystander_table.length < 2 := by decide
  have hwalk : follow_chain bystander_table 1 fuel (2, edge 23 1 2 false)
      [(2, edge 23 1 2 false)] = none := by
    cases fuel with
    | zero => rfl
    | succ fuel =>
      have h2 : find_next_jump bystander_table (some (2, edge 23 1 2 false)) =
          some (0, edge 22 2 3 true) := by decide
      rw [follow_chain, h2]
      have hne : ¬ ((0, edge 22 2 3 true) : BlockedPtr).2.owner_thread = 1 := by decide
      simp only [hne, if_false]
      exact (follow_chain_bystander_table fuel _).1
  simp only [find_dead_locks, hlen, if_false, hbps, search_links, hwalk]

/-! ## Simple cycles (C2) -/

theorem next_jump_scan_complete (fm : BlockedPtr) (y : BlockedMutex)
    (hown : fm.2.owner_thread = y.blocked_thread) :
    ∀ (l : List BlockedMutex) (k j : Nat),
      (l.map fun x => x.blocked_thread).Nodup → l[j]? = some y → fm.1 ≠ k + j →
      next_jump_scan fm l k = some (k + j, y) := by
  intro l
  induction l with
  | nil => intro k j _ hj; simp at hj
  | cons item rest ih =>
    intro k j hnd hj hne
    rw [List.map_cons, List.nodup_cons] at hnd
    cases j with
    | zero =>
      simp only [List.getElem?_cons_zero, Option.some.injEq] at hj
      subst hj
      have hk : ¬ fm.1 = k := by simpa using hne
      simp [next_jump_scan, hk, hown]
    | succ j =>
      rw [List.getElem?_cons_succ] at hj
      have hy : y.blocked_thread ∈ rest.map fun x => x.blocked_thread :=
        List.mem_map.mpr ⟨y, List.getElem?_mem hj, rfl⟩
      have hitem : ¬ fm.2.owner_thread = item.blocked_thread := by
        intro hh
        apply hnd.1
        rw [← hh, hown]; exact hy
      have hrec := ih (k + 1) j hnd.2 hj (by omega)
      have hidx : k + 1 + j = k + (j + 1) := by omega
      rw [hidx] at hrec
      unfold next_jump_scan
      split
      · exact hrec
      · exact hrec

theorem collect_block_points_none_of_thread (T : Int) (force : Bool) :
    ∀ (l : List BlockedMutex) (k : Nat) (acc : List BlockedPtr),
      (∀ x ∈ l, x.blocked_thread ≠ T) →
      collect_block_points T force l k acc = some acc := by
  intro l
  induction l with
  | nil => intro k acc _; rfl
  | cons item rest ih =>
    intro k acc h
    have hi : ¬ item.blocked_thread = T := h item (List.mem_cons_self _ _)
    rw [collect_block_points, if_neg hi]
    exact ih (k + 1) acc fun x hx => h x (List.mem_cons_of_mem _ hx)

theorem collect_block_points_unique (T : Int) (force : Bool) (y : BlockedMutex)
    (hT : y.blocked_thread = T) (hd : y.dumped = false) :
    ∀ (l : List BlockedMutex) (k j : Nat) (acc : List BlockedPtr),
      (l.map fun x => x.blocked_thread).Nodup → l[j]? = some y →
      collect_block_points T force l k acc = some (acc ++ [(k + j, y)]) := by
  intro l
  induction l with
  | nil => intro k j acc _ hj; simp at hj
  | cons item rest ih =>
    intro k j acc hnd hj
    rw [List.map_cons, List.nodup_cons] at hnd
    cases j with
    | zero =>
      simp only [List.getElem?_cons_zero, Option.some.injEq] at hj
      subst hj
      have hrest : ∀ x ∈ rest, x.blocked_thread ≠ T := by
        intro x hx hh
        apply hnd.1
        rw [hT, ← hh]
        exact List.mem_map.mpr ⟨x, hx, rfl⟩
      rw [collect_block_points, if_pos hT]
      simp only [hd, Bool.and_false, Bool.false_eq_true, if_false, Nat.add_zero]
      exact collect_block_points_none_of_thread T force rest (k + 1) _ hrest
    | succ j =>
      rw [List.getElem?_cons_succ] at hj
      have hitem : ¬ item.blocked_thread = T := by
        intro hh
        apply hnd.1
        rw [hh, ← hT]
        exact List.mem_map.mpr ⟨y, List.getElem?_mem hj, rfl⟩
      rw [collect_block_points, if_neg hitem]
      have hrec := ih (k + 1) j acc hnd.2 hj
      have hidx : k + 1 + j = k + (j + 1) := by omega
      rw [hidx] at hrec
      exact hrec

theorem add_mod_ne_self (n a c : Nat) (ha : a < n) (hc0 : 0 < c) (hc : c < n) :
    (a + c) % n ≠ a := by
  by_cases h : a + c < n
  · rw [Nat.mod_eq_of_lt h]; omega
  · rw [Nat.mod_eq_sub_mod (by omega), Nat.mod_eq_of_lt (by omega)]; omega

theorem follow_chain_ring (n : Nat) (hn : 2 ≤ n) (t : Nat → Int) (e : Nat → BlockedMutex)
    (tbl : List BlockedMutex)
    (ht : ∀ a b, a < n → b < n → t a = t b → a = b)
    (he : ∀ a, a < n → (e a).blocked_thread = t a ∧ (e a).owner_thread = t ((a + 1) % n))
    (hnd : (tbl.map fun x => x.blocked_thread).Nodup)
    (hmem : ∀ a, a < n → e a ∈ tbl)
    (i : Nat) (hi : i < n) :
    ∀ (m k fuel : Nat) (cur : BlockedPtr) (items : List BlockedPtr),
      k + m + 2 = n → m + 1 ≤ fuel → cur.2 = e ((i + k) % n) → tbl[cur.1]? = some cur.2 →
      ∃ res, follow_chain tbl (t i) fuel cur items = some (some res) ∧
        res.map Prod.snd =
          items.map Prod.snd ++ (List.range (m + 1)).map fun d => e ((i + k + 1 + d) % n) := by
  have hpos : 0 < n := by omega
  intro m
  induction m with
  | zero =>
    intro k fuel cur items hk hfuel hcur hval
    obtain ⟨fuel, rfl⟩ : ∃ f, fuel = f + 1 := ⟨fuel - 1, by omega⟩
    have hlt : (i + k) % n < n := Nat.mod_lt _ hpos
    have hlt1 : (i + k + 1) % n < n := Nat.mod_lt _ hpos
    obtain ⟨j, hj⟩ := List.getElem?_of_mem (hmem _ hlt1)
    have hown : cur.2.owner_thread = (e ((i + k + 1) % n)).blocked_thread := by
      rw [hcur, (he _ hlt).2, (he _ hlt1).1, Nat.mod_add_mod]
    have hne : cur.1 ≠ 0 + j := by
      intro hh
      rw [hh, Nat.zero_add, hj, hcur] at hval
      have h1 := congrArg BlockedMutex.blocked_thread (Option.some.inj hval)
      rw [(he _ hlt).1, (he _ hlt1).1] at h1
      have h2 := ht _ _ hlt1 hlt h1
      rw [← Nat.mod_add_mod] at h2
      exact add_mod_ne_self n _ 1 hlt (by omega) (by omega) h2
    have hnext := next_jump_scan_complete cur _ hown tbl 0 j hnd hj hne
    rw [Nat.zero_add] at hnext
    have hclose : (e ((i + k + 1) % n)).owner_thread = t i := by
      rw [(he _ hlt1).2, Nat.mod_add_mod]
      have : i + k + 1 + 1 = i + n := by omega
      rw [this, Nat.add_mod_right, Nat.mod_eq_of_lt hi]
    refine ⟨items ++ [(j, e ((i + k + 1) % n))], ?_, ?_⟩
    · rw [follow_chain, find_next_jump, hnext]
      simp [hclose]
    · simp [List.range_succ]
  | succ m ih =>
    intro k fuel cur items hk hfuel hcur hval
    obtain ⟨fuel, rfl⟩ : ∃ f, fuel = f + 1 := ⟨fuel - 1, by omega⟩
    have hlt : (i + k) % n < n := Nat.mod_lt _ hpos
    have hlt1 : (i + k + 1) % n < n := Nat.mod_lt _ hpos
    obtain ⟨j, hj⟩ := List.getElem?_of_mem (hmem _ hlt1)
    have hown : cur.2.owner_thread = (e ((i + k + 1) % n)).blocked_thread := by
      rw [hcur, (he _ hlt).2, (he _ hlt1).1, Nat.mod_add_mod]
    have hne : cur.1 ≠ 0 + j := by
      intro hh
      rw [hh, Nat.zero_add, hj, hcur] at hval
      have h1 := congrArg BlockedMutex.blocked_thread (Option.some.inj hval)
      rw [(he _ hlt).1, (he _ hlt1).1] at h1
      have h2 := ht _ _ hlt1 hlt h1
      rw [← Nat.mod_add_mod] at h2
      exact add_mod_ne_self n _ 1 hlt (by omega) (by omega) h2
    have hnext := next_jump_scan_complete cur _ hown tbl 0 j hnd hj hne
    rw [Nat.zero_add] at hnext
    have hopen : ¬ (e ((i + k + 1) % n)).owner_thread = t i := by
      rw [(he _ hlt1).2, Nat.mod_add_mod]
      intro hh
      have h2 := ht _ _ (Nat.mod_lt _ hpos) hi hh
      have : i + k + 1 + 1 = i + (k + 2) := by omega
      rw [this] at h2
      exact add_mod_ne_self n i (k + 2) hi (by omega) (by omega) h2
    obtain ⟨res, hres, hmap⟩ :=
      ih (k + 1) fuel (j, e ((i + k + 1) % n)) (items ++ [(j, e ((i + k + 1) % n))])
        (by omega) (by omega) rfl hj
    refine ⟨res, ?_, ?_⟩
    · rw [follow_chain, find_next_jump, hnext]
      simp only [hopen, if_false]
      exact hres
    · rw [hmap, List.range_succ_eq_map (m + 1)]
      simp only [List.map_append, List.map_cons, List.map_nil, List.append_assoc,
        List.singleton_append, List.map_map, Nat.add_zero]
      congr 2
      apply List.map_congr_left
      intro d _
      simp only [Function.comp, Nat.succ_eq_add_one]
      congr 2
      omega

/-- C2. Let the table consist of exactly the `n ≥ 2` entries `e 0 .. e (n-1)`
in any order, none dumped, where entry `a` has `blocked_thread = t a` and
`owner_thread = t ((a + 1) mod n)` and the threads `t 0 .. t (n-1)` are pairwise
distinct.  Then `find_dead_locks`, run from `t i` with `force = false` on an
empty result vector and with a budget of at least `n - 1` steps, returns
exactly one link, and the link is `e i, e (i+1), .., e (i+n-1)` (indices mod
`n`), hence has `n` entries; the entry of `t i` is marked dumped. -/
theorem find_dead_locks_simple_cycle (n : Nat) (hn : 2 ≤ n) (t : Nat → Int)
    (e : Nat → BlockedMutex) (tbl : List BlockedMutex)
    (ht : ∀ a b, a < n → b < n → t a = t b → a = b)
    (he : ∀ a, a < n →
      (e a).blocked_thread = t a ∧ (e a).owner_thread = t ((a + 1) % n) ∧
        (e a).dumped = false)
    (hperm : tbl.Perm ((List.range n).map e))
    (i : Nat) (hi : i < n) (fuel : Nat) (hfuel : n - 1 ≤ fuel) :
    find_dead_locks fuel (t i) false tbl [] =
      some (mark_dumped (t i) tbl, [(List.range n).map fun k => e ((i + k) % n)]) := by
  have hlen : tbl.length = n := by
    rw [hperm.length_eq, List.length_map, List.length_range]
  have hmem : ∀ a, a < n → e a ∈ tbl := by
    intro a ha
    exact hperm.mem_iff.mpr (List.mem_map.mpr ⟨a, List.mem_range.mpr ha, rfl⟩)
  have hnd : (tbl.map fun x => x.blocked_thread).Nodup := by
    have hp := hperm.map fun x : BlockedMutex => x.blocked_thread
    rw [hp.nodup_iff, List.map_map]
    refine List.Nodup.map_on ?_ (List.nodup_range n)
    intro a ha b hb hab
    have ha := List.mem_range.mp ha
    have hb := List.mem_range.mp hb
    simp only [Function.comp] at hab
    rw [(he a ha).1, (he b hb).1] at hab
    exact ht a b ha hb hab
  have he2 : ∀ a, a < n →
      (e a).blocked_thread = t a ∧ (e a).owner_thread = t ((a + 1) % n) :=
    fun a ha => ⟨(he a ha).1, (he a ha).2.1⟩
  obtain ⟨j, hj⟩ := List.getElem?_of_mem (hmem i hi)
  have hbps := collect_block_points_unique (t i) false (e i) (he i hi).1 (he i hi).2.2
    tbl 0 j [] hnd hj
  rw [Nat.zero_add, List.nil_append] at hbps
  obtain ⟨res, hres, hmap⟩ :=
    follow_chain_ring n hn t e tbl ht he2 hnd hmem i hi (n - 2) 0 fuel (j, e i) [(j, e i)]
      (by omega) (by omega) (by simp [Nat.mod_eq_of_lt hi]) hj
  have hlink : res.map Prod.snd = (List.range n).map fun k => e ((i + k) % n) := by
    rw [hmap]
    have hn1 : List.range n = 0 :: (List.range (n - 2 + 1)).map Nat.succ := by
      rw [← List.range_succ_eq_map]
      congr 1
      omega
    rw [hn1]
    simp only [List.map_cons, List.map_nil, List.singleton_append, List.map_map, Nat.add_zero,
      Nat.mod_eq_of_lt hi]
    congr 1
    apply List.map_congr_left
    intro d _
    simp only [Function.comp, Nat.succ_eq_add_one]
    congr 2
    omega
  have hge : ¬ tbl.length < 2 := by omega
  simp only [find_dead_locks, hge, if_false, hbps, search_links, hres, List.nil_append, hlink,
    List.length_singleton, gt_iff_lt, Nat.lt_one_iff, ge_iff_le, le_refl, if_true]

/-- Witness of C2: the three-thread ring stored in the order 3, 1, 2 and
searched from thread 2 gives the single link 2, 3, 1. -/
theorem find_dead_locks_simple_cycle_witness :
    find_dead_locks 2 (ring3_thread 1) false ring3 [] =
      some (mark_dumped (ring3_thread 1) ring3,
        [(List.range 3).map fun k => ring3_edge ((1 + k) % 3)]) :=
  find_dead_locks_simple_cycle 3 (by decide) ring3_thread ring3_edge ring3
    (by
      intro a b ha hb hab
      simp only [ring3_thread] at hab
      omega)
    (by
      intro a ha
      interval_cases a <;> decide)
    (by decide) 1 (by decide) 2 (by decide)

/-! ## Repeated detection (C4) -/

theorem mark_entry_blocked_thread (T : Int) (x : BlockedMutex) :
    (mark_entry T x).blocked_thread = x.blocked_thread := by
  unfold mark_entry; split <;> rfl

theorem mark_entry_owner_thread (T : Int) (x : BlockedMutex) :
    (mark_entry T x).owner_thread = x.owner_thread := by
  unfold mark_entry; split <;> rfl

theorem mark_entry_wait_triple (T : Int) (x : BlockedMutex) :
    wait_triple (mark_entry T x) = wait_triple x := by
  unfold mark_entry wait_triple; split <;> rfl

theorem mark_entry_idem (T : Int) (x : BlockedMutex) :
    mark_entry T (mark_entry T x) = mark_entry T x := by
  unfold mark_entry
  split <;> simp_all

theorem mark_entry_dumped (T : Int) (x : BlockedMutex) (h : x.blocked_thread = T) :
    (mark_entry T x).dumped = true := by
  simp [mark_entry, h]

theorem mark_dumped_idem (T : Int) (tbl : List BlockedMutex) :
    mark_dumped T (mark_dumped T tbl) = mark_dumped T tbl := by
  simp [mark_dumped, List.map_map, Function.comp_def, mark_entry_idem]

theorem next_jump_scan_mark (T : Int) (fm : BlockedPtr) :
    ∀ (l : List BlockedMutex) (k : Nat),
      next_jump_scan (mark_ptr T fm) (l.map (mark_entry T)) k =
        (next_jump_scan fm l k).map (mark_ptr T) := by
  intro l
  induction l with
  | nil => intro k; rfl
  | cons item rest ih =>
    intro k
    simp only [List.map_cons, next_jump_scan, mark_ptr, mark_entry_owner_thread,
      mark_entry_blocked_thread]
    split
    · exact ih (k + 1)
    · split
      · rfl
      · exact ih (k + 1)

theorem follow_chain_mark (T U : Int) (tbl : List BlockedMutex) :
    ∀ (fuel : Nat) (cur : BlockedPtr) (items : List BlockedPtr),
      follow_chain (mark_dumped T tbl) U fuel (mark_ptr T cur) (items.map (mark_ptr T)) =
        (follow_chain tbl U fuel cur items).map (Option.map (List.map (mark_ptr T))) := by
  intro fuel
  induction fuel with
  | zero => intro cur items; rfl
  | succ fuel ih =>
    intro cur items
    simp only [follow_chain, find_next_jump, mark_dumped, next_jump_scan_mark]
    cases hscan : next_jump_scan cur tbl 0 with
    | none => rfl
    | some pNext =>
      simp only [Option.map_some']
      have hown : (mark_ptr T pNext).2.owner_thread = pNext.2.owner_thread :=
        mark_entry_owner_thread T pNext.2
      rw [hown]
      split
      · simp
      · have := ih pNext (items ++ [pNext])
        simp only [List.map_append, List.map_cons, List.map_nil, mark_dumped] at this
        exact this

theorem search_links_mark (T U : Int) (tbl : List BlockedMutex) (fuel : Nat) :
    ∀ (bps : List BlockedPtr) (links0 : List (List BlockedMutex)),
      search_links (mark_dumped T tbl) U fuel (bps.map (mark_ptr T))
          (links0.map (List.map (mark_entry T))) =
        (search_links tbl U fuel bps links0).map (List.map (List.map (mark_entry T))) := by
  intro bps
  induction bps with
  | nil => intro links0; rfl
  | cons item rest ih =>
    intro links0
    have hf := follow_chain_mark T U tbl fuel item [item]
    simp only [List.map_cons, List.map_nil] at hf
    simp only [List.map_cons, search_links, hf]
    cases hw : follow_chain tbl U fuel item [item] with
    | none => rfl
    | some r =>
      cases r with
      | none => exact ih links0
      | some items =>
        simp only [Option.map_some']
        have := ih (links0 ++ [items.map Prod.snd])
        simp only [List.map_append, List.map_cons, List.map_nil, List.map_map] at this
        simp only [List.map_map]
        exact this

theorem collect_block_points_force (T : Int) :
    ∀ (l : List BlockedMutex) (k : Nat) (acc bps : List BlockedPtr),
      collect_block_points T false l k acc = some bps →
      collect_block_points T true l k acc = some bps := by
  intro l
  induction l with
  | nil => intro k acc bps h; exact h
  | cons item rest ih =>
    intro k acc bps h
    unfold collect_block_points at h ⊢
    split
    · rename_i hT
      rw [if_pos hT] at h
      split at h
      · simp at h
      · simp only [Bool.not_true, Bool.false_and, Bool.false_eq_true, if_false]
        exact ih _ _ _ h
    · rename_i hT
      rw [if_neg hT] at h
      exact ih _ _ _ h

theorem collect_block_points_mark (T : Int) :
    ∀ (l : List BlockedMutex) (k : Nat) (acc : List BlockedPtr),
      collect_block_points T true (l.map (mark_entry T)) k (acc.map (mark_ptr T)) =
        (collect_block_points T true l k acc).map (List.map (mark_ptr T)) := by
  intro l
  induction l with
  | nil => intro k acc; rfl
  | cons item rest ih =>
    intro k acc
    simp only [List.map_cons, collect_block_points, mark_entry_blocked_thread, Bool.not_true,
      Bool.false_and, Bool.false_eq_true, if_false]
    split
    · have := ih (k + 1) (acc ++ [(k, item)])
      simp only [List.map_append, List.map_cons, List.map_nil, mark_ptr] at this
      exact this
    · exact ih (k + 1) acc

theorem collect_block_points_dumped (T : Int) :
    ∀ (l : List BlockedMutex) (k : Nat) (acc : List BlockedPtr),
      (∀ x ∈ l, x.blocked_thread = T → x.dumped = true) →
      (∃ x ∈ l, x.blocked_thread = T) →
      collect_block_points T false l k acc = none := by
  intro l
  induction l with
  | nil => intro k acc _ hex; obtain ⟨x, hx, _⟩ := hex; simp at hx
  | cons item rest ih =>
    intro k acc hall hex
    unfold collect_block_points
    split
    · rename_i hT
      simp [hall item (List.mem_cons_self _ _) hT]
    · rename_i hT
      apply ih (k + 1) acc (fun x hx => hall x (List.mem_cons_of_mem _ hx))
      obtain ⟨x, hx, hxT⟩ := hex
      rcases List.mem_cons.mp hx with rfl | hx
      · exact absurd hxT hT
      · exact ⟨x, hx, hxT⟩

/-- C4. If `find_dead_locks` run from `T` with `force = false` on an empty
result vector returns at least one link, then a second call on the resulting
table with `force = false` returns no link and leaves the table as it is, and a
second call with `force = true` returns links with the same sequences of mutex,
blocked thread and owner thread as the first call. -/
theorem find_dead_locks_twice (fuel : Nat) (T : Int) (tbl tbl1 : List BlockedMutex)
    (links : List (List BlockedMutex))
    (h : find_dead_locks fuel T false tbl [] = some (tbl1, links)) (hne : links ≠ []) :
    find_dead_locks fuel T false tbl1 [] = some (tbl1, []) ∧
    ∃ links2, find_dead_locks fuel T true tbl1 [] = some (tbl1, links2) ∧
      links2.map (List.map wait_triple) = links.map (List.map wait_triple) := by
  unfold find_dead_locks at h
  split at h
  · simp only [Option.some.injEq, Prod.mk.injEq] at h
    exact absurd h.2.symm hne
  rename_i hlen
  split at h
  · simp only [Option.some.injEq, Prod.mk.injEq] at h
    exact absurd h.2.symm hne
  rename_i bps hbps
  split at h
  · simp at h
  rename_i found hsearch
  split at h
  swap
  · simp only [Option.some.injEq, Prod.mk.injEq] at h
    rename_i hz
    have : found = [] := by
      cases found with
      | nil => rfl
      | cons a l => simp at hz
    rw [this] at h
    exact absurd h.2.symm hne
  rename_i hpos
  split at h
  swap
  · simp only [Option.some.injEq, Prod.mk.injEq] at h
    exact absurd h.2.symm hne
  rename_i hge
  simp only [Option.some.injEq, Prod.mk.injEq] at h
  obtain ⟨htbl, hlinks⟩ := h
  subst hlinks
  subst htbl
  have hlen1 : ¬ (mark_dumped T tbl).length < 2 := by
    simpa [mark_dumped] using hlen
  -- the thread has an entry, and all its entries are dumped now
  have hbne : bps ≠ [] := by
    intro hb
    rw [hb] at hsearch
    simp only [search_links, Option.some.injEq] at hsearch
    exact hne hsearch.symm
  obtain ⟨p, hp⟩ := List.exists_mem_of_ne_nil bps hbne
  have hex : ∃ x ∈ mark_dumped T tbl, x.blocked_thread = T := by
    rcases collect_block_points_sound T false tbl 0 [] bps hbps p hp with hacc | ⟨_, h2, h3⟩
    · simp at hacc
    · refine ⟨mark_entry T p.2, ?_, ?_⟩
      · exact List.mem_map.mpr ⟨p.2, List.getElem?_mem h2, rfl⟩
      · rw [mark_entry_blocked_thread]; exact h3
  have hall : ∀ x ∈ mark_dumped T tbl, x.blocked_thread = T → x.dumped = true := by
    intro x hx hxT
    obtain ⟨y, _, rfl⟩ := List.mem_map.mp hx
    rw [mark_entry_blocked_thread] at hxT
    exact mark_entry_dumped T y hxT
  constructor
  · simp only [find_dead_locks, hlen1, if_false,
      collect_block_points_dumped T (mark_dumped T tbl) 0 [] hall hex]
  · have hc := collect_block_points_mark T tbl 0 []
    rw [collect_block_points_force T tbl 0 [] bps hbps] at hc
    simp only [List.map_nil, Option.map_some'] at hc
    have hs := search_links_mark T T tbl fuel bps []
    rw [hsearch] at hs
    simp only [List.map_nil, Option.map_some'] at hs
    refine ⟨found.map (List.map (mark_entry T)), ?_, ?_⟩
    · have hc2 : collect_block_points T true (mark_dumped T tbl) 0 [] =
          some (bps.map (mark_ptr T)) := hc
      simp only [find_dead_locks, hlen1, if_false, hc2, hs, List.length_map, hpos, hge,
        if_true, mark_dumped_idem]
    · simp only [List.map_map]
      apply List.map_congr_left
      intro link _
      simp only [Function.comp, List.map_map]
      apply List.map_congr_left
      intro x _
      exact mark_entry_wait_triple T x

/-- Witness of C4: the three-thread ring searched from thread 1. -/
theorem find_dead_locks_twice_witness :
    find_dead_locks 5 1 false ring3_dumped [] = some (ring3_dumped, []) ∧
    ∃ links2, find_dead_locks 5 1 true ring3_dumped [] = some (ring3_dumped, links2) ∧
      links2.map (List.map wait_triple) =
        [[edge 11 1 2 false, edge 12 2 3 false, edge 13 3 1 false]].map
          (List.map wait_triple) :=
  find_dead_locks_twice 5 1 ring3 ring3_dumped
    [[edge 11 1 2 false, edge 12 2 3 false, edge 13 3 1 false]] (by decide) (by decide)

/-! ## Post-processing of the search (C5) -/

theorem collect_block_points_eq (T : Int) (force : Bool) :
    ∀ (l : List BlockedMutex) (k : Nat) (acc : List BlockedPtr),
      collect_block_points T force l k acc =
        if !force && already_dumped T l then none
        else some (acc ++ (l.enumFrom k).filter fun p => decide (p.2.blocked_thread = T)) := by
  intro l
  induction l with
  | nil => intro k acc; simp [collect_block_points, already_dumped]
  | cons item rest ih =>
    intro k acc
    unfold collect_block_points
    by_cases hT : item.blocked_thread = T
    · rw [if_pos hT]
      by_cases hd : (!force && item.dumped) = true
      · rw [if_pos hd]
        have : (!force && already_dumped T (item :: rest)) = true := by
          simp only [Bool.and_eq_true, Bool.not_eq_true'] at hd
          simp [already_dumped, hT, hd.1, hd.2]
        rw [if_pos this]
      · rw [if_neg hd, ih]
        have hg : (!force && already_dumped T (item :: rest)) =
            (!force && already_dumped T rest) := by
          cases force
          · simp only [Bool.not_false, Bool.true_and, Bool.not_eq_true] at hd
            simp [already_dumped, hd]
          · rfl
        rw [hg]
        split
        · rfl
        · simp [List.enumFrom_cons, List.filter_cons, hT]
    · rw [if_neg hT, ih]
      have hg : already_dumped T (item :: rest) = already_dumped T rest := by
        simp [already_dumped, hT]
      rw [hg]
      split
      · rfl
      · simp [List.enumFrom_cons, List.filter_cons, hT]

theorem search_links_length (tbl : List BlockedMutex) (T : Int) (fuel : Nat) :
    ∀ (bps : List BlockedPtr) (links0 : List (List BlockedMutex)),
      (∀ p ∈ bps, walk_stops tbl T fuel p = true) →
      ∃ links, search_links tbl T fuel bps links0 = some links ∧
        links.length = links0.length + bps.countP (closes_cycle tbl T fuel) := by
  intro bps
  induction bps with
  | nil => intro links0 _; exact ⟨links0, rfl, by simp⟩
  | cons item rest ih =>
    intro links0 hstop
    have hrest : ∀ p ∈ rest, walk_stops tbl T fuel p = true :=
      fun p hp => hstop p (List.mem_cons_of_mem _ hp)
    have hitem := hstop item (List.mem_cons_self _ _)
    unfold walk_stops at hitem
    unfold search_links
    cases hw : follow_chain tbl T fuel item [item] with
    | none => rw [hw] at hitem; simp at hitem
    | some r =>
      cases r with
      | none =>
        obtain ⟨links, h1, h2⟩ := ih links0 hrest
        refine ⟨links, h1, ?_⟩
        have hc : closes_cycle tbl T fuel item = false := by simp [closes_cycle, hw]
        rw [h2, List.countP_cons_of_neg]
        simp [hc]
      | some items =>
        obtain ⟨links, h1, h2⟩ := ih (links0 ++ [items.map Prod.snd]) hrest
        refine ⟨links, h1, ?_⟩
        have hc : closes_cycle tbl T fuel item = true := by simp [closes_cycle, hw]
        rw [h2, List.countP_cons_of_pos _ _ hc, List.length_append, List.length_singleton]
        omega

theorem closes_cycle_two_entries (tbl : List BlockedMutex) (T : Int) (fuel : Nat)
    (p : BlockedPtr) (hp : tbl[p.1]? = some p.2) (hc : closes_cycle tbl T fuel p = true) :
    2 ≤ tbl.length := by
  unfold closes_cycle at hc
  cases fuel with
  | zero => simp [follow_chain] at hc
  | succ fuel =>
    unfold follow_chain at hc
    cases hn : find_next_jump tbl (some p) with
    | none => simp [hn] at hc
    | some q =>
      obtain ⟨hq, hne, _⟩ := find_next_jump_sound tbl p q hn
      obtain ⟨h1, _⟩ := List.getElem?_eq_some.mp hp
      obtain ⟨h2, _⟩ := List.getElem?_eq_some.mp hq
      omega

theorem find_dead_locks_eq (fuel : Nat) (T : Int) (force : Bool) (tbl : List BlockedMutex)
    (links0 : List (List BlockedMutex)) :
    find_dead_locks fuel T force tbl links0 =
      if tbl.length < 2 then some (tbl, links0)
      else if !force && already_dumped T tbl then some (tbl, links0)
      else
        match search_links tbl T fuel (start_points T tbl) links0 with
        | none => none
        | some links =>
          if links.length > 0 then
            if links.length ≥ (start_points T tbl).length then
              some (mark_dumped T tbl, links)
            else some (tbl, [])
          else some (tbl, links) := by
  unfold find_dead_locks
  rw [collect_block_points_eq, List.nil_append]
  by_cases h1 : tbl.length < 2
  · rw [if_pos h1, if_pos h1]
  · rw [if_neg h1, if_neg h1]
    by_cases h2 : (!force && already_dumped T tbl) = true
    · rw [if_pos h2, if_pos h2]
    · rw [if_neg h2, if_neg h2]
      rfl


/-- C5 as stated fails where the deduplication guard fires. In
`two_point_table` thread 1 has two start points and both close a cycle, yet
the call with `force = false` returns at the guard (the first entry of thread
1 is already dumped) and the second entry of thread 1 stays unmarked. -/
theorem find_dead_locks_guard_leaves_unmarked :
    ¬ ((start_points 1 two_point_table).length ≤ closing_count two_point_table 1 5 →
        1 ≤ closing_count two_point_table 1 5 →
        ∀ r, find_dead_locks 5 1 false two_point_table [] = some r →
          ∀ e ∈ r.1, e.blocked_thread = 1 → e.dumped = true) := by
  intro h
  have h1 := h (by decide) (by decide) (two_point_table, []) (by decide)
    (edge 32 1 3 false) (by decide) (by decide)
  exact absurd h1 (by decide)

/-- C5 (amended). Assume every walk from a start point of `T` stops within the
step budget, and let the call start with an empty result vector.  If fewer
start points close a cycle than there are start points, the call returns no
link and leaves the table, dumped flags included, unchanged.  If at least as
many start points close a cycle as there are start points, at least one does,
and the deduplication guard does not fire (`force` is set or no entry of `T` is
dumped yet), the call returns one link per closing start point and every entry
of `T` is marked dumped.  When the guard fires (`force` unset and an entry of
`T` already dumped) the call returns no link and leaves the table unchanged. -/
theorem find_dead_locks_post_processing (fuel : Nat) (T : Int) (force : Bool)
    (tbl : List BlockedMutex)
    (hstop : ∀ p ∈ start_points T tbl, walk_stops tbl T fuel p = true) :
    (closing_count tbl T fuel < (start_points T tbl).length →
      find_dead_locks fuel T force tbl [] = some (tbl, [])) ∧
    ((start_points T tbl).length ≤ closing_count tbl T fuel →
      1 ≤ closing_count tbl T fuel →
      (force = true ∨ already_dumped T tbl = false) →
      ∃ links, find_dead_locks fuel T force tbl [] = some (mark_dumped T tbl, links) ∧
        links.length = closing_count tbl T fuel ∧
        ∀ e ∈ mark_dumped T tbl, e.blocked_thread = T → e.dumped = true) ∧
    (force = false → already_dumped T tbl = true →
      find_dead_locks fuel T force tbl [] = some (tbl, [])) := by
  obtain ⟨links, hsearch, hlen⟩ := search_links_length tbl T fuel (start_points T tbl) [] hstop
  simp only [List.length_nil, Nat.zero_add] at hlen
  have hmarked : ∀ e ∈ mark_dumped T tbl, e.blocked_thread = T → e.dumped = true := by
    intro x hx hxT
    obtain ⟨y, _, rfl⟩ := List.mem_map.mp hx
    rw [mark_entry_blocked_thread] at hxT
    exact mark_entry_dumped T y hxT
  rw [find_dead_locks_eq, hsearch]
  unfold closing_count
  rw [← hlen]
  refine ⟨?_, ?_, ?_⟩
  · intro hlt
    split
    · rfl
    · split
      · rfl
      · simp only []
        by_cases hz : links.length > 0
        · rw [if_pos hz, if_neg (by omega)]
        · rw [if_neg hz]
          have : links = [] := List.eq_nil_of_length_eq_zero (by omega)
          rw [this]
  · intro hge hone hguard
    have htwo : ¬ tbl.length < 2 := by
      have hposc : 0 < (start_points T tbl).countP (closes_cycle tbl T fuel) := by omega
      obtain ⟨p, hp, hc⟩ := List.countP_pos_iff.mp hposc
      have hp2 := (List.mem_filter.mp hp).1
      have hv : tbl[p.1]? = some p.2 := by
        have := (List.mk_mem_enumFrom_iff_le_and_getElem?_sub (n := 0) (i := p.1)
          (x := p.2) (l := tbl)).mp hp2
        simpa using this.2
      have := closes_cycle_two_entries tbl T fuel p hv hc
      omega
    have hg : ¬ ((!force && already_dumped T tbl) = true) := by
      rcases hguard with hf | hd
      · simp [hf]
      · simp [hd]
    refine ⟨links, ?_, rfl, hmarked⟩
    rw [if_neg htwo, if_neg hg]
    simp only []
    rw [if_pos (by omega), if_pos (by omega)]
  · intro hf hd
    split
    · rfl
    · rw [if_pos (by simp [hf, hd])]

/-- Witness of C5: the three-thread ring searched from thread 1. -/
theorem find_dead_locks_post_processing_witness :
    (∀ p ∈ start_points 1 ring3, walk_stops ring3 1 5 p = true) ∧
    ((start_points 1 ring3).length ≤ closing_count ring3 1 5 →
      1 ≤ closing_count ring3 1 5 →
      (false = true ∨ already_dumped 1 ring3 = false) →
      ∃ links, find_dead_locks 5 1 false ring3 [] = some (mark_dumped 1 ring3, links) ∧
        links.length = closing_count ring3 1 5 ∧
        ∀ e ∈ mark_dumped 1 ring3, e.blocked_thread = 1 → e.dumped = true) :=
  ⟨by decide, (find_dead_locks_post_processing 5 1 false ring3 (by decide)).2.1⟩

/-! ## Descriptor bookkeeping (C6, C7, C8) -/

theorem lock_acquired_fields (tid now : Int) (d : LockInfo) :
    (lock_acquired tid now d).deep = d.deep + 1 ∧
    (lock_acquired tid now d).owner = tid ∧
    (lock_acquired tid now d).recursive = d.recursive ∧
    (lock_acquired tid now d).type = d.type ∧
    (lock_acquired tid now d).lock = d.lock ∧
    (d.deep + 1 = 1 → (lock_acquired tid now d).enter_time = now) ∧
    (d.deep + 1 ≠ 1 → (lock_acquired tid now d).enter_time = d.enter_time) := by
  unfold lock_acquired
  by_cases h : d.deep + 1 = 1
  · simp [h]
  · simp [h]

theorem unlock_owner (tid : Int) (d : LockInfo) (h : d.owner = tid) :
    (unlock tid d).2.1.deep = d.deep - 1 ∧
    (unlock tid d).2.1.recursive = d.recursive ∧
    (unlock tid d).2.1.type = d.type ∧
    (unlock tid d).2.1.lock = d.lock ∧
    (d.deep - 1 = 0 → (unlock tid d).2.1.owner = 0 ∧ (unlock tid d).2.1.enter_time = 0) ∧
    (d.deep - 1 ≠ 0 →
      (unlock tid d).2.1.owner = d.owner ∧ (unlock tid d).2.1.enter_time = d.enter_time) := by
  unfold unlock
  rw [if_pos h]
  by_cases h0 : d.deep - 1 = 0
  · simp [h0]
  · simp [h0]

theorem unlock_not_owner (tid : Int) (d : LockInfo) (h : d.owner ≠ tid) :
    (unlock tid d).2.1 = d := by
  unfold unlock
  rw [if_neg h]

theorem lock_inv_apply_op (d : LockInfo) (op : LockOp) (htid : op.tid ≠ 0)
    (hinv : lock_inv d) : lock_inv (apply_op d op) := by
  obtain ⟨h0, hiff⟩ := hinv
  cases op with
  | acquire tid now =>
    obtain ⟨hd, ho, _⟩ := lock_acquired_fields tid now d
    simp only [apply_op, lock_inv, hd, ho]
    simp only [LockOp.tid] at htid
    exact ⟨by omega, ⟨fun _ => htid, fun _ => by omega⟩⟩
  | release tid =>
    simp only [LockOp.tid] at htid
    simp only [apply_op]
    by_cases hown : d.owner = tid
    · obtain ⟨hd, _, _, _, hz, hnz⟩ := unlock_owner tid d hown
      have hpos : 0 < d.deep := hiff.mpr (by rw [hown]; exact htid)
      simp only [lock_inv, hd]
      refine ⟨by omega, ?_⟩
      by_cases h1 : d.deep - 1 = 0
      · rw [(hz h1).1]
        constructor
        · intro h; omega
        · intro h; exact absurd rfl h
      · rw [(hnz h1).1]
        constructor
        · intro _; rw [hown]; exact htid
        · intro _; omega
    · rw [unlock_not_owner tid d hown]
      exact ⟨h0, hiff⟩

theorem lock_inv_run_ops :
    ∀ (ops : List LockOp) (d : LockInfo),
      (∀ op ∈ ops, op.tid ≠ 0) → lock_inv d → lock_inv (run_ops d ops) := by
  intro ops
  induction ops with
  | nil => intro d _ h; exact h
  | cons op rest ih =>
    intro d htid hinv
    simp only [run_ops, List.foldl_cons]
    exact ih (apply_op d op) (fun o ho => htid o (List.mem_cons_of_mem _ ho))
      (lock_inv_apply_op d op (htid op (List.mem_cons_self _ _)) hinv)

theorem run_ops_recursive :
    ∀ (ops : List LockOp) (d : LockInfo), (run_ops d ops).recursive = d.recursive := by
  intro ops
  induction ops with
  | nil => intro d; rfl
  | cons op rest ih =>
    intro d
    simp only [run_ops, List.foldl_cons]
    have := ih (apply_op d op)
    simp only [run_ops] at this
    rw [this]
    cases op with
    | acquire tid now => exact (lock_acquired_fields tid now d).2.2.1
    | release tid =>
      simp only [apply_op]
      by_cases hown : d.owner = tid
      · exact (unlock_owner tid d hown).2.1
      · rw [unlock_not_owner tid d hown]

theorem depth_le_one_run_ops :
    ∀ (ops : List LockOp) (d : LockInfo),
      d.deep ≤ 1 → granted_when_free d ops = true → (run_ops d ops).deep ≤ 1 := by
  intro ops
  induction ops with
  | nil => intro d h _; exact h
  | cons op rest ih =>
    intro d hle hg
    simp only [granted_when_free, Bool.and_eq_true, Bool.or_eq_true, Bool.not_eq_true',
      decide_eq_true_eq] at hg
    simp only [run_ops, List.foldl_cons]
    refine ih (apply_op d op) ?_ hg.2
    cases op with
    | acquire tid now =>
      have hz : d.deep = 0 := by
        rcases hg.1 with h | h
        · simp [LockOp.is_acquire] at h
        · exact h
      simp only [apply_op, (lock_acquired_fields tid now d).1]
      omega
    | release tid =>
      simp only [apply_op]
      by_cases hown : d.owner = tid
      · rw [(unlock_owner tid d hown).1]; omega
      · rw [unlock_not_owner tid d hown]; exact hle

/-- C6 as stated fails: on a non-recursive descriptor that starts free, thread 5
acquires, thread 6 calls `unlock` (not the owner: no change), thread 7 acquires;
all thread ids are non-zero and the depth is 2. -/
theorem depth_exceeds_one_after_foreign_unlock :
    free_lock.recursive = false ∧ free_lock.deep = 0 ∧ free_lock.owner = 0 ∧
    (∀ op ∈ foreign_unlock_ops, op.tid ≠ 0) ∧
    lock_inv (run_ops free_lock foreign_unlock_ops) ∧
    ¬ (run_ops free_lock foreign_unlock_ops).deep ≤ 1 := by
  decide

/-- C6 (amended). The predicate `depth ≥ 0 ∧ (depth > 0 ↔ owner ≠ none)` holds
for a free descriptor (depth 0, owner none), is preserved by every acquire
update of `try_lock` and every `unlock` call by a thread with non-zero id, and
so holds after any sequence of such steps by arbitrary threads.  On a
descriptor with `recursive = false` the depth stays at most 1 along every
sequence in which each acquire update is applied while the depth is 0. -/
theorem lock_inv_invariant (d : LockInfo) (ops : List LockOp)
    (hfree : d.deep = 0 ∧ d.owner = 0) (htid : ∀ op ∈ ops, op.tid ≠ 0) :
    lock_inv d ∧
    (∀ (s : LockInfo) (op : LockOp), op.tid ≠ 0 → lock_inv s → lock_inv (apply_op s op)) ∧
    lock_inv (run_ops d ops) ∧
    (d.recursive = false → granted_when_free d ops = true →
      (run_ops d ops).recursive = false ∧ (run_ops d ops).deep ≤ 1) := by
  have hinv : lock_inv d := by
    unfold lock_inv
    rw [hfree.1, hfree.2]
    simp
  refine ⟨hinv, fun s op h1 h2 => lock_inv_apply_op s op h1 h2,
    lock_inv_run_ops ops d htid hinv, ?_⟩
  intro hrec hg
  refine ⟨by rw [run_ops_recursive, hrec], depth_le_one_run_ops ops d ?_ hg⟩
  rw [hfree.1]; decide

/-- Witness of C6: one acquire and one release by thread 5 on a free
descriptor. -/
theorem lock_inv_invariant_witness :
    lock_inv free_lock ∧
    (∀ (s : LockInfo) (op : LockOp), op.tid ≠ 0 → lock_inv s → lock_inv (apply_op s op)) ∧
    lock_inv (run_ops free_lock [LockOp.acquire 5 100, LockOp.release 5]) ∧
    (free_lock.recursive = false →
      granted_when_free free_lock [LockOp.acquire 5 100, LockOp.release 5] = true →
      (run_ops free_lock [LockOp.acquire 5 100, LockOp.release 5]).recursive = false ∧
        (run_ops free_lock [LockOp.acquire 5 100, LockOp.release 5]).deep ≤ 1) :=
  lock_inv_invariant free_lock [LockOp.acquire 5 100, LockOp.release 5]
    (by decide) (by decide)

theorem run_ops_balanced (T : Int) :
    ∀ (ops : List LockOp) (d : LockInfo) (k : Nat),
      d.deep = (k : Int) → (0 < k → d.owner = T) →
      (k = 0 → d.owner = 0 ∧ d.enter_time = 0) →
      (∀ op ∈ ops, op.tid = T) →
      (∀ n, (ops.take n).countP LockOp.is_release ≤
        k + (ops.take n).countP LockOp.is_acquire) →
      k + ops.countP LockOp.is_acquire = ops.countP LockOp.is_release →
      (run_ops d ops).owner = 0 ∧ (run_ops d ops).deep = 0 ∧
        (run_ops d ops).enter_time = 0 := by
  intro ops
  induction ops with
  | nil =>
    intro d k hd _ hz _ _ hcount
    simp only [List.countP_nil, Nat.add_zero] at hcount
    subst hcount
    exact ⟨(hz rfl).1, by simpa using hd, (hz rfl).2⟩
  | cons op rest ih =>
    intro d k hd hpos hz hT hpre hcount
    have hTrest : ∀ o ∈ rest, o.tid = T := fun o ho => hT o (List.mem_cons_of_mem _ ho)
    have hop := hT op (List.mem_cons_self _ _)
    simp only [run_ops, List.foldl_cons]
    cases op with
    | acquire tid now =>
      simp only [LockOp.tid] at hop
      subst hop
      obtain ⟨h1, h2, _⟩ := lock_acquired_fields tid now d
      refine ih (apply_op d (LockOp.acquire tid now)) (k + 1) ?_ ?_ ?_ hTrest ?_ ?_
      · simp only [apply_op, h1, hd]; push_cast; ring
      · intro _; exact h2
      · intro h; omega
      · intro n
        have := hpre (n + 1)
        simp only [List.take_succ_cons, List.countP_cons, LockOp.is_release,
          LockOp.is_acquire] at this
        simp only [Bool.false_eq_true, if_false, if_true, Nat.add_zero] at this
        omega
      · simp only [List.countP_cons, LockOp.is_release, LockOp.is_acquire] at hcount
        simp only [Bool.false_eq_true, if_false, if_true, Nat.add_zero] at hcount
        omega
    | release tid =>
      simp only [LockOp.tid] at hop
      subst hop
      have hk : 1 ≤ k := by
        have := hpre 1
        simp only [List.take_succ_cons, List.take_zero, List.countP_cons, List.countP_nil,
          LockOp.is_release, LockOp.is_acquire] at this
        simp only [Bool.false_eq_true, if_false, if_true, Nat.add_zero] at this
        omega
      have hown : d.owner = tid := hpos (by omega)
      obtain ⟨h1, _, _, _, h5, h6⟩ := unlock_owner tid d hown
      refine ih (apply_op d (LockOp.release tid)) (k - 1) ?_ ?_ ?_ hTrest ?_ ?_
      · simp only [apply_op, h1, hd]; omega
      · intro hk1
        simp only [apply_op]
        rw [(h6 (by omega)).1]; exact hown
      · intro hk0
        simp only [apply_op]
        exact h5 (by omega)
      · intro n
        have := hpre (n + 1)
        simp only [List.take_succ_cons, List.countP_cons, LockOp.is_release,
          LockOp.is_acquire] at this
        simp only [Bool.false_eq_true, if_false, if_true, Nat.add_zero] at this
        omega
      · simp only [List.countP_cons, LockOp.is_release, LockOp.is_acquire] at hcount
        simp only [Bool.false_eq_true, if_false, if_true, Nat.add_zero] at hcount
        omega

/-- C7. Let thread `T` alone perform a balanced sequence of successful lock
updates and `unlock` calls on a descriptor that starts free (depth 0, owner
none, enter_time 0): as many releases as acquisitions, and in every initial
segment at most as many releases as acquisitions.  Then the descriptor ends
with owner none, depth 0 and enter_time 0. -/
theorem balanced_ops_restore_free (T : Int) (d : LockInfo) (ops : List LockOp)
    (hfree : d.deep = 0 ∧ d.owner = 0 ∧ d.enter_time = 0)
    (hT : ∀ op ∈ ops, op.tid = T)
    (hcount : ops.countP LockOp.is_acquire = ops.countP LockOp.is_release)
    (hpre : ∀ n, (ops.take n).countP LockOp.is_release ≤
      (ops.take n).countP LockOp.is_acquire) :
    (run_ops d ops).owner = 0 ∧ (run_ops d ops).deep = 0 ∧
      (run_ops d ops).enter_time = 0 :=
  run_ops_balanced T ops d 0 (by simpa using hfree.1) (fun h => absurd h (lt_irrefl 0))
    (fun _ => ⟨hfree.2.1, hfree.2.2⟩) hT (fun n => by simpa using hpre n)
    (by simpa using hcount)

/-- Witness of C7: thread 5 acquires twice and releases twice. -/
theorem balanced_ops_restore_free_witness :
    (run_ops free_lock nested_ops).owner = 0 ∧ (run_ops free_lock nested_ops).deep = 0 ∧
      (run_ops free_lock nested_ops).enter_time = 0 :=
  balanced_ops_restore_free 5 free_lock nested_ops (by decide) (by decide) (by decide)
    (by
      intro n
      by_cases h : n < 4
      · interval_cases n <;> decide
      · have hlen : nested_ops.length ≤ n := by
          have : nested_ops.length = 4 := by decide
          omega
        rw [List.take_of_length_le hlen]
        decide)

/-- C8. `unlock` returns 0 and keeps `recursive`, `type` and the address.  It
lowers the depth by exactly one if and only if the caller is the owner; then,
if the lowered depth is 0, owner and enter_time are reset to 0, and otherwise
both stay.  If the caller is not the owner the descriptor is unchanged. -/
theorem unlock_contract (tid : Int) (d : LockInfo) :
    (unlock tid d).1 = 0 ∧
    (unlock tid d).2.1.recursive = d.recursive ∧
    (unlock tid d).2.1.type = d.type ∧
    (unlock tid d).2.1.lock = d.lock ∧
    ((unlock tid d).2.1.deep = d.deep - 1 ↔ d.owner = tid) ∧
    (d.owner = tid → d.deep - 1 = 0 →
      (unlock tid d).2.1.owner = 0 ∧ (unlock tid d).2.1.enter_time = 0) ∧
    (d.owner = tid → d.deep - 1 ≠ 0 →
      (unlock tid d).2.1.owner = d.owner ∧ (unlock tid d).2.1.enter_time = d.enter_time) ∧
    (d.owner ≠ tid → (unlock tid d).2.1 = d) := by
  by_cases hown : d.owner = tid
  · obtain ⟨h1, h2, h3, h4, h5, h6⟩ := unlock_owner tid d hown
    refine ⟨?_, h2, h3, h4, ⟨fun _ => hown, fun _ => h1⟩, fun _ => h5, fun _ => h6,
      fun h => absurd hown h⟩
    unfold unlock
    rw [if_pos hown]
    by_cases h0 : d.deep - 1 = 0
    · simp [h0]
    · simp [h0]
  · have hsame := unlock_not_owner tid d hown
    refine ⟨?_, by rw [hsame], by rw [hsame], by rw [hsame], ⟨?_, fun h => absurd h hown⟩,
      fun h => absurd h hown, fun h => absurd h hown, fun _ => hsame⟩
    · unfold unlock
      rw [if_neg hown]
    · intro h
      rw [hsame] at h
      omega

/-! ## The acquire path (C9, C10) -/

theorem try_lock_result (fuel : Nat) (p : Platform) (lock : LockInfo)
    (tbl : List BlockedMutex) (r : TryLockResult) (h : try_lock fuel p lock tbl = some r) :
    r.ret = 0 ∧ r.lock = lock_acquired p.tid p.enter_now lock := by
  unfold try_lock at h
  dsimp only at h
  generalize try_lock_loop fuel p.tid p.isMainThread p.tm lock p.ticks _ = res at h
  cases res with
  | none => simp at h
  | some st =>
    simp only [Option.some.injEq] at h
    subst h
    exact ⟨rfl, rfl⟩

theorem try_lock_granted_at_once (fuel : Nat) (p : Platform) (lock : LockInfo)
    (tbl : List BlockedMutex) (h : p.ticks = []) :
    try_lock fuel p lock tbl =
      some
        { ret := 0
          lock := lock_acquired p.tid p.enter_now lock
          sBlockedMutexes := tbl
          log := (timed_lock lock (if p.isMainThread then 500 else 1000) 0).2 } := by
  unfold try_lock
  rw [h]
  simp [try_lock_loop]

theorem timed_lock_no_diagnostic (lock : LockInfo) (timeout outcome : Int) :
    ∀ ev ∈ (timed_lock lock timeout outcome).2, Event.is_diagnostic ev = false := by
  intro ev hev
  unfold timed_lock at hev
  split at hev
  · split at hev
    · simp only [List.mem_singleton] at hev; subst hev; rfl
    · simp only [List.mem_singleton] at hev; subst hev; rfl
  · simp at hev

/-- C9 as stated fails: `try_lock` assigns the owner on every return.  On a
descriptor that records thread 5 as holder with depth 1, a call by thread 7
that is granted the mutex returns with depth 2 and owner 7. -/
theorem try_lock_overwrites_owner :
    ¬ (∀ r, try_lock 0 (granted_at_once 7) held_lock [] = some r →
        1 < r.lock.deep →
        r.lock.owner = held_lock.owner ∧ r.lock.enter_time = held_lock.enter_time) := by
  intro h
  have h1 := h _ (try_lock_granted_at_once 0 (granted_at_once 7) held_lock [] rfl) (by decide)
  exact absurd h1.1 (by decide)

/-- C9 (amended). Whenever `try_lock` returns, it returns 0, the depth has grown
by exactly one and the owner is the calling thread (so the owner is unchanged
exactly when the caller was the owner already); enter_time is the clock
reading of line 316 if the new depth is 1 and is unchanged otherwise;
`recursive`, `type` and the address stay.  When the primitive grants the mutex
at the first try the call does return, the blocked-wait table is unchanged and
no warning or report is emitted; if moreover the caller held the descriptor
with depth 1, the depth becomes 2 with the same owner and enter_time. -/
theorem try_lock_bookkeeping (fuel : Nat) (p : Platform) (lock : LockInfo)
    (tbl : List BlockedMutex) :
    (∀ r, try_lock fuel p lock tbl = some r →
      r.ret = 0 ∧ r.lock.deep = lock.deep + 1 ∧ r.lock.owner = p.tid ∧
      (r.lock.deep = 1 → r.lock.enter_time = p.enter_now) ∧
      (r.lock.deep ≠ 1 → r.lock.enter_time = lock.enter_time) ∧
      r.lock.recursive = lock.recursive ∧ r.lock.type = lock.type ∧
      r.lock.lock = lock.lock) ∧
    (p.ticks = [] →
      ∃ r, try_lock fuel p lock tbl = some r ∧ r.sBlockedMutexes = tbl ∧
        (∀ ev ∈ r.log, Event.is_diagnostic ev = false) ∧
        (lock.owner = p.tid → lock.deep = 1 →
          r.lock.deep = 2 ∧ r.lock.owner = lock.owner ∧
            r.lock.enter_time = lock.enter_time)) := by
  obtain ⟨f1, f2, f3, f4, f5, f6, f7⟩ := lock_acquired_fields p.tid p.enter_now lock
  constructor
  · intro r hr
    obtain ⟨h1, h2⟩ := try_lock_result fuel p lock tbl r hr
    rw [h2]
    refine ⟨h1, f1, f2, ?_, ?_, f3, f4, f5⟩
    · intro h; rw [f1] at h; exact f6 h
    · intro h; rw [f1] at h; exact f7 h
  · intro hticks
    refine ⟨_, try_lock_granted_at_once fuel p lock tbl hticks, rfl,
      timed_lock_no_diagnostic lock _ 0, ?_⟩
    intro hown hdeep
    refine ⟨?_, ?_, ?_⟩
    · show (lock_acquired p.tid p.enter_now lock).deep = 2
      rw [f1, hdeep]; rfl
    · show (lock_acquired p.tid p.enter_now lock).owner = lock.owner
      rw [f2, hown]
    · show (lock_acquired p.tid p.enter_now lock).enter_time = lock.enter_time
      exact f7 (by rw [hdeep]; decide)

/-- Witness of C9: thread 5 re-enters the recursive descriptor it holds. -/
theorem try_lock_bookkeeping_witness :
    ∃ r, try_lock 0 (granted_at_once 5) held_recursive_lock [] = some r ∧
      r.sBlockedMutexes = [] ∧
      (∀ ev ∈ r.log, Event.is_diagnostic ev = false) ∧
      (held_recursive_lock.owner = (granted_at_once 5).tid → held_recursive_lock.deep = 1 →
        r.lock.deep = 2 ∧ r.lock.owner = held_recursive_lock.owner ∧
          r.lock.enter_time = held_recursive_lock.enter_time) :=
  (try_lock_bookkeeping 0 (granted_at_once 5) held_recursive_lock []).2 rfl

/-- What the lock hook does whenever it returns.  It returns 0 with registry,
descriptors, blocked-wait table and `retVal` unchanged if and only if the
address has no descriptor.  When the
address has a descriptor, every return of the hook has value 1 and has set
`retVal` to the value returned by `try_lock` on that descriptor, which is 0;
the hook returns exactly when `try_lock` does, and it does when the primitive
grants the mutex at the first try. -/
theorem my_pthread_mutex_lock_contract (fuel : Nat) (p : Platform)
    (context : PthreadMutexLockContext) (w : World) :
    ((∃ r, my_pthread_mutex_lock fuel p context w = some r ∧ r.ret = 0 ∧ r.world = w ∧
        r.context = context) ↔ getLock w.sLockMap context.mutex = none) ∧
    (getLock w.sLockMap context.mutex = none →
      my_pthread_mutex_lock fuel p context w =
        some { ret := 0, context := context, world := w, log := [] }) ∧
    (∀ pLock, getLock w.sLockMap context.mutex = some pLock →
      (∀ r, my_pthread_mutex_lock fuel p context w = some r →
        r.ret = 1 ∧ r.context.retVal = 0 ∧ r.context.mutex = context.mutex ∧
        ∃ tr, try_lock fuel p pLock w.sBlockedMutexes = some tr ∧
          r.context.retVal = tr.ret ∧
          r.world.sBlockedMutexes = tr.sBlockedMutexes ∧
          r.world.sLockMap = store_lock context.mutex tr.lock w.sLockMap) ∧
      (my_pthread_mutex_lock fuel p context w).isSome =
        (try_lock fuel p pLock w.sBlockedMutexes).isSome ∧
      (p.ticks = [] → (my_pthread_mutex_lock fuel p context w).isSome = true)) := by
  have hpresent : ∀ pLock, getLock w.sLockMap context.mutex = some pLock →
      (∀ r, my_pthread_mutex_lock fuel p context w = some r →
        r.ret = 1 ∧ r.context.retVal = 0 ∧ r.context.mutex = context.mutex ∧
        ∃ tr, try_lock fuel p pLock w.sBlockedMutexes = some tr ∧
          r.context.retVal = tr.ret ∧
          r.world.sBlockedMutexes = tr.sBlockedMutexes ∧
          r.world.sLockMap = store_lock context.mutex tr.lock w.sLockMap) ∧
      (my_pthread_mutex_lock fuel p context w).isSome =
        (try_lock fuel p pLock w.sBlockedMutexes).isSome ∧
      (p.ticks = [] → (my_pthread_mutex_lock fuel p context w).isSome = true) := by
    intro pLock hget
    have heq : my_pthread_mutex_lock fuel p context w =
        (try_lock fuel p pLock w.sBlockedMutexes).map fun tr =>
          { ret := 1
            context := { context with retVal := tr.ret }
            world :=
              { sLockMap := store_lock context.mutex tr.lock w.sLockMap
                sBlockedMutexes := tr.sBlockedMutexes }
            log := tr.log } := by
      unfold my_pthread_mutex_lock
      rw [hget]
      dsimp only
      generalize try_lock fuel p pLock w.sBlockedMutexes = res
      cases res <;> rfl
    rw [heq]
    cases htry : try_lock fuel p pLock w.sBlockedMutexes with
    | none =>
      refine ⟨fun r hr => by simp at hr, rfl, ?_⟩
      intro hticks
      rw [try_lock_granted_at_once fuel p pLock w.sBlockedMutexes hticks] at htry
      simp at htry
    | some tr =>
      refine ⟨?_, rfl, fun _ => rfl⟩
      intro r hr
      simp only [Option.map_some', Option.some.injEq] at hr
      subst hr
      have h0 := (try_lock_result fuel p pLock w.sBlockedMutexes tr htry).1
      exact ⟨rfl, h0, rfl, tr, rfl, rfl, rfl, rfl⟩
  have habsent : getLock w.sLockMap context.mutex = none →
      my_pthread_mutex_lock fuel p context w =
        some { ret := 0, context := context, world := w, log := [] } := by
    intro hget
    unfold my_pthread_mutex_lock
    rw [hget]
  refine ⟨⟨?_, ?_⟩, habsent, hpresent⟩
  · rintro ⟨r, hr, hret, _, _⟩
    cases hget : getLock w.sLockMap context.mutex with
    | none => rfl
    | some pLock =>
      have := ((hpresent pLock hget).1 r hr).1
      rw [hret] at this
      exact absurd this (by decide)
  · intro hget
    exact ⟨_, habsent hget, rfl, rfl, rfl⟩

/-- Example for the lock hook: address 8 is not tracked in `one_lock_world`,
address 9 is. -/
theorem my_pthread_mutex_lock_contract_example :
    my_pthread_mutex_lock 0 (granted_at_once 7) { mutex := 8, retVal := -1 } one_lock_world =
        some { ret := 0, context := { mutex := 8, retVal := -1 }, world := one_lock_world,
               log := [] } ∧
    (my_pthread_mutex_lock 0 (granted_at_once 5) { mutex := 9, retVal := -1 }
        one_lock_world).isSome = true :=
  ⟨(my_pthread_mutex_lock_contract 0 (granted_at_once 7) { mutex := 8, retVal := -1 }
      one_lock_world).2.1 (by decide),
    ((my_pthread_mutex_lock_contract 0 (granted_at_once 5) { mutex := 9, retVal := -1 }
      one_lock_world).2.2 held_recursive_lock (by decide)).2.2 rfl⟩

/-! ## The step budget

A result obtained within some budget is the result for every larger budget: the
budget only separates walks that stop from walks that have not stopped yet. -/

theorem follow_chain_mono (tbl : List BlockedMutex) (T : Int) :
    ∀ (fuel : Nat) (cur : BlockedPtr) (items : List BlockedPtr)
      (r : Option (List BlockedPtr)),
      follow_chain tbl T fuel cur items = some r →
      follow_chain tbl T (fuel + 1) cur items = some r := by
  intro fuel
  induction fuel with
  | zero => intro cur items r h; simp [follow_chain] at h
  | succ fuel ih =>
    intro cur items r h
    rw [follow_chain] at h ⊢
    cases hn : find_next_jump tbl (some cur) with
    | none => rw [hn] at h; exact h
    | some pNext =>
      rw [hn] at h
      simp only at h ⊢
      by_cases hown : pNext.2.owner_thread = T
      · rw [if_pos hown] at h ⊢; exact h
      · rw [if_neg hown] at h ⊢
        exact ih pNext _ r h

theorem search_links_mono (tbl : List BlockedMutex) (T : Int) (fuel : Nat) :
    ∀ (bps : List BlockedPtr) (links0 links : List (List BlockedMutex)),
      search_links tbl T fuel bps links0 = some links →
      search_links tbl T (fuel + 1) bps links0 = some links := by
  intro bps
  induction bps with
  | nil => intro links0 links h; exact h
  | cons item rest ih =>
    intro links0 links h
    rw [search_links] at h ⊢
    cases hw : follow_chain tbl T fuel item [item] with
    | none => rw [hw] at h; simp at h
    | some r =>
      rw [hw] at h
      rw [follow_chain_mono tbl T fuel item [item] r hw]
      cases r with
      | none => exact ih links0 links h
      | some items => exact ih _ links h

theorem find_dead_locks_mono (fuel : Nat) (T : Int) (force : Bool)
    (tbl : List BlockedMutex) (links0 : List (List BlockedMutex))
    (r : List BlockedMutex × List (List BlockedMutex))
    (h : find_dead_locks fuel T force tbl links0 = some r) :
    find_dead_locks (fuel + 1) T force tbl links0 = some r := by
  rw [find_dead_locks_eq] at h ⊢
  by_cases h1 : tbl.length < 2
  · rw [if_pos h1] at h ⊢; exact h
  · rw [if_neg h1] at h ⊢
    by_cases h2 : (!force && already_dumped T tbl) = true
    · rw [if_pos h2] at h ⊢; exact h
    · rw [if_neg h2] at h ⊢
      cases hs : search_links tbl T fuel (start_points T tbl) links0 with
      | none => rw [hs] at h; simp at h
      | some links =>
        rw [hs] at h
        rw [search_links_mono tbl T fuel _ links0 links hs]
        exact h

/-! ## Removal from the blocked-wait table (C13) -/

theorem remove_blocked_item_none (T : Int) :
    ∀ (tbl : List BlockedMutex), (∀ x ∈ tbl, x.blocked_thread ≠ T) →
      remove_blocked_item T tbl = tbl := by
  intro tbl
  induction tbl with
  | nil => intro _; rfl
  | cons item rest ih =>
    intro h
    have hi : ¬ item.blocked_thread = T := h item (List.mem_cons_self _ _)
    rw [remove_blocked_item, if_neg hi, ih fun x hx => h x (List.mem_cons_of_mem _ hx)]

theorem remove_blocked_item_first (T : Int) (e : BlockedMutex) (post : List BlockedMutex)
    (he : e.blocked_thread = T) :
    ∀ (pre : List BlockedMutex), (∀ x ∈ pre, x.blocked_thread ≠ T) →
      remove_blocked_item T (pre ++ e :: post) = pre ++ post := by
  intro pre
  induction pre with
  | nil => intro _; simp [remove_blocked_item, he]
  | cons item rest ih =>
    intro h
    have hi : ¬ item.blocked_thread = T := h item (List.mem_cons_self _ _)
    rw [List.cons_append, remove_blocked_item, if_neg hi,
      ih fun x hx => h x (List.mem_cons_of_mem _ hx)]
    rfl

theorem exists_first_of_thread (T : Int) :
    ∀ (tbl : List BlockedMutex), (∃ x ∈ tbl, x.blocked_thread = T) →
      ∃ pre e post, tbl = pre ++ e :: post ∧ e.blocked_thread = T ∧
        ∀ x ∈ pre, x.blocked_thread ≠ T := by
  intro tbl
  induction tbl with
  | nil => rintro ⟨x, hx, _⟩; simp at hx
  | cons item rest ih =>
    intro hex
    by_cases hi : item.blocked_thread = T
    · exact ⟨[], item, rest, rfl, hi, by simp⟩
    · have hrest : ∃ x ∈ rest, x.blocked_thread = T := by
        obtain ⟨x, hx, hxT⟩ := hex
        rcases List.mem_cons.mp hx with rfl | hx
        · exact absurd hxT hi
        · exact ⟨x, hx, hxT⟩
      obtain ⟨pre, e, post, h1, h2, h3⟩ := ih hrest
      refine ⟨item :: pre, e, post, by rw [h1]; rfl, h2, ?_⟩
      intro x hx
      rcases List.mem_cons.mp hx with rfl | hx
      · exact hi
      · exact h3 x hx

/-- C13. `remove_blocked_item(T)` removes exactly the first entry, in insertion
order, whose blocked thread is `T` and keeps every other entry (later entries
of `T` included) with its fields and in the same order; such a first entry
exists as soon as `T` has an entry; when `T` has no entry the table is
unchanged. -/
theorem remove_blocked_item_contract (T : Int) (tbl : List BlockedMutex) :
    (∀ pre e post, tbl = pre ++ e :: post → e.blocked_thread = T →
      (∀ x ∈ pre, x.blocked_thread ≠ T) → remove_blocked_item T tbl = pre ++ post) ∧
    ((∃ x ∈ tbl, x.blocked_thread = T) →
      ∃ pre e post, tbl = pre ++ e :: post ∧ e.blocked_thread = T ∧
        (∀ x ∈ pre, x.blocked_thread ≠ T) ∧ remove_blocked_item T tbl = pre ++ post) ∧
    ((∀ x ∈ tbl, x.blocked_thread ≠ T) → remove_blocked_item T tbl = tbl) := by
  refine ⟨?_, ?_, remove_blocked_item_none T tbl⟩
  · intro pre e post htbl he hpre
    rw [htbl]
    exact remove_blocked_item_first T e post he pre hpre
  · intro hex
    obtain ⟨pre, e, post, h1, h2, h3⟩ := exists_first_of_thread T tbl hex
    refine ⟨pre, e, post, h1, h2, h3, ?_⟩
    rw [h1]
    exact remove_blocked_item_first T e post h2 pre h3

/-- Witness of C13: thread 1 has two entries in `two_point_table`; the first is
removed, the second stays. -/
theorem remove_blocked_item_contract_witness :
    remove_blocked_item 1 two_point_table =
      [] ++ [edge 32 1 3 false, edge 33 2 1 false, edge 34 3 1 false] :=
  (remove_blocked_item_contract 1 two_point_table).1 [] (edge 31 1 2 true)
    [edge 32 1 3 false, edge 33 2 1 false, edge 34 3 1 false] (by decide) (by decide)
    (by decide)

/-! ## The deadline of the timed acquisition (C18) -/

theorem timedlock_deadline_instant (tv_sec tv_nsec timeout : Int) :
    (timedlock_deadline tv_sec tv_nsec timeout).1 * 1000000000 +
        (timedlock_deadline tv_sec tv_nsec timeout).2 =
      tv_sec * 1000000000 + tv_nsec + timeout * 1000000 := by
  unfold timedlock_deadline
  by_cases h : tv_nsec + timeout * 1000000 > 1000000000
  · simp only [h, if_true]
    have := Int.ediv_add_emod (tv_nsec + timeout * 1000000) 1000000000
    omega
  · simp only [h, if_false]
    omega

theorem timedlock_deadline_in_range (tv_nsec timeout : Int)
    (hn : 0 ≤ tv_nsec ∧ tv_nsec < 1000000000) (ht : 0 ≤ timeout ∧ timeout ≤ 1000) :
    0 ≤ timeout * 1000000 ∧ timeout * 1000000 < 2 ^ 31 ∧
    0 ≤ tv_nsec + timeout * 1000000 ∧ tv_nsec + timeout * 1000000 < 2 ^ 31 := by
  have : (2 : Int) ^ 31 = 2147483648 := by norm_num
  rw [this]
  omega

theorem timedlock_deadline_off_boundary (tv_sec tv_nsec timeout : Int)
    (hn : 0 ≤ tv_nsec ∧ tv_nsec < 1000000000) (ht : 0 ≤ timeout ∧ timeout ≤ 1000)
    (hb : tv_nsec + timeout * 1000000 ≠ 1000000000) :
    0 ≤ (timedlock_deadline tv_sec tv_nsec timeout).2 ∧
      (timedlock_deadline tv_sec tv_nsec timeout).2 < 1000000000 := by
  unfold timedlock_deadline
  by_cases h : tv_nsec + timeout * 1000000 > 1000000000
  · simp only [h, if_true]
    omega
  · simp only [h, if_false]
    omega

/-- C18 (evaluation of the code at the failing inputs). When the nanoseconds of
the clock reading plus the timeout make exactly one second, the test
`tv_nsec > 1000000000` is false and the deadline keeps `tv_nsec = 1000000000`,
which is not a normalised timespec.  This happens for each of the gate values:
1000 ms at `tv_nsec = 0`, 500 ms at `tv_nsec = 500000000`, and 300 ms at
`tv_nsec = 700000000`. -/
theorem timedlock_deadline_boundary (tv_sec : Int) :
    timedlock_deadline tv_sec 0 1000 = (tv_sec, 1000000000) ∧
    timedlock_deadline tv_sec 500000000 500 = (tv_sec, 1000000000) ∧
    timedlock_deadline tv_sec 700000000 300 = (tv_sec, 1000000000) ∧
    ¬ (timedlock_deadline tv_sec 0 1000).2 < 1000000000 := by
  refine ⟨?_, ?_, ?_, ?_⟩ <;> simp [timedlock_deadline]

/-! ## The registry (C12, C17) -/

theorem getLock_nil (a : Nat) : getLock [] a = none := rfl

theorem getLock_cons (node : Nat × LockInfo) (rest : List (Nat × LockInfo)) (a : Nat) :
    getLock (node :: rest) a = if node.1 = a then some node.2 else getLock rest a := by
  unfold getLock
  by_cases h : node.1 = a
  · simp [List.find?_cons, h]
  · simp [List.find?_cons, h]

theorem getLock_map_assign_self (a : Nat) (lock : LockInfo) :
    ∀ (m : List (Nat × LockInfo)), getLock (map_assign a lock m) a = some lock := by
  intro m
  induction m with
  | nil => simp [map_assign, getLock_cons]
  | cons node rest ih =>
    unfold map_assign
    by_cases h1 : a < node.1
    · rw [if_pos h1, getLock_cons]; simp
    · rw [if_neg h1]
      by_cases h2 : a = node.1
      · rw [if_pos h2, getLock_cons]; simp
      · rw [if_neg h2, getLock_cons, if_neg (fun h => h2 h.symm)]
        exact ih

theorem getLock_map_assign_other (a b : Nat) (lock : LockInfo) (hb : b ≠ a) :
    ∀ (m : List (Nat × LockInfo)), getLock (map_assign a lock m) b = getLock m b := by
  intro m
  induction m with
  | nil => simp [map_assign, getLock_cons, getLock_nil, Ne.symm hb]
  | cons node rest ih =>
    unfold map_assign
    by_cases h1 : a < node.1
    · rw [if_pos h1, getLock_cons]
      simp only [if_neg (Ne.symm hb)]
    · rw [if_neg h1]
      by_cases h2 : a = node.1
      · rw [if_pos h2, getLock_cons, getLock_cons]
        simp only [if_neg (Ne.symm hb)]
        rw [if_neg (by rw [← h2]; exact Ne.symm hb)]
      · rw [if_neg h2, getLock_cons, getLock_cons, ih]

theorem getLock_map_erase_self (a : Nat) :
    ∀ (m : List (Nat × LockInfo)), getLock (map_erase a m) a = none := by
  intro m
  induction m with
  | nil => rfl
  | cons node rest ih =>
    unfold map_erase at ih ⊢
    by_cases h : node.1 = a
    · simp only [List.filter_cons, h, ne_eq, not_true_eq_false, decide_False,
        Bool.false_eq_true, if_false]
      exact ih
    · simp only [List.filter_cons, h, ne_eq, not_false_eq_true, decide_True, if_true]
      rw [getLock_cons, if_neg h]
      exact ih

theorem getLock_map_erase_other (a b : Nat) (hb : b ≠ a) :
    ∀ (m : List (Nat × LockInfo)), getLock (map_erase a m) b = getLock m b := by
  intro m
  induction m with
  | nil => rfl
  | cons node rest ih =>
    unfold map_erase at ih ⊢
    by_cases h : node.1 = a
    · simp only [List.filter_cons, h, ne_eq, not_true_eq_false, decide_False,
        Bool.false_eq_true, if_false]
      rw [getLock_cons, if_neg (by rw [h]; exact Ne.symm hb)]
      exact ih
    · simp only [List.filter_cons, h, ne_eq, not_false_eq_true, decide_True, if_true]
      rw [getLock_cons, getLock_cons, ih]

theorem map_erase_absent (a : Nat) :
    ∀ (m : List (Nat × LockInfo)), getLock m a = none → map_erase a m = m := by
  intro m
  induction m with
  | nil => intro _; rfl
  | cons node rest ih =>
    intro h
    rw [getLock_cons] at h
    by_cases hn : node.1 = a
    · rw [if_pos hn] at h; simp at h
    · rw [if_neg hn] at h
      have := ih h
      unfold map_erase at this ⊢
      simp only [List.filter_cons, hn, ne_eq, not_false_eq_true, decide_True, if_true]
      rw [this]

/-- The registry behaves as a finite map keyed by the mutex address whenever
the init hook is given an attribute object.  After the init hook for address
`a` with an attribute object of type `attr_type` the hook has returned 0 and
the lookup of `a` gives the descriptor with address `a`, kind mutex,
`recursive` true exactly when the attribute type is the recursive mutex type,
depth 0, owner none and enter_time 0, whatever was stored for `a` before.
After the destroy hook the lookup of `a` gives none, and destroying an address
that has no descriptor leaves the process state unchanged.  Both hooks leave
the lookup of every other address unchanged and do not touch the blocked-wait
table; the destroy hook returns 0. -/
theorem registry_init_destroy (w : World) (a : Nat) (attr_type : Int) :
    (∃ w1, my_pthread_mutex_init { mutex := a, attr := MutexAttr.valid attr_type } w =
        some (0, w1) ∧
      getLock w1.sLockMap a =
        some { lock := a, type := MUTEX_TYPE.MUTEX,
               recursive := decide (attr_type = PTHREAD_MUTEX_RECURSIVE),
               owner := 0, deep := 0, enter_time := 0 } ∧
      (∀ b, b ≠ a → getLock w1.sLockMap b = getLock w.sLockMap b) ∧
      w1.sBlockedMutexes = w.sBlockedMutexes) ∧
    (my_pthread_mutex_destroy { mutex := a } w).1 = 0 ∧
    getLock (my_pthread_mutex_destroy { mutex := a } w).2.sLockMap a = none ∧
    (getLock w.sLockMap a = none → (my_pthread_mutex_destroy { mutex := a } w).2 = w) ∧
    (∀ b, b ≠ a →
      getLock (my_pthread_mutex_destroy { mutex := a } w).2.sLockMap b =
        getLock w.sLockMap b) ∧
    (my_pthread_mutex_destroy { mutex := a } w).2.sBlockedMutexes = w.sBlockedMutexes := by
  refine ⟨⟨_, rfl, ?_, ?_, rfl⟩, rfl, ?_, ?_, ?_, rfl⟩
  · exact getLock_map_assign_self a _ w.sLockMap
  · intro b hb
    exact getLock_map_assign_other a b _ hb w.sLockMap
  · exact getLock_map_erase_self a w.sLockMap
  · intro h
    show ({ w with sLockMap := map_erase a w.sLockMap } : World) = w
    rw [map_erase_absent a w.sLockMap h]
  · intro b hb
    exact getLock_map_erase_other a b hb w.sLockMap

/-- Example for the registry: mutex 9 of `one_lock_world`, held by thread 5, is
initialised again with an attribute object of the plain type, and mutex 8,
which has no descriptor, is destroyed. -/
theorem registry_init_destroy_example :
    (∃ w1, my_pthread_mutex_init { mutex := 9, attr := MutexAttr.valid 0 } one_lock_world =
        some (0, w1) ∧ getLock w1.sLockMap 9 = some free_lock) ∧
    (my_pthread_mutex_destroy { mutex := 8 } one_lock_world).2 = one_lock_world :=
  ⟨⟨_, rfl, by decide⟩, (registry_init_destroy one_lock_world 8 0).2.2.2.1 (by decide)⟩

/-- When the platform rejects the attribute object, the init hook still inserts
a descriptor; its `recursive` flag is decided by the indeterminate value of
the local `type`. -/
theorem my_pthread_mutex_init_invalid_attr (w : World) (a : Nat) (garbage : Int) :
    ∃ w1, my_pthread_mutex_init { mutex := a, attr := MutexAttr.invalid garbage } w =
        some (0, w1) ∧
      getLock w1.sLockMap a =
        some { lock := a, type := MUTEX_TYPE.MUTEX,
               recursive := decide (garbage = PTHREAD_MUTEX_RECURSIVE),
               owner := 0, deep := 0, enter_time := 0 } :=
  ⟨_, rfl, getLock_map_assign_self a _ w.sLockMap⟩

/-- C12 (evaluation of the code at the failing input). When the caller passes no
attributes, `context.attr` is the null pointer and line 57 hands it unchecked
to `pthread_mutexattr_gettype`: the process faults inside the call, the hook
does not return, and no descriptor is stored for the address, whatever the
registry held. -/
theorem my_pthread_mutex_init_null_attr (w : World) (a : Nat) :
    my_pthread_mutex_init { mutex := a, attr := MutexAttr.null } w = none ∧
    (my_pthread_mutex_init { mutex := 9, attr := MutexAttr.null } one_lock_world).isSome =
      false := by
  exact ⟨rfl, rfl⟩

/-- C17 as stated fails: in `waiting_world` thread 7 is recorded as waiting for
mutex 9, which has a descriptor; after the destroy hook for mutex 9 the entry
is still in the table and its mutex has no descriptor any more. -/
theorem destroy_leaves_blocked_edge :
    (∀ e ∈ waiting_world.sBlockedMutexes,
      (getLock waiting_world.sLockMap e.mutex).isSome = true) ∧
    ¬ (∀ e ∈ (my_pthread_mutex_destroy { mutex := 9 } waiting_world).2.sBlockedMutexes,
        e.mutex ≠ 9) ∧
    ¬ (∀ e ∈ (my_pthread_mutex_destroy { mutex := 9 } waiting_world).2.sBlockedMutexes,
        (getLock (my_pthread_mutex_destroy { mutex := 9 } waiting_world).2.sLockMap
          e.mutex).isSome = true) := by
  decide

/-- C17 (amended). The destroy hook for address `a` removes the descriptor of
`a` and nothing else: the blocked-wait table is unchanged, so entries whose
mutex is `a` stay in the table; an entry whose mutex is not `a` has a
descriptor after the destroy if it had one before.  Hence "every entry has a
descriptor" carries over the destroy when no entry of the table has mutex
`a`. -/
theorem destroy_keeps_table (w : World) (a : Nat) :
    (my_pthread_mutex_destroy { mutex := a } w).2.sBlockedMutexes = w.sBlockedMutexes ∧
    (∀ e ∈ (my_pthread_mutex_destroy { mutex := a } w).2.sBlockedMutexes, e.mutex ≠ a →
      (getLock w.sLockMap e.mutex).isSome = true →
      (getLock (my_pthread_mutex_destroy { mutex := a } w).2.sLockMap e.mutex).isSome = true) ∧
    ((∀ e ∈ w.sBlockedMutexes, e.mutex ≠ a) →
      (∀ e ∈ w.sBlockedMutexes, (getLock w.sLockMap e.mutex).isSome = true) →
      ∀ e ∈ (my_pthread_mutex_destroy { mutex := a } w).2.sBlockedMutexes,
        (getLock (my_pthread_mutex_destroy { mutex := a } w).2.sLockMap e.mutex).isSome =
          true) := by
  have hother : ∀ b, b ≠ a →
      getLock (my_pthread_mutex_destroy { mutex := a } w).2.sLockMap b = getLock w.sLockMap b :=
    fun b hb => getLock_map_erase_other a b hb w.sLockMap
  refine ⟨rfl, ?_, ?_⟩
  · intro e _ hne h
    rw [hother e.mutex hne]; exact h
  · intro hne hall e he
    have he2 : e ∈ w.sBlockedMutexes := he
    rw [hother e.mutex (hne e he2)]
    exact hall e he2

/-- Witness of C17: in `two_lock_world` thread 7 is recorded as waiting for
mutex 9; after the destroy hook for mutex 8 the entry is still in the table
and mutex 9 still has its descriptor. -/
theorem destroy_keeps_table_witness :
    (∀ e ∈ two_lock_world.sBlockedMutexes, e.mutex ≠ 8) ∧
    (∀ e ∈ two_lock_world.sBlockedMutexes,
      (getLock two_lock_world.sLockMap e.mutex).isSome = true) ∧
    (my_pthread_mutex_destroy { mutex := 8 } two_lock_world).2.sBlockedMutexes =
      [edge 9 7 5 false] ∧
    ∀ e ∈ (my_pthread_mutex_destroy { mutex := 8 } two_lock_world).2.sBlockedMutexes,
      (getLock (my_pthread_mutex_destroy { mutex := 8 } two_lock_world).2.sLockMap
        e.mutex).isSome = true :=
  ⟨by decide, by decide, (destroy_keeps_table two_lock_world 8).1,
    (destroy_keeps_table two_lock_world 8).2.2 (by decide) (by decide)⟩

/-! ## One pass of the loop of `try_lock` -/

theorem try_lock_body_some (fuel : Nat) (tid : Int) (isMainThread : Bool) (tm : Int)
    (lock : LockInfo) (t : Tick) (err : Int) (st st2 : LoopState)
    (h : try_lock_body fuel tid isMainThread tm lock t err st = some st2) :
    ∃ tbl2 links,
      find_dead_locks fuel tid force_default (pass_table tid lock t st) [] =
        some (tbl2, links) ∧
      st2.gate =
        (if links = [] then
          (if block_warned tm t st && isMainThread then
            (if st.gate < 1000 then 300 else 1000)
          else st.gate)
        else -1) ∧
      st2.selfLockDetected = (st.selfLockDetected || self_lock_reported tid lock t st) ∧
      st2.isDeadLocked = (st.isDeadLocked || !links.isEmpty) ∧
      st2.needRemoveFromDeadLock = true ∧
      st2.sBlockedMutexes = tbl2 ∧
      st2.log =
        st.log ++ (if block_warned tm t st then [block_event tid tm lock t err] else []) ++
          (if self_lock_reported tid lock t st then [Event.self_deadlock tid isMainThread]
            else []) ++
          links.map (Event.deadlock tid isMainThread) := by
  unfold try_lock_body at h
  simp only [] at h
  have htable : (if (!st.needRemoveFromDeadLock) = true then
        collect_blocked_items tid
          { lock with owner := t.owner, enter_time := t.enter_time } st.sBlockedMutexes
      else st.sBlockedMutexes) = pass_table tid lock t st := rfl
  rw [htable] at h
  cases hf : find_dead_locks fuel tid force_default (pass_table tid lock t st) [] with
  | none => rw [hf] at h; simp at h
  | some r =>
    obtain ⟨tbl2, links⟩ := r
    rw [hf] at h
    simp only [Option.some.injEq] at h
    subst h
    refine ⟨tbl2, links, rfl, ?_, rfl, rfl, rfl, rfl, ?_⟩
    · cases links <;> simp [block_warned]
    · simp only [block_warned, self_lock_reported, block_event]
      by_cases hw : (decide (t.now - tm > st.gate) &&
          (!st.isDeadLocked && !st.selfLockDetected)) = true
      · by_cases hs : (decide (t.owner = tid) && !lock.recursive &&
            !st.selfLockDetected) = true
        · simp [hw, hs]
        · simp [hw, hs]
      · by_cases hs : (decide (t.owner = tid) && !lock.recursive &&
            !st.selfLockDetected) = true
        · simp [hw, hs]
        · simp [hw, hs]

theorem find_dead_locks_table (fuel : Nat) (T : Int) (force : Bool)
    (tbl tbl2 : List BlockedMutex) (links : List (List BlockedMutex))
    (h : find_dead_locks fuel T force tbl [] = some (tbl2, links)) :
    (links = [] ∧ tbl2 = tbl) ∨
    (links ≠ [] ∧ tbl2 = mark_dumped T tbl ∧ (∃ x ∈ tbl, x.blocked_thread = T) ∧
      (!force && already_dumped T tbl) = false) := by
  rw [find_dead_locks_eq] at h
  by_cases h1 : tbl.length < 2
  · rw [if_pos h1] at h
    simp only [Option.some.injEq, Prod.mk.injEq] at h
    exact Or.inl ⟨h.2.symm, h.1.symm⟩
  · rw [if_neg h1] at h
    by_cases h2 : (!force && already_dumped T tbl) = true
    · rw [if_pos h2] at h
      simp only [Option.some.injEq, Prod.mk.injEq] at h
      exact Or.inl ⟨h.2.symm, h.1.symm⟩
    · rw [if_neg h2] at h
      cases hs : search_links tbl T fuel (start_points T tbl) [] with
      | none => rw [hs] at h; simp at h
      | some found =>
        rw [hs] at h
        simp only at h
        by_cases hz : found.length > 0
        · rw [if_pos hz] at h
          by_cases hg : found.length ≥ (start_points T tbl).length
          · rw [if_pos hg] at h
            simp only [Option.some.injEq, Prod.mk.injEq] at h
            obtain ⟨rfl, rfl⟩ := h
            refine Or.inr ⟨?_, rfl, ?_, by simpa using h2⟩
            · intro hn; rw [hn] at hz; simp at hz
            · have hsp : start_points T tbl ≠ [] := by
                intro hn
                rw [hn] at hs
                simp only [search_links, Option.some.injEq] at hs
                rw [← hs] at hz
                simp at hz
              obtain ⟨p, hp⟩ := List.exists_mem_of_ne_nil _ hsp
              have hp2 := List.mem_filter.mp hp
              exact ⟨p.2, List.snd_mem_of_mem_enumFrom hp2.1, by simpa using hp2.2⟩
          · rw [if_neg hg] at h
            simp only [Option.some.injEq, Prod.mk.injEq] at h
            exact Or.inl ⟨h.2.symm, h.1.symm⟩
        · rw [if_neg hz] at h
          simp only [Option.some.injEq, Prod.mk.injEq] at h
          have : found = [] := List.eq_nil_of_length_eq_zero (by omega)
          exact Or.inl ⟨by rw [← h.2, this], h.1.symm⟩

/-! ## The gate (C11) -/

theorem timed_lock_timeout_ok (isMainThread : Bool) (lock : LockInfo) (gate outcome : Int)
    (hg : gate_ok isMainThread gate) :
    ∀ ev ∈ (timed_lock lock gate outcome).2, Event.timeout_ok isMainThread ev := by
  intro ev hev
  unfold timed_lock at hev
  split at hev
  · split at hev
    · simp only [List.mem_singleton] at hev; subst hev; trivial
    · rename_i hneg
      simp only [List.mem_singleton] at hev
      subst hev
      unfold gate_ok at hg
      simp only [Event.timeout_ok]
      cases isMainThread
      · simp only [Bool.false_eq_true, if_false] at hg ⊢
        omega
      · simp only [if_true] at hg ⊢
        omega
  · simp at hev

theorem try_lock_body_gate_ok (fuel : Nat) (tid : Int) (isMainThread : Bool) (tm : Int)
    (lock : LockInfo) (t : Tick) (err : Int) (st st2 : LoopState)
    (h : try_lock_body fuel tid isMainThread tm lock t err st = some st2)
    (hg : gate_ok isMainThread st.gate)
    (hl : ∀ ev ∈ st.log, Event.timeout_ok isMainThread ev) :
    gate_ok isMainThread st2.gate ∧ ∀ ev ∈ st2.log, Event.timeout_ok isMainThread ev := by
  obtain ⟨tbl2, links, _, hgate, _, _, _, _, hlog⟩ :=
    try_lock_body_some fuel tid isMainThread tm lock t err st st2 h
  constructor
  · rw [hgate]
    unfold gate_ok at hg ⊢
    cases isMainThread
    · simp only [Bool.false_eq_true, if_false, Bool.and_false] at hg ⊢
      split
      · exact hg
      · exact Or.inr rfl
    · simp only [if_true, Bool.and_true] at hg ⊢
      split
      · split
        · split
          · exact Or.inr (Or.inl rfl)
          · omega
        · exact hg
      · exact Or.inr (Or.inr rfl)
  · intro ev hev
    rw [hlog] at hev
    simp only [List.mem_append, List.mem_map] at hev
    rcases hev with ((hev | hev) | hev) | ⟨link, _, rfl⟩
    · exact hl ev hev
    · split at hev
      · simp only [List.mem_singleton] at hev; subst hev; trivial
      · simp at hev
    · split at hev
      · simp only [List.mem_singleton] at hev; subst hev; trivial
      · simp at hev
    · trivial

theorem try_lock_loop_gate_ok (fuel : Nat) (tid : Int) (isMainThread : Bool) (tm : Int)
    (lock : LockInfo) :
    ∀ (ticks : List Tick) (st st2 : LoopState),
      try_lock_loop fuel tid isMainThread tm lock ticks st = some st2 →
      gate_ok isMainThread st.gate →
      (∀ ev ∈ st.log, Event.timeout_ok isMainThread ev) →
      gate_ok isMainThread st2.gate ∧ ∀ ev ∈ st2.log, Event.timeout_ok isMainThread ev := by
  intro ticks
  induction ticks with
  | nil =>
    intro st st2 h hg hl
    simp only [try_lock_loop, Option.some.injEq] at h
    subst h
    refine ⟨hg, ?_⟩
    intro ev hev
    rcases List.mem_append.mp hev with hev | hev
    · exact hl ev hev
    · exact timed_lock_timeout_ok isMainThread lock st.gate 0 hg ev hev
  | cons t rest ih =>
    intro st st2 h hg hl
    have hl1 : ∀ ev ∈ st.log ++ (timed_lock lock st.gate t.err).2,
        Event.timeout_ok isMainThread ev := by
      intro ev hev
      rcases List.mem_append.mp hev with hev | hev
      · exact hl ev hev
      · exact timed_lock_timeout_ok isMainThread lock st.gate t.err hg ev hev
    unfold try_lock_loop at h
    simp only [] at h
    by_cases hr : (timed_lock lock st.gate t.err).1 ≠ 0
    · rw [if_pos hr] at h
      cases hb : try_lock_body fuel tid isMainThread tm lock t (timed_lock lock st.gate t.err).1
          { st with log := st.log ++ (timed_lock lock st.gate t.err).2 } with
      | none => rw [hb] at h; simp at h
      | some st1 =>
        rw [hb] at h
        obtain ⟨g1, l1⟩ := try_lock_body_gate_ok fuel tid isMainThread tm lock t _ _ st1 hb hg hl1
        exact ih st1 st2 h g1 l1
    · rw [if_neg hr] at h
      simp only [Option.some.injEq] at h
      subst h
      exact ⟨hg, hl1⟩

theorem try_lock_body_log_ext (fuel : Nat) (tid : Int) (isMainThread : Bool) (tm : Int)
    (lock : LockInfo) (t : Tick) (err : Int) (st st2 : LoopState)
    (h : try_lock_body fuel tid isMainThread tm lock t err st = some st2) :
    ∃ ext, st2.log = st.log ++ ext := by
  obtain ⟨tbl2, links, _, _, _, _, _, _, hlog⟩ :=
    try_lock_body_some fuel tid isMainThread tm lock t err st st2 h
  exact ⟨_, by rw [hlog, List.append_assoc, List.append_assoc]⟩

theorem try_lock_loop_log_ext (fuel : Nat) (tid : Int) (isMainThread : Bool) (tm : Int)
    (lock : LockInfo) :
    ∀ (ticks : List Tick) (st st2 : LoopState),
      try_lock_loop fuel tid isMainThread tm lock ticks st = some st2 →
      ∃ outcome ext, st2.log = st.log ++ (timed_lock lock st.gate outcome).2 ++ ext := by
  intro ticks
  induction ticks with
  | nil =>
    intro st st2 h
    simp only [try_lock_loop, Option.some.injEq] at h
    subst h
    exact ⟨0, [], by simp⟩
  | cons t rest ih =>
    intro st st2 h
    unfold try_lock_loop at h
    simp only [] at h
    by_cases hr : (timed_lock lock st.gate t.err).1 ≠ 0
    · rw [if_pos hr] at h
      cases hb : try_lock_body fuel tid isMainThread tm lock t (timed_lock lock st.gate t.err).1
          { st with log := st.log ++ (timed_lock lock st.gate t.err).2 } with
      | none => rw [hb] at h; simp at h
      | some st1 =>
        rw [hb] at h
        obtain ⟨ext1, h1⟩ := try_lock_body_log_ext fuel tid isMainThread tm lock t _ _ st1 hb
        obtain ⟨o2, ext2, h2⟩ := ih st1 st2 h
        refine ⟨t.err, ext1 ++ (timed_lock lock st1.gate o2).2 ++ ext2, ?_⟩
        rw [h2, h1]
        simp only [List.append_assoc]
    · rw [if_neg hr] at h
      simp only [Option.some.injEq] at h
      subst h
      exact ⟨t.err, [], by simp⟩

theorem try_lock_eq (fuel : Nat) (p : Platform) (lock : LockInfo)
    (tbl : List BlockedMutex) :
    try_lock fuel p lock tbl =
      (try_lock_loop fuel p.tid p.isMainThread p.tm lock p.ticks
        (loop_start p.isMainThread tbl)).map fun st =>
          { ret := 0
            lock := lock_acquired p.tid p.enter_now lock
            sBlockedMutexes :=
              if st.needRemoveFromDeadLock then remove_blocked_item p.tid st.sBlockedMutexes
              else st.sBlockedMutexes
            log := st.log } := by
  unfold try_lock loop_start
  dsimp only
  generalize try_lock_loop fuel p.tid p.isMainThread p.tm lock p.ticks _ = res
  cases res <;> rfl

/-- C11 as stated fails: on the main thread a Block warning at gate 500 sets the
gate to 300, not to 1000, and the gate then stays at 300: with three timeouts,
each followed by a Block warning, the timed acquisition is called with the
timeouts 500, 300, 300, 300. -/
theorem block_warning_keeps_short_gate :
    block_warned 0 (late_tick 600) (loop_start true []) = true ∧
    ¬ (∀ st2, try_lock_body 0 1 true 0 free_lock (late_tick 600) 110 (loop_start true []) =
        some st2 → st2.gate = 1000) ∧
    (try_lock 0 (main_thread_call [late_tick 600, late_tick 1000, late_tick 1400]) free_lock
        []).map (fun r => r.log.filter Event.is_timedlock) =
      some [Event.timedlock 9 500, Event.timedlock 9 300, Event.timedlock 9 300,
        Event.timedlock 9 300] ∧
    (try_lock 0 (main_thread_call [late_tick 600, late_tick 1000, late_tick 1400]) free_lock
        []).map (fun r => (r.log.filter Event.is_block).length) = some 3 := by
  refine ⟨by decide, ?_, by decide, by decide⟩
  intro h
  have h1 := h _ rfl
  revert h1
  decide

/-- C11 (amended). The loop of `try_lock` starts with gate 1000, or 500 on the
main thread, and the first acquisition of a mutex is the timed one with that
timeout.  In a loop pass that emits a Block warning and reports no cycle, the
gate after the pass is: on the main thread 300 if the gate was below 1000 and
1000 otherwise; on any other thread the gate it was.  A pass that emits a
Block warning and reports a cycle ends with gate -1.  Over a whole call
every timed acquisition has timeout 500 or 300 on the main thread (so the gate
never returns to a long value there) and 1000 on any other thread. -/
theorem gate_schedule (fuel : Nat) (p : Platform) (lock : LockInfo)
    (tbl : List BlockedMutex) :
    (loop_start p.isMainThread tbl).gate = (if p.isMainThread then 500 else 1000) ∧
    (∀ r, try_lock fuel p lock tbl = some r → lock.type = MUTEX_TYPE.MUTEX →
      r.log.head? = some (Event.timedlock lock.lock (if p.isMainThread then 500 else 1000))) ∧
    (∀ t err st st2, try_lock_body fuel p.tid p.isMainThread p.tm lock t err st = some st2 →
      block_warned p.tm t st = true →
      (st2.isDeadLocked = false →
        st2.gate = if p.isMainThread then (if st.gate < 1000 then 300 else 1000) else st.gate) ∧
      (st2.isDeadLocked = true → st2.gate = -1)) ∧
    (∀ r, try_lock fuel p lock tbl = some r → ∀ m g, Event.timedlock m g ∈ r.log →
      if p.isMainThread then g = 500 ∨ g = 300 else g = 1000) := by
  have hstart : gate_ok p.isMainThread (loop_start p.isMainThread tbl).gate := by
    unfold gate_ok loop_start
    cases p.isMainThread <;> simp
  refine ⟨rfl, ?_, ?_, ?_⟩
  · intro r hr hty
    rw [try_lock_eq] at hr
    cases hl : try_lock_loop fuel p.tid p.isMainThread p.tm lock p.ticks
        (loop_start p.isMainThread tbl) with
    | none => rw [hl] at hr; simp at hr
    | some st =>
      rw [hl] at hr
      simp only [Option.map_some', Option.some.injEq] at hr
      subst hr
      obtain ⟨outcome, ext, hlog⟩ := try_lock_loop_log_ext fuel p.tid p.isMainThread p.tm lock
        p.ticks _ st hl
      have hge : ¬ (loop_start p.isMainThread tbl).gate < 0 := by
        unfold loop_start
        cases p.isMainThread <;> simp
      have hev : (timed_lock lock (loop_start p.isMainThread tbl).gate outcome).2 =
          [Event.timedlock lock.lock (loop_start p.isMainThread tbl).gate] := by
        unfold timed_lock
        rw [if_pos hty, if_neg hge]
      show st.log.head? = _
      rw [hlog, hev]
      rfl
  · intro t err st st2 hb hw
    obtain ⟨tbl2, links, _, hgate, _, hdead, _, _, _⟩ :=
      try_lock_body_some fuel p.tid p.isMainThread p.tm lock t err st st2 hb
    have hnd : st.isDeadLocked = false := by
      unfold block_warned at hw
      simp only [Bool.and_eq_true, decide_eq_true_eq, Bool.not_eq_true'] at hw
      exact hw.2.1
    rw [hnd, Bool.false_or] at hdead
    constructor
    · intro h2
      rw [h2] at hdead
      have hl : links = [] := by
        cases links with
        | nil => rfl
        | cons a l => simp at hdead
      rw [hgate, if_pos hl, hw]
      cases p.isMainThread <;> simp
    · intro h2
      rw [h2] at hdead
      have hl : links ≠ [] := by
        intro hn; rw [hn] at hdead; simp at hdead
      rw [hgate, if_neg hl]
  · intro r hr m g hmem
    rw [try_lock_eq] at hr
    cases hl : try_lock_loop fuel p.tid p.isMainThread p.tm lock p.ticks
        (loop_start p.isMainThread tbl) with
    | none => rw [hl] at hr; simp at hr
    | some st =>
      rw [hl] at hr
      simp only [Option.map_some', Option.some.injEq] at hr
      subst hr
      have := (try_lock_loop_gate_ok fuel p.tid p.isMainThread p.tm lock p.ticks _ st hl hstart
        (by intro ev hev; simp [loop_start] at hev)).2 _ hmem
      exact this

/-- Witness of C11: the main thread sees one timeout after 600 ms with the
table empty. -/
theorem gate_schedule_witness :
    (block_warned 0 (late_tick 600) (loop_start true []) = true ∧
      try_lock_body 0 1 true 0 free_lock (late_tick 600) 110 (loop_start true []) =
        some after_first_block) ∧
    (after_first_block.gate = if true then (if (loop_start true []).gate < 1000 then 300 else 1000)
      else (loop_start true []).gate) :=
  ⟨⟨by decide, by decide⟩,
    ((gate_schedule 0 (main_thread_call []) free_lock []).2.2.1 (late_tick 600) 110
      (loop_start true []) after_first_block (by decide) (by decide)).1 (by decide)⟩

/-! ## Recording and removal of the blocked entry (C14) -/

theorem mark_dumped_none (T : Int) :
    ∀ (tbl : List BlockedMutex), (∀ x ∈ tbl, x.blocked_thread ≠ T) →
      mark_dumped T tbl = tbl := by
  intro tbl
  induction tbl with
  | nil => intro _; rfl
  | cons item rest ih =>
    intro h
    have hi : ¬ item.blocked_thread = T := h item (List.mem_cons_self _ _)
    have hr := ih fun x hx => h x (List.mem_cons_of_mem _ hx)
    unfold mark_dumped at hr ⊢
    rw [List.map_cons, hr]
    simp [mark_entry, hi]

theorem mark_dumped_recorded (tid : Int) (lock : LockInfo) (t : Tick) (d : Bool)
    (tbl : List BlockedMutex) (hT : ∀ x ∈ tbl, x.blocked_thread ≠ tid) :
    mark_dumped tid (tbl ++ [recorded_edge tid lock t d]) =
      tbl ++ [recorded_edge tid lock t true] := by
  have h := mark_dumped_none tid tbl hT
  unfold mark_dumped at h ⊢
  rw [List.map_append, h]
  simp [mark_entry, recorded_edge]

theorem find_dead_locks_guard (fuel : Nat) (T : Int) (tbl : List BlockedMutex)
    (links0 : List (List BlockedMutex))
    (h : ∃ x ∈ tbl, x.blocked_thread = T ∧ x.dumped = true) :
    find_dead_locks fuel T false tbl links0 = some (tbl, links0) := by
  rw [find_dead_locks_eq]
  split
  · rfl
  · have hd : already_dumped T tbl = true := by
      obtain ⟨x, hx, hxT, hxd⟩ := h
      unfold already_dumped
      rw [List.any_eq_true]
      exact ⟨x, hx, by simp [hxT, hxd]⟩
    simp [hd]

theorem timed_lock_mutex (lock : LockInfo) (gate outcome : Int)
    (hty : lock.type = MUTEX_TYPE.MUTEX) :
    (timed_lock lock gate outcome).1 = outcome ∧
    (timed_lock lock gate outcome).2 =
      if gate < 0 then [Event.origin_lock lock.lock]
      else [Event.timedlock lock.lock gate] := by
  unfold timed_lock
  rw [if_pos hty]
  split <;> exact ⟨rfl, rfl⟩

theorem try_lock_body_recorded (fuel : Nat) (tid : Int) (isMainThread : Bool) (tm : Int)
    (lock : LockInfo) (t t1 : Tick) (err : Int) (st st2 : LoopState)
    (tbl : List BlockedMutex) (hT : ∀ x ∈ tbl, x.blocked_thread ≠ tid)
    (h : try_lock_body fuel tid isMainThread tm lock t err st = some st2)
    (htable : pass_table tid lock t st = tbl ++ [recorded_edge tid lock t1 st.isDeadLocked]) :
    st2.needRemoveFromDeadLock = true ∧
    st2.sBlockedMutexes = tbl ++ [recorded_edge tid lock t1 st2.isDeadLocked] := by
  obtain ⟨tbl2, links, hfind, _, _, hdead, hneed, htbl, _⟩ :=
    try_lock_body_some fuel tid isMainThread tm lock t err st st2 h
  refine ⟨hneed, ?_⟩
  rw [htbl, hdead]
  rw [htable] at hfind
  cases hd : st.isDeadLocked with
  | true =>
    rw [hd] at hfind
    have hg := find_dead_locks_guard fuel tid (tbl ++ [recorded_edge tid lock t1 true]) []
      ⟨recorded_edge tid lock t1 true, by simp, rfl, rfl⟩
    have hfd : force_default = false := rfl
    rw [hfd, hg] at hfind
    simp only [Option.some.injEq, Prod.mk.injEq] at hfind
    rw [← hfind.1]
    rfl
  | false =>
    rw [hd] at hfind
    rcases find_dead_locks_table fuel tid force_default _ tbl2 links hfind with
      ⟨hl, ht⟩ | ⟨hl, ht, _, _⟩
    · rw [ht, hl]; rfl
    · rw [ht, mark_dumped_recorded tid lock t1 false tbl hT]
      cases links with
      | nil => exact absurd rfl hl
      | cons a l => rfl

theorem try_lock_loop_recorded (fuel : Nat) (tid : Int) (isMainThread : Bool) (tm : Int)
    (lock : LockInfo) (t1 : Tick) (tbl : List BlockedMutex)
    (hT : ∀ x ∈ tbl, x.blocked_thread ≠ tid) :
    ∀ (ticks : List Tick) (st st2 : LoopState),
      try_lock_loop fuel tid isMainThread tm lock ticks st = some st2 →
      st.needRemoveFromDeadLock = true →
      st.sBlockedMutexes = tbl ++ [recorded_edge tid lock t1 st.isDeadLocked] →
      st2.needRemoveFromDeadLock = true ∧
      st2.sBlockedMutexes = tbl ++ [recorded_edge tid lock t1 st2.isDeadLocked] := by
  intro ticks
  induction ticks with
  | nil =>
    intro st st2 h hn ht
    simp only [try_lock_loop, Option.some.injEq] at h
    subst h
    exact ⟨hn, ht⟩
  | cons t rest ih =>
    intro st st2 h hn ht
    unfold try_lock_loop at h
    simp only [] at h
    by_cases hr : (timed_lock lock st.gate t.err).1 ≠ 0
    · rw [if_pos hr] at h
      cases hb : try_lock_body fuel tid isMainThread tm lock t (timed_lock lock st.gate t.err).1
          { st with log := st.log ++ (timed_lock lock st.gate t.err).2 } with
      | none => rw [hb] at h; simp at h
      | some st1 =>
        rw [hb] at h
        have hpass : pass_table tid lock t
            { st with log := st.log ++ (timed_lock lock st.gate t.err).2 } =
            tbl ++ [recorded_edge tid lock t1 st.isDeadLocked] := by
          simp only [pass_table, hn, Bool.not_true, Bool.false_eq_true, if_false]
          exact ht
        obtain ⟨n1, t1'⟩ := try_lock_body_recorded fuel tid isMainThread tm lock t t1 _ _ st1
          tbl hT hb hpass
        exact ih st1 st2 h n1 t1'
    · rw [if_neg hr] at h
      simp only [Option.some.injEq] at h
      subst h
      exact ⟨hn, ht⟩

theorem try_lock_body_isSome (fuel : Nat) (tid : Int) (isMainThread : Bool) (tm : Int)
    (lock : LockInfo) (t : Tick) (err : Int) (st : LoopState) :
    (try_lock_body fuel tid isMainThread tm lock t err st).isSome =
      (find_dead_locks fuel tid force_default (pass_table tid lock t st) []).isSome := by
  unfold try_lock_body
  simp only []
  have htable : (if (!st.needRemoveFromDeadLock) = true then
        collect_blocked_items tid
          { lock with owner := t.owner, enter_time := t.enter_time } st.sBlockedMutexes
      else st.sBlockedMutexes) = pass_table tid lock t st := rfl
  rw [htable]
  cases find_dead_locks fuel tid force_default (pass_table tid lock t st) [] with
  | none => rfl
  | some r => rfl

theorem try_lock_loop_first_pass (fuel : Nat) (tid : Int) (isMainThread : Bool) (tm : Int)
    (lock : LockInfo) (tbl : List BlockedMutex) (hT : ∀ x ∈ tbl, x.blocked_thread ≠ tid)
    (hty : lock.type = MUTEX_TYPE.MUTEX) (t1 : Tick) (h1 : t1.err ≠ 0)
    (more : List Tick) (st : LoopState)
    (h : try_lock_loop fuel tid isMainThread tm lock (t1 :: more)
      (loop_start isMainThread tbl) = some st) :
    st.needRemoveFromDeadLock = true ∧
    st.sBlockedMutexes = tbl ++ [recorded_edge tid lock t1 st.isDeadLocked] := by
  unfold try_lock_loop at h
  simp only [] at h
  have hr : (timed_lock lock (loop_start isMainThread tbl).gate t1.err).1 ≠ 0 := by
    rw [(timed_lock_mutex lock _ t1.err hty).1]; exact h1
  rw [if_pos hr] at h
  cases hb : try_lock_body fuel tid isMainThread tm lock t1
      (timed_lock lock (loop_start isMainThread tbl).gate t1.err).1
      { loop_start isMainThread tbl with
        log := (loop_start isMainThread tbl).log ++
          (timed_lock lock (loop_start isMainThread tbl).gate t1.err).2 } with
  | none => rw [hb] at h; simp at h
  | some st1 =>
    rw [hb] at h
    obtain ⟨n1, t1'⟩ := try_lock_body_recorded fuel tid isMainThread tm lock t1 t1 _ _ st1
      tbl hT hb rfl
    exact try_lock_loop_recorded fuel tid isMainThread tm lock t1 tbl hT more st1 st h n1 t1'

theorem try_lock_loop_returns_alone (fuel : Nat) (tid : Int) (isMainThread : Bool) (tm : Int)
    (lock : LockInfo) :
    ∀ (ticks : List Tick) (st : LoopState),
      ((st.needRemoveFromDeadLock = false ∧ st.sBlockedMutexes = []) ∨
        (st.needRemoveFromDeadLock = true ∧ st.sBlockedMutexes.length < 2)) →
      (try_lock_loop fuel tid isMainThread tm lock ticks st).isSome = true := by
  intro ticks
  induction ticks with
  | nil => intro st _; rfl
  | cons t rest ih =>
    intro st hst
    unfold try_lock_loop
    simp only []
    by_cases hr : (timed_lock lock st.gate t.err).1 ≠ 0
    · rw [if_pos hr]
      have hlen : (pass_table tid lock t
          { st with log := st.log ++ (timed_lock lock st.gate t.err).2 }).length < 2 := by
        rcases hst with ⟨hn, ht⟩ | ⟨hn, ht⟩
        · simp [pass_table, hn, ht]
        · simp only [pass_table, hn, Bool.not_true, Bool.false_eq_true, if_false]
          exact ht
      have hfind : find_dead_locks fuel tid force_default (pass_table tid lock t
          { st with log := st.log ++ (timed_lock lock st.gate t.err).2 }) [] =
          some (pass_table tid lock t
            { st with log := st.log ++ (timed_lock lock st.gate t.err).2 }, []) := by
        rw [find_dead_locks_eq, if_pos hlen]
      cases hb : try_lock_body fuel tid isMainThread tm lock t (timed_lock lock st.gate t.err).1
          { st with log := st.log ++ (timed_lock lock st.gate t.err).2 } with
      | none =>
        have := try_lock_body_isSome fuel tid isMainThread tm lock t
          (timed_lock lock st.gate t.err).1
          { st with log := st.log ++ (timed_lock lock st.gate t.err).2 }
        rw [hb, hfind] at this
        simp at this
      | some st1 =>
        obtain ⟨tbl2, links, hf, _, _, _, hneed, htbl, _⟩ :=
          try_lock_body_some fuel tid isMainThread tm lock t _ _ st1 hb
        rw [hfind] at hf
        simp only [Option.some.injEq, Prod.mk.injEq] at hf
        apply ih st1
        right
        refine ⟨hneed, ?_⟩
        rw [htbl, ← hf.1]
        exact hlen
    · rw [if_neg hr]
      rfl

/-- C14. Let thread `T` call `try_lock` on a mutex descriptor while it has no
entry in the blocked-wait table, let every tick be a failed acquisition, and
let nobody else change the table.  With no timeout the call returns and the
table is unchanged.  With at least one timeout, the first pass runs the
detector on the table extended by one entry for `T` (mutex = the address of
the descriptor, blocked thread `T`, owner thread = the owner read at that
timeout, not dumped), and after every number `j ≥ 1` of passes the table is
the starting table followed by exactly that entry, dumped exactly when a cycle
has been reported in this call.  Whenever the call returns, the table is again
the table at the start; and it does return when the table was empty at the
start. -/
theorem blocked_entry_lifecycle (fuel : Nat) (p : Platform) (lock : LockInfo)
    (tbl : List BlockedMutex) (hT : ∀ x ∈ tbl, x.blocked_thread ≠ p.tid)
    (hty : lock.type = MUTEX_TYPE.MUTEX) (herr : ∀ t ∈ p.ticks, t.err ≠ 0) :
    (p.ticks = [] → ∃ r, try_lock fuel p lock tbl = some r ∧ r.sBlockedMutexes = tbl) ∧
    (∀ t1 rest, p.ticks = t1 :: rest →
      pass_table p.tid lock t1 (loop_start p.isMainThread tbl) =
        tbl ++ [recorded_edge p.tid lock t1 false] ∧
      ∀ j st, 1 ≤ j →
        try_lock_loop fuel p.tid p.isMainThread p.tm lock (p.ticks.take j)
          (loop_start p.isMainThread tbl) = some st →
        st.sBlockedMutexes = tbl ++ [recorded_edge p.tid lock t1 st.isDeadLocked]) ∧
    (∀ r, try_lock fuel p lock tbl = some r → r.sBlockedMutexes = tbl) ∧
    (tbl = [] → ∃ r, try_lock fuel p lock tbl = some r) := by
  refine ⟨?_, ?_, ?_, ?_⟩
  · intro hticks
    exact ⟨_, try_lock_granted_at_once fuel p lock tbl hticks, rfl⟩
  · intro t1 rest hticks
    refine ⟨rfl, ?_⟩
    intro j st hj hloop
    obtain ⟨j, rfl⟩ : ∃ k, j = k + 1 := ⟨j - 1, by omega⟩
    rw [hticks, List.take_succ_cons] at hloop
    have h1 : t1.err ≠ 0 := herr t1 (by rw [hticks]; exact List.mem_cons_self _ _)
    exact (try_lock_loop_first_pass fuel p.tid p.isMainThread p.tm lock tbl hT hty t1 h1 _ st
      hloop).2
  · intro r hr
    rw [try_lock_eq] at hr
    cases hl : try_lock_loop fuel p.tid p.isMainThread p.tm lock p.ticks
        (loop_start p.isMainThread tbl) with
    | none => rw [hl] at hr; simp at hr
    | some st =>
      rw [hl] at hr
      simp only [Option.map_some', Option.some.injEq] at hr
      subst hr
      cases hticks : p.ticks with
      | nil =>
        rw [hticks] at hl
        simp only [try_lock_loop, Option.some.injEq] at hl
        subst hl
        rfl
      | cons t1 rest =>
        rw [hticks] at hl
        have h1 : t1.err ≠ 0 := herr t1 (by rw [hticks]; exact List.mem_cons_self _ _)
        obtain ⟨hn, ht⟩ := try_lock_loop_first_pass fuel p.tid p.isMainThread p.tm lock tbl hT
          hty t1 h1 rest st hl
        show (if st.needRemoveFromDeadLock = true then
            remove_blocked_item p.tid st.sBlockedMutexes else st.sBlockedMutexes) = tbl
        rw [if_pos hn, ht]
        have := remove_blocked_item_first p.tid (recorded_edge p.tid lock t1 st.isDeadLocked) []
          rfl tbl hT
        rw [this, List.append_nil]
  · intro hempty
    have := try_lock_loop_returns_alone fuel p.tid p.isMainThread p.tm lock p.ticks
      (loop_start p.isMainThread tbl) (Or.inl ⟨rfl, hempty⟩)
    rw [try_lock_eq]
    cases hl : try_lock_loop fuel p.tid p.isMainThread p.tm lock p.ticks
        (loop_start p.isMainThread tbl) with
    | none => rw [hl] at this; simp at this
    | some st => exact ⟨_, rfl⟩

/-- Witness of C14: thread 7 sees two timeouts on mutex 9 while thread 3 waits
for thread 1 in the table. -/
theorem blocked_entry_lifecycle_witness :
    (∀ x ∈ [edge 13 3 1 false], x.blocked_thread ≠ two_timeouts_call.tid) ∧
    (∀ r, try_lock 5 two_timeouts_call held_lock [edge 13 3 1 false] = some r →
      r.sBlockedMutexes = [edge 13 3 1 false]) ∧
    (try_lock 5 two_timeouts_call held_lock [edge 13 3 1 false]).isSome = true :=
  ⟨by decide,
    (blocked_entry_lifecycle 5 two_timeouts_call held_lock [edge 13 3 1 false] (by decide)
      (by decide) (by decide)).2.2.1,
    by decide⟩

/-! ## The report of a thread locked by itself (C15) -/

theorem try_lock_body_self_count (fuel : Nat) (tid : Int) (isMainThread : Bool) (tm : Int)
    (lock : LockInfo) (t : Tick) (err : Int) (st st2 : LoopState)
    (h : try_lock_body fuel tid isMainThread tm lock t err st = some st2) :
    st2.log.countP Event.is_self_deadlock =
      st.log.countP Event.is_self_deadlock +
        (if self_lock_reported tid lock t st then 1 else 0) ∧
    st2.selfLockDetected = (st.selfLockDetected || self_lock_reported tid lock t st) := by
  obtain ⟨tbl2, links, _, _, hself, _, _, _, hlog⟩ :=
    try_lock_body_some fuel tid isMainThread tm lock t err st st2 h
  refine ⟨?_, hself⟩
  rw [hlog]
  have hlinks : (links.map (Event.deadlock tid isMainThread)).countP Event.is_self_deadlock
      = 0 := by
    rw [List.countP_eq_zero]
    intro ev hev
    obtain ⟨l, _, rfl⟩ := List.mem_map.mp hev
    simp [Event.is_self_deadlock]
  have hblock : (if block_warned tm t st then [block_event tid tm lock t err]
      else []).countP Event.is_self_deadlock = 0 := by
    split <;> simp [block_event, Event.is_self_deadlock]
  rw [List.countP_append, List.countP_append, List.countP_append, hlinks, hblock]
  split <;> simp [Event.is_self_deadlock]

theorem self_count_bool (n : Nat) (a b c : Bool) :
    (n + if (b && !a) = true then 1 else 0) +
        (if (!(a || b && !a) && c) = true then 1 else 0) =
      n + if (!a && (b || c)) = true then 1 else 0 := by
  cases a <;> cases b <;> cases c <;> simp

theorem timed_lock_self_count (lock : LockInfo) (gate outcome : Int) :
    (timed_lock lock gate outcome).2.countP Event.is_self_deadlock = 0 := by
  rw [List.countP_eq_zero]
  intro ev hev
  have := timed_lock_no_diagnostic lock gate outcome ev hev
  cases ev <;> simp_all [Event.is_diagnostic, Event.is_self_deadlock]

theorem try_lock_loop_self_count (fuel : Nat) (tid : Int) (isMainThread : Bool) (tm : Int)
    (lock : LockInfo) (hty : lock.type = MUTEX_TYPE.MUTEX) :
    ∀ (ticks : List Tick) (st st2 : LoopState),
      (∀ t ∈ ticks, t.err ≠ 0) →
      try_lock_loop fuel tid isMainThread tm lock ticks st = some st2 →
      st2.log.countP Event.is_self_deadlock =
        st.log.countP Event.is_self_deadlock +
          (if !st.selfLockDetected && ticks.any (self_locked_at tid lock) then 1 else 0) := by
  intro ticks
  induction ticks with
  | nil =>
    intro st st2 _ h
    simp only [try_lock_loop, Option.some.injEq] at h
    subst h
    simp [List.countP_append, timed_lock_self_count]
  | cons t rest ih =>
    intro st st2 herr h
    have h1 : t.err ≠ 0 := herr t (List.mem_cons_self _ _)
    have hrest : ∀ x ∈ rest, x.err ≠ 0 := fun x hx => herr x (List.mem_cons_of_mem _ hx)
    unfold try_lock_loop at h
    simp only [] at h
    have hr : (timed_lock lock st.gate t.err).1 ≠ 0 := by
      rw [(timed_lock_mutex lock _ t.err hty).1]; exact h1
    rw [if_pos hr] at h
    cases hb : try_lock_body fuel tid isMainThread tm lock t (timed_lock lock st.gate t.err).1
        { st with log := st.log ++ (timed_lock lock st.gate t.err).2 } with
    | none => rw [hb] at h; simp at h
    | some st1 =>
      rw [hb] at h
      obtain ⟨hc, hs⟩ := try_lock_body_self_count fuel tid isMainThread tm lock t _ _ st1 hb
      have hi := ih st1 st2 hrest h
      have hrep : self_lock_reported tid lock t
          { st with log := st.log ++ (timed_lock lock st.gate t.err).2 } =
          (self_locked_at tid lock t && !st.selfLockDetected) := rfl
      rw [hi, hc, hs, hrep]
      simp only [List.countP_append, timed_lock_self_count, Nat.add_zero, List.any_cons]
      exact self_count_bool _ _ _ _

/-- C15. Let every tick of a call of `try_lock` on a mutex descriptor be a
failed acquisition.  After any number `j` of loop passes the log holds exactly
one report of a thread locked by itself if, at one of these `j` timeouts, the
owner read from the descriptor was the calling thread and the descriptor was
not recursive, and none otherwise: the report is emitted at the first such
timeout and never again.  The same count holds for the log of the call when it
returns.  When the table was empty at the start, every pass ends. -/
theorem self_deadlock_reported_once (fuel : Nat) (p : Platform) (lock : LockInfo)
    (tbl : List BlockedMutex) (hty : lock.type = MUTEX_TYPE.MUTEX)
    (herr : ∀ t ∈ p.ticks, t.err ≠ 0) :
    (∀ j st,
      try_lock_loop fuel p.tid p.isMainThread p.tm lock (p.ticks.take j)
        (loop_start p.isMainThread tbl) = some st →
      st.log.countP Event.is_self_deadlock =
        if (p.ticks.take j).any (self_locked_at p.tid lock) then 1 else 0) ∧
    (∀ r, try_lock fuel p lock tbl = some r →
      r.log.countP Event.is_self_deadlock =
        if p.ticks.any (self_locked_at p.tid lock) then 1 else 0) ∧
    (tbl = [] → ∀ j,
      (try_lock_loop fuel p.tid p.isMainThread p.tm lock (p.ticks.take j)
        (loop_start p.isMainThread tbl)).isSome = true) := by
  have hloop : ∀ (ticks : List Tick) (st : LoopState), (∀ t ∈ ticks, t.err ≠ 0) →
      try_lock_loop fuel p.tid p.isMainThread p.tm lock ticks
        (loop_start p.isMainThread tbl) = some st →
      st.log.countP Event.is_self_deadlock =
        if ticks.any (self_locked_at p.tid lock) then 1 else 0 := by
    intro ticks st he hl
    have := try_lock_loop_self_count fuel p.tid p.isMainThread p.tm lock hty ticks _ st he hl
    rw [this]
    simp [loop_start]
  refine ⟨?_, ?_, ?_⟩
  · intro j st hl
    exact hloop _ st (fun t ht => herr t (List.mem_of_mem_take ht)) hl
  · intro r hr
    rw [try_lock_eq] at hr
    cases hl : try_lock_loop fuel p.tid p.isMainThread p.tm lock p.ticks
        (loop_start p.isMainThread tbl) with
    | none => rw [hl] at hr; simp at hr
    | some st =>
      rw [hl] at hr
      simp only [Option.map_some', Option.some.injEq] at hr
      subst hr
      exact hloop _ st herr hl
  · intro hempty j
    exact try_lock_loop_returns_alone fuel p.tid p.isMainThread p.tm lock _
      (loop_start p.isMainThread tbl) (Or.inl ⟨rfl, hempty⟩)

/-- Witness of C15: thread 7 sees three timeouts on the non-recursive mutex 9;
at the second and third the descriptor names thread 7 as owner; one report. -/
theorem self_deadlock_reported_once_witness :
    (try_lock 0 self_lock_call free_lock []).map
        (fun r => r.log.countP Event.is_self_deadlock) = some 1 ∧
    (∀ r, try_lock 0 self_lock_call free_lock [] = some r →
      r.log.countP Event.is_self_deadlock =
        if self_lock_call.ticks.any (self_locked_at self_lock_call.tid free_lock) then 1
        else 0) :=
  ⟨by decide,
    (self_deadlock_reported_once 0 self_lock_call free_lock [] (by decide) (by decide)).2.1⟩

/-! ## After the first cycle report (C16) -/

theorem try_lock_body_reported (fuel : Nat) (tid : Int) (isMainThread : Bool) (tm : Int)
    (lock : LockInfo) (t : Tick) (err : Int) (st : LoopState)
    (hst : reported_state tid st) :
    ∃ st2, try_lock_body fuel tid isMainThread tm lock t err st = some st2 ∧
      reported_state tid st2 ∧ st2.sBlockedMutexes = st.sBlockedMutexes ∧
      ∃ ext, st2.log = st.log ++ ext ∧
        ∀ ev ∈ ext, ev = Event.self_deadlock tid isMainThread := by
  obtain ⟨hdead, hgate, hneed, hex⟩ := hst
  have hpass : pass_table tid lock t st = st.sBlockedMutexes := by
    simp [pass_table, hneed]
  have hfind : find_dead_locks fuel tid force_default (pass_table tid lock t st) [] =
      some (st.sBlockedMutexes, []) := by
    rw [hpass]
    exact find_dead_locks_guard fuel tid st.sBlockedMutexes [] hex
  cases hb : try_lock_body fuel tid isMainThread tm lock t err st with
  | none =>
    have := try_lock_body_isSome fuel tid isMainThread tm lock t err st
    rw [hb, hfind] at this
    simp at this
  | some st2 =>
    obtain ⟨tbl2, links, hf, hg2, _, hd2, hn2, ht2, hlog⟩ :=
      try_lock_body_some fuel tid isMainThread tm lock t err st st2 hb
    rw [hfind] at hf
    simp only [Option.some.injEq, Prod.mk.injEq] at hf
    obtain ⟨rfl, rfl⟩ := hf
    have hnw : block_warned tm t st = false := by
      simp [block_warned, hdead]
    refine ⟨st2, rfl, ⟨?_, ?_, hn2, ?_⟩, ht2, ?_⟩
    · rw [hd2, hdead]; rfl
    · rw [hg2, hnw]; simpa using hgate
    · rw [ht2]; exact hex
    · refine ⟨if self_lock_reported tid lock t st then
          [Event.self_deadlock tid isMainThread] else [], ?_, ?_⟩
      · rw [hlog, hnw]; simp
      · intro ev hev
        split at hev
        · simpa using hev
        · simp at hev

theorem try_lock_loop_reported (fuel : Nat) (tid : Int) (isMainThread : Bool) (tm : Int)
    (lock : LockInfo) (hty : lock.type = MUTEX_TYPE.MUTEX) :
    ∀ (ticks : List Tick) (st : LoopState), reported_state tid st →
      ∃ st3 ext, try_lock_loop fuel tid isMainThread tm lock ticks st = some st3 ∧
        reported_state tid st3 ∧ st3.sBlockedMutexes = st.sBlockedMutexes ∧
        st3.log = st.log ++ ext ∧
        ∀ ev ∈ ext, ev = Event.origin_lock lock.lock ∨
          ev = Event.self_deadlock tid isMainThread := by
  intro ticks
  induction ticks with
  | nil =>
    intro st hst
    have hev : (timed_lock lock st.gate 0).2 = [Event.origin_lock lock.lock] := by
      rw [(timed_lock_mutex lock _ 0 hty).2, if_pos (by rw [hst.2.1]; decide)]
    refine ⟨_, [Event.origin_lock lock.lock], rfl, hst, rfl, by rw [hev], ?_⟩
    intro ev hev2
    simp only [List.mem_singleton] at hev2
    exact Or.inl hev2
  | cons t rest ih =>
    intro st hst
    have hev : (timed_lock lock st.gate t.err).2 = [Event.origin_lock lock.lock] := by
      rw [(timed_lock_mutex lock _ t.err hty).2, if_pos (by rw [hst.2.1]; decide)]
    unfold try_lock_loop
    simp only []
    by_cases hr : (timed_lock lock st.gate t.err).1 ≠ 0
    · rw [if_pos hr]
      have hst1 : reported_state tid
          { st with log := st.log ++ (timed_lock lock st.gate t.err).2 } := hst
      obtain ⟨st2, hb, hrep2, htbl2, ext2, hlog2, hext2⟩ :=
        try_lock_body_reported fuel tid isMainThread tm lock t
          (timed_lock lock st.gate t.err).1 _ hst1
      rw [hb]
      obtain ⟨st3, ext3, hl3, hrep3, htbl3, hlog3, hext3⟩ := ih st2 hrep2
      refine ⟨st3, [Event.origin_lock lock.lock] ++ ext2 ++ ext3, hl3, hrep3, ?_, ?_, ?_⟩
      · rw [htbl3, htbl2]
      · rw [hlog3, hlog2, hev]
        simp only [List.append_assoc]
      · intro ev hmem
        simp only [List.mem_append, List.mem_singleton] at hmem
        rcases hmem with (hmem | hmem) | hmem
        · exact Or.inl hmem
        · exact Or.inr (hext2 ev hmem)
        · exact hext3 ev hmem
    · rw [if_neg hr]
      refine ⟨_, [Event.origin_lock lock.lock], rfl, hst, rfl, by rw [hev], ?_⟩
      intro ev hev2
      simp only [List.mem_singleton] at hev2
      exact Or.inl hev2

/-- C16. Consider a loop pass of `try_lock` on a mutex descriptor in which
`find_dead_locks` returns one or more links, with nobody else changing the
table.  The pass ends, it appends one Deadlock report per returned link to the
log (after the Block warning and the self-lock report of the pass, if any),
and it sets the gate to -1.  Every later pass of the same call ends as well:
whatever ticks follow, the log only grows by calls of the untimed acquisition
and, at most, the report of a thread locked by itself; no timed acquisition,
no Block warning and no further Deadlock report of a link are added, and the
table stays as that pass left it. -/
theorem deadlock_reported_then_quiet (fuel : Nat) (tid : Int) (isMainThread : Bool)
    (tm : Int) (lock : LockInfo) (hty : lock.type = MUTEX_TYPE.MUTEX)
    (t : Tick) (err : Int) (st : LoopState)
    (tbl2 : List BlockedMutex) (links : List (List BlockedMutex))
    (hfind : find_dead_locks fuel tid force_default (pass_table tid lock t st) [] =
      some (tbl2, links))
    (hlinks : links ≠ []) :
    ∃ st2, try_lock_body fuel tid isMainThread tm lock t err st = some st2 ∧
      st2.gate = -1 ∧ st2.isDeadLocked = true ∧
      (∃ pre, (∀ ev ∈ pre, Event.is_cycle_report ev = false) ∧
        st2.log = st.log ++ pre ++ links.map (Event.deadlock tid isMainThread)) ∧
      ∀ rest, ∃ st3 ext,
        try_lock_loop fuel tid isMainThread tm lock rest st2 = some st3 ∧
        st3.log = st2.log ++ ext ∧
        (∀ ev ∈ ext, ev = Event.origin_lock lock.lock ∨
          ev = Event.self_deadlock tid isMainThread) ∧
        st3.sBlockedMutexes = st2.sBlockedMutexes := by
  cases hb : try_lock_body fuel tid isMainThread tm lock t err st with
  | none =>
    have := try_lock_body_isSome fuel tid isMainThread tm lock t err st
    rw [hb, hfind] at this
    simp at this
  | some st2 =>
    obtain ⟨tbl2', links', hf, hg2, _, hd2, hn2, ht2, hlog⟩ :=
      try_lock_body_some fuel tid isMainThread tm lock t err st st2 hb
    rw [hfind] at hf
    simp only [Option.some.injEq, Prod.mk.injEq] at hf
    obtain ⟨rfl, rfl⟩ := hf
    have hgate : st2.gate = -1 := by rw [hg2, if_neg hlinks]
    have hdead : st2.isDeadLocked = true := by
      rw [hd2]
      cases links with
      | nil => exact absurd rfl hlinks
      | cons a l => simp
    have hrep : reported_state tid st2 := by
      refine ⟨hdead, hgate, hn2, ?_⟩
      rcases find_dead_locks_table fuel tid force_default _ tbl2 links hfind with
        ⟨hl, _⟩ | ⟨_, ht, ⟨x, hx, hxT⟩, _⟩
      · exact absurd hl hlinks
      · rw [ht2, ht]
        refine ⟨mark_entry tid x, List.mem_map.mpr ⟨x, hx, rfl⟩, ?_, mark_entry_dumped tid x hxT⟩
        rw [mark_entry_blocked_thread]; exact hxT
    refine ⟨st2, rfl, hgate, hdead, ?_, ?_⟩
    · refine ⟨(if block_warned tm t st then [block_event tid tm lock t err] else []) ++
          (if self_lock_reported tid lock t st then [Event.self_deadlock tid isMainThread]
            else []), ?_, ?_⟩
      · intro ev hev
        rcases List.mem_append.mp hev with hev | hev
        · split at hev
          · simp only [List.mem_singleton] at hev; subst hev; rfl
          · simp at hev
        · split at hev
          · simp only [List.mem_singleton] at hev; subst hev; rfl
          · simp at hev
      · rw [hlog]
        simp only [List.append_assoc]
    · intro rest
      obtain ⟨st3, ext, hl3, _, htbl3, hlog3, hext3⟩ :=
        try_lock_loop_reported fuel tid isMainThread tm lock hty rest st2 hrep
      exact ⟨st3, ext, hl3, hlog3, hext3, htbl3⟩

/-- Witness of C16: thread 7 times out on mutex 9, held by thread 5, while
thread 5 waits for a mutex held by thread 7; the detector returns one link. -/
theorem deadlock_reported_then_quiet_witness :
    find_dead_locks 5 7 force_default
        (pass_table 7 held_lock (late_tick 1100) (loop_start false abba_wait_table)) [] =
      some ([edge 31 5 7 false, edge 9 7 5 true],
        [[edge 9 7 5 false, edge 31 5 7 false]]) ∧
    ∃ st2, try_lock_body 5 7 false 0 held_lock (late_tick 1100) 110
        (loop_start false abba_wait_table) = some st2 ∧
      st2.gate = -1 ∧ st2.isDeadLocked = true ∧
      (∃ pre, (∀ ev ∈ pre, Event.is_cycle_report ev = false) ∧
        st2.log = (loop_start false abba_wait_table).log ++ pre ++
          [[edge 9 7 5 false, edge 31 5 7 false]].map (Event.deadlock 7 false)) ∧
      ∀ rest, ∃ st3 ext,
        try_lock_loop 5 7 false 0 held_lock rest st2 = some st3 ∧
        st3.log = st2.log ++ ext ∧
        (∀ ev ∈ ext, ev = Event.origin_lock held_lock.lock ∨
          ev = Event.self_deadlock 7 false) ∧
        st3.sBlockedMutexes = st2.sBlockedMutexes :=
  ⟨by decide,
    deadlock_reported_then_quiet 5 7 false 0 held_lock (by decide) (late_tick 1100) 110
      (loop_start false abba_wait_table) [edge 31 5 7 false, edge 9 7 5 true]
      [[edge 9 7 5 false, edge 31 5 7 false]] (by decide) (by decide)⟩

/-! ## Distinct positions in a link (C19) -/

theorem follow_chain_acc (tbl : List BlockedMutex) (T : Int) :
    ∀ (fuel : Nat) (cur : BlockedPtr) (items : List BlockedPtr),
      follow_chain tbl T fuel cur items =
        (follow_chain tbl T fuel cur []).map (Option.map fun ext => items ++ ext) := by
  intro fuel
  induction fuel with
  | zero => intro cur items; rfl
  | succ fuel ih =>
    intro cur items
    rw [follow_chain, follow_chain]
    cases hn : find_next_jump tbl (some cur) with
    | none => rfl
    | some q =>
      simp only []
      by_cases hown : q.2.owner_thread = T
      · rw [if_pos hown, if_pos hown]; rfl
      · rw [if_neg hown, if_neg hown, ih q (items ++ [q]), ih q ([] ++ [q])]
        cases follow_chain tbl T fuel q [] with
        | none => rfl
        | some r =>
          cases r with
          | none => rfl
          | some e => simp

theorem walk_inv (tbl : List BlockedMutex) (T : Int) (fuel : Nat) (cur : BlockedPtr)
    (ext : List BlockedPtr) (h : follow_chain tbl T fuel cur [] = some (some ext)) :
    ∃ f q rest, fuel = f + 1 ∧ find_next_jump tbl (some cur) = some q ∧ ext = q :: rest ∧
      ((q.2.owner_thread = T ∧ rest = []) ∨
        (q.2.owner_thread ≠ T ∧ follow_chain tbl T f q [] = some (some rest))) := by
  cases fuel with
  | zero => simp [follow_chain] at h
  | succ f =>
    rw [follow_chain] at h
    cases hn : find_next_jump tbl (some cur) with
    | none => rw [hn] at h; simp at h
    | some q =>
      rw [hn] at h
      simp only [] at h
      by_cases hown : q.2.owner_thread = T
      · rw [if_pos hown] at h
        simp only [List.nil_append, Option.some.injEq] at h
        exact ⟨f, q, [], rfl, rfl, h.symm, Or.inl ⟨hown, rfl⟩⟩
      · rw [if_neg hown, follow_chain_acc] at h
        cases hw : follow_chain tbl T f q [] with
        | none => rw [hw] at h; simp at h
        | some r =>
          rw [hw] at h
          cases r with
          | none => simp at h
          | some e =>
            simp only [Option.map_some', List.nil_append, List.singleton_append,
              Option.some.injEq] at h
            exact ⟨f, q, e, rfl, rfl, h.symm, Or.inr ⟨hown, hw⟩⟩

theorem walk_deterministic (tbl : List BlockedMutex) (T : Int) :
    ∀ (f1 f2 : Nat) (cur : BlockedPtr) (e1 e2 : List BlockedPtr),
      follow_chain tbl T f1 cur [] = some (some e1) →
      follow_chain tbl T f2 cur [] = some (some e2) → e1 = e2 := by
  intro f1
  induction f1 with
  | zero => intro f2 cur e1 e2 h1; simp [follow_chain] at h1
  | succ f1 ih =>
    intro f2 cur e1 e2 h1 h2
    obtain ⟨g1, q1, r1, hg1, hn1, he1, hc1⟩ := walk_inv tbl T _ cur e1 h1
    obtain ⟨g2, q2, r2, hg2, hn2, he2, hc2⟩ := walk_inv tbl T _ cur e2 h2
    rw [hn1] at hn2
    simp only [Option.some.injEq] at hn2
    subst hn2
    have hg : g1 = f1 := by omega
    subst hg
    rcases hc1 with ⟨ho1, hr1⟩ | ⟨ho1, hw1⟩
    · rcases hc2 with ⟨_, hr2⟩ | ⟨ho2, _⟩
      · rw [he1, he2, hr1, hr2]
      · exact absurd ho1 ho2
    · rcases hc2 with ⟨ho2, _⟩ | ⟨_, hw2⟩
      · exact absurd ho2 ho1
      · rw [he1, he2, ih g2 q1 r1 r2 hw1 hw2]

theorem walk_suffix (tbl : List BlockedMutex) (T : Int) :
    ∀ (fuel : Nat) (cur : BlockedPtr) (ext a : List BlockedPtr) (r : BlockedPtr)
      (b : List BlockedPtr),
      follow_chain tbl T fuel cur [] = some (some ext) → ext = a ++ r :: b → b ≠ [] →
      r.2.owner_thread ≠ T ∧ ∃ f, follow_chain tbl T f r [] = some (some b) := by
  intro fuel
  induction fuel with
  | zero => intro cur ext a r b h; simp [follow_chain] at h
  | succ fuel ih =>
    intro cur ext a r b h hext hb
    obtain ⟨g, q, rest, hg, _, he, hc⟩ := walk_inv tbl T _ cur ext h
    have hgf : g = fuel := by omega
    subst hgf
    rw [he] at hext
    rcases hc with ⟨_, hr⟩ | ⟨ho, hw⟩
    · rw [hr] at hext
      cases a with
      | nil =>
        simp only [List.nil_append, List.cons.injEq] at hext
        exact absurd hext.2.symm hb
      | cons x a' =>
        simp only [List.cons_append, List.cons.injEq] at hext
        have := hext.2
        simp at this
    · cases a with
      | nil =>
        simp only [List.nil_append, List.cons.injEq] at hext
        obtain ⟨rfl, rfl⟩ := hext
        exact ⟨ho, g, hw⟩
      | cons x a' =>
        simp only [List.cons_append, List.cons.injEq] at hext
        exact ih q rest a' r b hw hext.2 hb

theorem walk_valid (tbl : List BlockedMutex) (T : Int) :
    ∀ (fuel : Nat) (cur : BlockedPtr) (ext : List BlockedPtr),
      follow_chain tbl T fuel cur [] = some (some ext) →
      (∀ r ∈ ext, tbl[r.1]? = some r.2) ∧
      ∃ l, ext.getLast? = some l ∧ l.2.owner_thread = T := by
  intro fuel
  induction fuel with
  | zero => intro cur ext h; simp [follow_chain] at h
  | succ fuel ih =>
    intro cur ext h
    obtain ⟨g, q, rest, hg, hn, he, hc⟩ := walk_inv tbl T _ cur ext h
    have hgf : g = fuel := by omega
    subst hgf
    obtain ⟨hq, _, _⟩ := find_next_jump_sound tbl cur q hn
    rcases hc with ⟨ho, hr⟩ | ⟨_, hw⟩
    · subst hr
      subst he
      refine ⟨?_, q, rfl, ho⟩
      intro r hr
      simp only [List.mem_singleton] at hr
      subst hr; exact hq
    · obtain ⟨hv, l, hl, hlo⟩ := ih q rest hw
      subst he
      refine ⟨?_, l, ?_, hlo⟩
      · intro r hr
        rcases List.mem_cons.mp hr with rfl | hr
        · exact hq
        · exact hv r hr
      · cases rest with
        | nil => simp at hl
        | cons x xs => rw [List.getLast?_cons_cons]; exact hl

theorem ptr_eq_of_pos (tbl : List BlockedMutex) (p q : BlockedPtr)
    (hp : tbl[p.1]? = some p.2) (hq : tbl[q.1]? = some q.2) (h : p.1 = q.1) : p = q := by
  rw [h, hq] at hp
  exact Prod.ext h (Option.some.inj hp).symm

theorem walk_avoids_start (tbl : List BlockedMutex) (T : Int) (fuel : Nat)
    (cur : BlockedPtr) (ext a : List BlockedPtr) (r : BlockedPtr) (b : List BlockedPtr)
    (hcur : tbl[cur.1]? = some cur.2)
    (h : follow_chain tbl T fuel cur [] = some (some ext))
    (hext : ext = a ++ r :: b) (hb : b ≠ []) : r.1 ≠ cur.1 := by
  intro heq
  have hr : tbl[r.1]? = some r.2 :=
    (walk_valid tbl T fuel cur ext h).1 r (by rw [hext]; simp)
  have hrc : r = cur := ptr_eq_of_pos tbl r cur hr hcur heq
  obtain ⟨_, f, hf⟩ := walk_suffix tbl T fuel cur ext a r b h hext hb
  rw [hrc] at hf
  have hbe : b = ext := walk_deterministic tbl T f fuel cur b ext hf h
  have hlen := congrArg List.length hext
  rw [← hbe] at hlen
  simp only [List.length_append, List.length_cons] at hlen
  omega

theorem walk_nodup (tbl : List BlockedMutex) (T : Int) :
    ∀ (fuel : Nat) (cur : BlockedPtr) (ext : List BlockedPtr),
      follow_chain tbl T fuel cur [] = some (some ext) → (ext.map Prod.fst).Nodup := by
  intro fuel
  induction fuel with
  | zero => intro cur ext h; simp [follow_chain] at h
  | succ fuel ih =>
    intro cur ext h
    obtain ⟨g, q, rest, hg, hn, he, hc⟩ := walk_inv tbl T _ cur ext h
    have hgf : g = fuel := by omega
    subst hgf
    obtain ⟨hq, _, _⟩ := find_next_jump_sound tbl cur q hn
    subst he
    rcases hc with ⟨_, hr⟩ | ⟨ho, hw⟩
    · subst hr; simp
    · rw [List.map_cons, List.nodup_cons]
      refine ⟨?_, ih q rest hw⟩
      intro hmem
      obtain ⟨r, hr, hrq⟩ := List.mem_map.mp hmem
      obtain ⟨a, b, hab⟩ := List.append_of_mem hr
      by_cases hb : b = []
      · subst hb
        obtain ⟨hv, l, hl, hlo⟩ := walk_valid tbl T g q rest hw
        rw [hab, List.getLast?_concat] at hl
        simp only [Option.some.injEq] at hl
        subst hl
        have := ptr_eq_of_pos tbl r q (hv r hr) hq hrq
        rw [this] at hlo
        exact ho hlo
      · exact walk_avoids_start tbl T g q rest a r b hq hw hab hb hrq

theorem walk_not_back_to_start (tbl : List BlockedMutex) (T : Int) (fuel : Nat)
    (p0 : BlockedPtr) (ext : List BlockedPtr) (hp0 : tbl[p0.1]? = some p0.2)
    (hT : p0.2.blocked_thread = T)
    (h : follow_chain tbl T fuel p0 [] = some (some ext)) :
    p0.1 ∉ ext.map Prod.fst := by
  intro hmem
  obtain ⟨r, hr, hrp⟩ := List.mem_map.mp hmem
  obtain ⟨a, b, hab⟩ := List.append_of_mem hr
  by_cases hb : b = []
  · subst hb
    have hrv : tbl[r.1]? = some r.2 := (walk_valid tbl T fuel p0 ext h).1 r hr
    have hrp0 : r = p0 := ptr_eq_of_pos tbl r p0 hrv hp0 hrp
    rcases List.eq_nil_or_concat a with ha | ⟨a', s, ha⟩
    · subst ha
      obtain ⟨_, q, rest, _, hn, he, _⟩ := walk_inv tbl T fuel p0 ext h
      rw [hab] at he
      simp only [List.nil_append, List.cons.injEq] at he
      obtain ⟨_, hne, _⟩ := find_next_jump_sound tbl p0 q hn
      rw [← he.1] at hne
      exact hne hrp
    · rw [List.concat_eq_append] at ha
      have hab2 : ext = a' ++ s :: [r] := by rw [hab, ha]; simp
      obtain ⟨hso, f, hf⟩ := walk_suffix tbl T fuel p0 ext a' s [r] h hab2 (by simp)
      obtain ⟨_, q, rest, _, hn, he, _⟩ := walk_inv tbl T f s [r] hf
      simp only [List.cons.injEq] at he
      obtain ⟨_, _, hw⟩ := find_next_jump_sound tbl s q hn
      unfold waits_for at hw
      rw [← he.1, hrp0, hT] at hw
      exact hso hw
  · exact walk_avoids_start tbl T fuel p0 ext a r b hp0 h hab hb hrp

theorem follow_chain_distinct (tbl : List BlockedMutex) (T : Int) (fuel : Nat)
    (p0 : BlockedPtr) (res : List BlockedPtr) (hp0 : tbl[p0.1]? = some p0.2)
    (hT : p0.2.blocked_thread = T)
    (h : follow_chain tbl T fuel p0 [p0] = some (some res)) :
    (res.map Prod.fst).Nodup ∧ ∀ p ∈ res, tbl[p.1]? = some p.2 := by
  rw [follow_chain_acc] at h
  cases hw : follow_chain tbl T fuel p0 [] with
  | none => rw [hw] at h; simp at h
  | some r =>
    rw [hw] at h
    cases r with
    | none => simp at h
    | some ext =>
      simp only [Option.map_some', List.singleton_append, Option.some.injEq] at h
      subst h
      constructor
      · rw [List.map_cons, List.nodup_cons]
        exact ⟨walk_not_back_to_start tbl T fuel p0 ext hp0 hT hw, walk_nodup tbl T fuel p0 ext hw⟩
      · intro p hp
        rcases List.mem_cons.mp hp with rfl | hp
        · exact hp0
        · exact (walk_valid tbl T fuel p0 ext hw).1 p hp

theorem start_points_valid (T : Int) (tbl : List BlockedMutex) (p : BlockedPtr)
    (hp : p ∈ start_points T tbl) :
    tbl[p.1]? = some p.2 ∧ p.2.blocked_thread = T := by
  have hp2 := List.mem_filter.mp hp
  have hv := (List.mk_mem_enumFrom_iff_le_and_getElem?_sub (n := 0) (i := p.1)
    (x := p.2) (l := tbl)).mp hp2.1
  exact ⟨by simpa using hv.2, by simpa using hp2.2⟩

theorem start_points_length_from (T : Int) :
    ∀ (l : List BlockedMutex) (k : Nat),
      ((l.enumFrom k).filter fun p => decide (p.2.blocked_thread = T)).length =
        l.countP fun e => decide (e.blocked_thread = T) := by
  intro l
  induction l with
  | nil => intro k; rfl
  | cons item rest ih =>
    intro k
    rw [List.enumFrom_cons, List.filter_cons, List.countP_cons]
    by_cases hT : item.blocked_thread = T
    · simp [hT, ih (k + 1)]
    · simp [hT, ih (k + 1)]

theorem search_links_distinct (tbl : List BlockedMutex) (T : Int) (fuel : Nat) :
    ∀ (bps : List BlockedPtr) (links0 links : List (List BlockedMutex)),
      (∀ p ∈ bps, tbl[p.1]? = some p.2 ∧ p.2.blocked_thread = T) →
      search_links tbl T fuel bps links0 = some links →
      links.length ≤ links0.length + bps.length ∧
      ∀ link ∈ links, link ∈ links0 ∨
        ∃ res : List BlockedPtr, (res.map Prod.fst).Nodup ∧
          (∀ p ∈ res, tbl[p.1]? = some p.2) ∧ link = res.map Prod.snd := by
  intro bps
  induction bps with
  | nil =>
    intro links0 links _ h
    simp only [search_links, Option.some.injEq] at h
    subst h
    exact ⟨by simp, fun link hl => Or.inl hl⟩
  | cons item rest ih =>
    intro links0 links hb h
    have hrest : ∀ p ∈ rest, tbl[p.1]? = some p.2 ∧ p.2.blocked_thread = T :=
      fun p hp => hb p (List.mem_cons_of_mem _ hp)
    obtain ⟨hval, hT⟩ := hb item (List.mem_cons_self _ _)
    rw [search_links] at h
    cases hw : follow_chain tbl T fuel item [item] with
    | none => rw [hw] at h; simp at h
    | some r =>
      rw [hw] at h
      cases r with
      | none =>
        obtain ⟨h1, h2⟩ := ih links0 links hrest h
        exact ⟨by rw [List.length_cons]; omega, h2⟩
      | some items =>
        obtain ⟨h1, h2⟩ := ih _ links hrest h
        refine ⟨?_, ?_⟩
        · rw [List.length_append, List.length_singleton] at h1
          rw [List.length_cons]; omega
        · intro link hl
          rcases h2 link hl with hin | hres
          · rcases List.mem_append.mp hin with hin | hnew
            · exact Or.inl hin
            · simp only [List.mem_singleton] at hnew
              obtain ⟨hnd, hv⟩ := follow_chain_distinct tbl T fuel item items hval hT hw
              exact Or.inr ⟨items, hnd, hv, hnew⟩
          · exact Or.inr hres

theorem positions_length_le (tbl : List BlockedMutex) (res : List BlockedPtr)
    (hnd : (res.map Prod.fst).Nodup) (hv : ∀ p ∈ res, tbl[p.1]? = some p.2) :
    res.length ≤ tbl.length := by
  have hsub : res.map Prod.fst ⊆ List.range tbl.length := by
    intro i hi
    obtain ⟨p, hp, rfl⟩ := List.mem_map.mp hi
    obtain ⟨hlt, _⟩ := List.getElem?_eq_some.mp (hv p hp)
    exact List.mem_range.mpr hlt
  have := (List.subperm_of_subset hnd hsub).length_le
  simpa using this

/-- C19. Every link that `find_dead_locks` returns into an empty result vector
is the list of table entries at pairwise distinct positions of the table (no
position occurs twice in a link), so a link has at most as many entries as the
table; and the call returns at most as many links as the table has entries
whose blocked thread is the input thread. -/
theorem links_distinct_positions (fuel : Nat) (T : Int) (force : Bool)
    (tbl tbl1 : List BlockedMutex) (links : List (List BlockedMutex))
    (h : find_dead_locks fuel T force tbl [] = some (tbl1, links)) :
    (∀ link ∈ links, ∃ ps : List Nat, ps.Nodup ∧
      ps.map (fun i => tbl[i]?) = link.map some ∧ link.length ≤ tbl.length) ∧
    links.length ≤ tbl.countP fun e => decide (e.blocked_thread = T) := by
  have key : ∀ found, search_links tbl T fuel (start_points T tbl) [] = some found →
      (∀ link ∈ found, ∃ ps : List Nat, ps.Nodup ∧
        ps.map (fun i => tbl[i]?) = link.map some ∧ link.length ≤ tbl.length) ∧
      found.length ≤ tbl.countP fun e => decide (e.blocked_thread = T) := by
    intro found hs
    obtain ⟨hlen, hall⟩ := search_links_distinct tbl T fuel (start_points T tbl) [] found
      (fun p hp => start_points_valid T tbl p hp) hs
    constructor
    · intro link hl
      rcases hall link hl with hin | ⟨res, hnd, hv, rfl⟩
      · simp at hin
      · refine ⟨res.map Prod.fst, hnd, ?_, ?_⟩
        · rw [List.map_map, List.map_map]
          apply List.map_congr_left
          intro p hp
          exact hv p hp
        · rw [List.length_map]
          exact positions_length_le tbl res hnd hv
    · have := start_points_length_from T tbl 0
      unfold start_points at hlen
      rw [this] at hlen
      simpa using hlen
  have hnil : (∀ link ∈ ([] : List (List BlockedMutex)), ∃ ps : List Nat, ps.Nodup ∧
        ps.map (fun i => tbl[i]?) = link.map some ∧ link.length ≤ tbl.length) ∧
      ([] : List (List BlockedMutex)).length ≤
        tbl.countP fun e => decide (e.blocked_thread = T) :=
    ⟨fun link hl => by simp at hl, by simp⟩
  rw [find_dead_locks_eq] at h
  by_cases h1 : tbl.length < 2
  · rw [if_pos h1] at h
    simp only [Option.some.injEq, Prod.mk.injEq] at h
    rw [← h.2]; exact hnil
  · rw [if_neg h1] at h
    by_cases h2 : (!force && already_dumped T tbl) = true
    · rw [if_pos h2] at h
      simp only [Option.some.injEq, Prod.mk.injEq] at h
      rw [← h.2]; exact hnil
    · rw [if_neg h2] at h
      cases hs : search_links tbl T fuel (start_points T tbl) [] with
      | none => rw [hs] at h; simp at h
      | some found =>
        rw [hs] at h
        simp only at h
        by_cases hz : found.length > 0
        · rw [if_pos hz] at h
          by_cases hg : found.length ≥ (start_points T tbl).length
          · rw [if_pos hg] at h
            simp only [Option.some.injEq, Prod.mk.injEq] at h
            rw [← h.2]; exact key found hs
          · rw [if_neg hg] at h
            simp only [Option.some.injEq, Prod.mk.injEq] at h
            rw [← h.2]; exact hnil
        · rw [if_neg hz] at h
          simp only [Option.some.injEq, Prod.mk.injEq] at h
          rw [← h.2]; exact key found hs

/-- Witness of C19: the three-thread ring searched from thread 1. -/
theorem links_distinct_positions_witness :
    find_dead_locks 5 1 false ring3 [] =
        some (ring3_dumped, [[edge 11 1 2 false, edge 12 2 3 false, edge 13 3 1 false]]) ∧
    (∀ link ∈ [[edge 11 1 2 false, edge 12 2 3 false, edge 13 3 1 false]],
      ∃ ps : List Nat, ps.Nodup ∧
        ps.map (fun i => ring3[i]?) = link.map some ∧ link.length ≤ ring3.length) ∧
    [[edge 11 1 2 false, edge 12 2 3 false, edge 13 3 1 false]].length ≤
      ring3.countP fun e => decide (e.blocked_thread = 1) :=
  ⟨by decide,
    links_distinct_positions 5 1 false ring3 ring3_dumped
      [[edge 11 1 2 false, edge 12 2 3 false, edge 13 3 1 false]] (by decide)⟩

/-! ## The lock hook behind a deadlock of other threads (C10) -/

theorem find_dead_locks_bystander_none (fuel : Nat) :
    find_dead_locks fuel 1 force_default bystander_table [] = none := by
  have hlen : ¬ bystander_table.length < 2 := by decide
  have hguard : ¬ ((!force_default && already_dumped 1 bystander_table) = true) := by decide
  have hstart : start_points 1 bystander_table = [(2, edge 23 1 2 false)] := by decide
  have hwalk : follow_chain bystander_table 1 fuel (2, edge 23 1 2 false)
      [(2, edge 23 1 2 false)] = none := by
    cases fuel with
    | zero => rfl
    | succ fuel =>
      have h2 : find_next_jump bystander_table (some (2, edge 23 1 2 false)) =
          some (0, edge 22 2 3 true) := by decide
      rw [follow_chain, h2]
      have hne : ¬ ((0, edge 22 2 3 true) : BlockedPtr).2.owner_thread = 1 := by decide
      simp only [hne, if_false]
      exact (follow_chain_bystander_table fuel _).1
  rw [find_dead_locks_eq, if_neg hlen, if_neg hguard, hstart]
  simp only [search_links, hwalk]

/-- C10 (evaluation of the code at the failing input). In `bystander_world`
mutex 23 has a descriptor, so the lock hook must handle the call of thread 1
and return 1.  The first timed acquisition times out (thread 2 holds the
mutex), the entry of thread 1 is recorded, and the table is then
`bystander_table`: the detector started from thread 1 never stops, so with any
step budget the hook does not return, although the platform would grant the
mutex at the next try. -/
theorem my_pthread_mutex_lock_bystander_never_returns (fuel : Nat) :
    getLock bystander_world.sLockMap 23 = some lock23 ∧
    pass_table 1 lock23 bystander_tick (loop_start false bystander_world.sBlockedMutexes) =
      bystander_table ∧
    my_pthread_mutex_lock fuel bystander_call { mutex := 23, retVal := 0 } bystander_world =
      none := by
  have hget : getLock bystander_world.sLockMap 23 = some lock23 := by decide
  refine ⟨hget, by decide, ?_⟩
  have hbody : try_lock_body fuel 1 false 0 lock23 bystander_tick 110 bystander_first_pass =
      none := by
    have h := try_lock_body_isSome fuel 1 false 0 lock23 bystander_tick 110
      bystander_first_pass
    have hp : pass_table 1 lock23 bystander_tick bystander_first_pass = bystander_table := by
      decide
    rw [hp, find_dead_locks_bystander_none fuel] at h
    cases hb : try_lock_body fuel 1 false 0 lock23 bystander_tick 110 bystander_first_pass with
    | none => rfl
    | some st => rw [hb] at h; simp at h
  have hloop : try_lock_loop fuel 1 false 0 lock23 [bystander_tick]
      (loop_start false bystander_world.sBlockedMutexes) = none := by
    rw [try_lock_loop]
    have hr : (timed_lock lock23 (loop_start false bystander_world.sBlockedMutexes).gate
        bystander_tick.err).1 ≠ 0 := by decide
    rw [if_pos hr]
    show (match try_lock_body fuel 1 false 0 lock23 bystander_tick 110 bystander_first_pass with
      | none => none
      | some st2 => try_lock_loop fuel 1 false 0 lock23 [] st2) = none
    rw [hbody]
  have htry : try_lock fuel bystander_call lock23 bystander_world.sBlockedMutexes = none := by
    rw [try_lock_eq]
    show (try_lock_loop fuel 1 false 0 lock23 [bystander_tick]
      (loop_start false bystander_world.sBlockedMutexes)).map _ = none
    rw [hloop]
    rfl
  unfold my_pthread_mutex_lock
  have hget2 : getLock bystander_world.sLockMap
      ({ mutex := 23, retVal := 0 } : PthreadMutexLockContext).mutex = some lock23 := hget
  rw [hget2]
  show (match try_lock fuel bystander_call lock23 bystander_world.sBlockedMutexes with
    | none => none
    | some r => _) = none
  rw [htry]

end DeadLock
